import Mathlib

/-!
Data Connect code generator: schema augmentation and operation model.

A shallow embedding of `codegen/graphql/parser.go` (the schema augmentation
engine) and `codegen/templates/operation.go` (the operation model builder),
followed by theorems about them.

Conventions of the embedding.

* Go pointers to `ast.Definition` are addresses (`Nat`) into a heap, a list of
  definitions; `new` appends a cell.  This keeps the aliasing of the source:
  `schema.Query` and `schema.Mutation` are pointers that the GraphQL library
  takes from `schema.Types`, and the snapshot of original types is a list of
  pointers that stays valid while the map is rewritten.
* Go maps with string keys are association lists.  The order of
  `Schema.Types` stands for the order in which the one `range schema.Types`
  of a run visits the entries (Go leaves that order unspecified).
* A Go call that can return an `error`, panic, or fail to return yields a `Res`.
* `strings.ToLower` and the `Plural` method of the pluralize client are
  library functions; the definitions take them as parameters.
-/

namespace DataConnect

/-! ## Results of Go calls -/

/-- Outcome of a Go call: a value, a returned `error`, a run-time panic, or no
outcome within the given fuel. -/
inductive Res (α : Type) where
  | ok (a : α)
  | error (msg : String)
  | panic (msg : String)
  | diverge
deriving DecidableEq, Repr

/-- Sequencing of Go calls: the first outcome that is not a value is the outcome. -/
def Res.bind {α β : Type} (r : Res α) (f : α → Res β) : Res β :=
  match r with
  | .ok a => f a
  | .error m => .error m
  | .panic m => .panic m
  | .diverge => .diverge

/-- The message of a nil pointer dereference. -/
def nilDeref : String := "invalid memory address or nil pointer dereference"

/-! ## The `ast` data model -/

/-- Kinds of `ast.Definition` (`ast.DefinitionKind`). -/
inductive DefinitionKind where
  | Scalar
  | Object
  | Interface
  | Union
  | Enum
  | InputObject
deriving DecidableEq, Repr

/-- The struct `ast.Type`: `leaf` has `Elem == nil`, `wrap` has `Elem != nil`. Both carry
`NamedType` and `NonNull`, as the struct does. -/
inductive AstType where
  | leaf (NamedType : String) (NonNull : Bool)
  | wrap (NamedType : String) (Elem : AstType) (NonNull : Bool)
deriving DecidableEq, Repr

/-- Field `NamedType` of `ast.Type`. -/
def AstType.NamedType : AstType → String
  | .leaf n _ => n
  | .wrap n _ _ => n

/-- Field `Elem` of `ast.Type` (`none` is nil). -/
def AstType.Elem : AstType → Option AstType
  | .leaf _ _ => none
  | .wrap _ e _ => some e

/-- Field `NonNull` of `ast.Type`. -/
def AstType.NonNull : AstType → Bool
  | .leaf _ b => b
  | .wrap _ _ b => b

/-- A copy of the struct with `NonNull` assigned. -/
def AstType.setNonNull : AstType → Bool → AstType
  | .leaf n _, b => .leaf n b
  | .wrap n e _, b => .wrap n e b

/-- The struct `ast.ArgumentDefinition` (description, name, type). -/
structure ArgumentDefinition where
  Description : String
  Name : String
  Type_ : AstType
deriving DecidableEq, Repr

/-- The struct `ast.FieldDefinition` (description, name, arguments, type). -/
structure FieldDefinition where
  Description : String
  Name : String
  Arguments : List ArgumentDefinition
  Type_ : AstType
deriving DecidableEq, Repr

/-- The struct `ast.Definition` (kind, name, fields, built-in flag). -/
structure Definition where
  Kind : DefinitionKind
  Name : String
  Fields : List FieldDefinition
  BuiltIn : Bool
deriving DecidableEq, Repr

/-! ## Go maps with string keys -/

/-- Map read `m[k]` (`none` when the key is absent). -/
def mapGet {β : Type} : List (String × β) → String → Option β
  | [], _ => none
  | (k', v) :: m, k => if k' = k then some v else mapGet m k

/-- Map write `m[k] = v`: replaces the entry of an existing key, adds one otherwise. -/
def mapSet {β : Type} : List (String × β) → String → β → List (String × β)
  | [], k, v => [(k, v)]
  | (k', v') :: m, k, v => if k' = k then (k, v) :: m else (k', v') :: mapSet m k v

/-- Keys of a map. -/
def mapKeys {β : Type} (m : List (String × β)) : List String := m.map Prod.fst

/-! ## The schema -/

/-- The struct `ast.Schema`: the definitions live in `heap`; `Types` maps a name to the
address of its definition; `Query` and `Mutation` are addresses or nil. -/
structure Schema where
  heap : List Definition
  Types : List (String × Nat)
  Query : Option Nat
  Mutation : Option Nat
deriving DecidableEq, Repr

/-- The read `schema.Types[name]`: the address and the definition behind it, `none` when
the result is nil. -/
def Schema.lookupType (schema : Schema) (name : String) : Option (Nat × Definition) :=
  match mapGet schema.Types name with
  | none => none
  | some p =>
    match schema.heap[p]? with
    | none => none
    | some d => some (p, d)

/-- The write `schema.Types[key] = &d` for a freshly allocated definition `d`. -/
def Schema.register (schema : Schema) (key : String) (d : Definition) : Schema :=
  { schema with heap := schema.heap ++ [d], Types := mapSet schema.Types key schema.heap.length }

/-- The update `p.Fields = append(p.Fields, f)` through a non-nil pointer `p`. -/
def appendField (heap : List Definition) (p : Nat) (f : FieldDefinition) : List Definition :=
  match heap[p]? with
  | none => heap
  | some d => heap.set p { d with Fields := d.Fields ++ [f] }

/-! ## `parser.go`: the schema augmentation engine -/

/-- The Go function `nonBuiltInTypesFromSchema`, over the entries of `schema.Types`. -/
def nonBuiltInTypesFromEntries (heap : List Definition) : List (String × Nat) → Res (List Nat)
  | [] => .ok []
  | (_, p) :: rest =>
    match heap[p]? with
    | none => .panic nilDeref
    | some typeDefinition =>
      match nonBuiltInTypesFromEntries heap rest with
      | .ok ps => .ok (if !typeDefinition.BuiltIn then p :: ps else ps)
      | r => r

/-- The Go function `nonBuiltInTypesFromSchema`. -/
def nonBuiltInTypesFromSchema (schema : Schema) : Res (List Nat) :=
  nonBuiltInTypesFromEntries schema.heap schema.Types

/-- The Go function `namesFromDefinitions`. -/
def namesFromDefinitions (heap : List Definition) : List Nat → Res (List String)
  | [] => .ok []
  | p :: rest =>
    match heap[p]? with
    | none => .panic nilDeref
    | some definition =>
      match namesFromDefinitions heap rest with
      | .ok names => .ok (definition.Name :: names)
      | r => r

/-- The struct `synthesizedInputTypeInfo`: two pointers. -/
structure synthesizedInputTypeInfo where
  originalType : Nat
  inputType : Nat
deriving DecidableEq, Repr

/-- The Go function `addSynthesizedInputTypesToSchemaForTypes`. -/
def addSynthesizedInputTypesToSchemaForTypes :
    Schema → List Nat → Res (Schema × List synthesizedInputTypeInfo)
  | schema, [] => .ok (schema, [])
  | schema, p :: rest =>
    match schema.heap[p]? with
    | none => .panic nilDeref
    | some typeDefinition =>
      let synthesizedInputType : Definition :=
        { typeDefinition with Name := typeDefinition.Name ++ "_Data", Kind := .InputObject }
      let q := schema.heap.length
      match addSynthesizedInputTypesToSchemaForTypes
          (schema.register synthesizedInputType.Name synthesizedInputType) rest with
      | .ok (schema', infos) => .ok (schema', { originalType := p, inputType := q } :: infos)
      | r => r

/-- The Go function `addSyntheticTypesForSdkTypesToSchema`. -/
def addSyntheticTypesForSdkTypesToSchema (schema : Schema) : Schema :=
  let s1 := schema.register "sdk:MutationRef.InsertData"
    { Kind := .Scalar, Name := "sdk:MutationRef.InsertData", Fields := [], BuiltIn := true }
  let s2 := s1.register "sdk:MutationRef.UpdateData"
    { Kind := .Scalar, Name := "sdk:MutationRef.UpdateData", Fields := [], BuiltIn := true }
  s2.register "sdk:MutationRef.DeleteData"
    { Kind := .Scalar, Name := "sdk:MutationRef.DeleteData", Fields := [], BuiltIn := true }

section Library

variable (ToLower Plural : String → String)

/-- The Go function `createInsertMutationField`, on the two definitions behind the info. -/
def createInsertMutationField (originalType inputType : Definition) : FieldDefinition :=
  { Description := ""
    Name := ToLower originalType.Name ++ "_insert"
    Arguments := [{ Description := "", Name := "data", Type_ := .leaf inputType.Name false }]
    Type_ := .leaf "sdk:MutationRef.InsertData" true }

/-- The Go function `createDeleteMutationField`. -/
def createDeleteMutationField (originalType : Definition) : FieldDefinition :=
  { Description := ""
    Name := ToLower originalType.Name ++ "_delete"
    Arguments := [{ Description := "", Name := "id", Type_ := .leaf "String" false }]
    Type_ := .leaf "sdk:MutationRef.DeleteData" false }

/-- The Go function `createUpdateMutationField`. -/
def createUpdateMutationField (originalType inputType : Definition) : FieldDefinition :=
  { Description := ""
    Name := ToLower originalType.Name ++ "_update"
    Arguments :=
      [{ Description := "", Name := "id", Type_ := .leaf "String" false },
       { Description := "", Name := "data", Type_ := .leaf inputType.Name false }]
    Type_ := .leaf "sdk:MutationRef.UpdateData" true }

/-- The Go function `createQueryFieldArguments`. -/
def createQueryFieldArguments (definition : Definition) : List ArgumentDefinition :=
  definition.Fields.map fun field =>
    { Description := field.Description, Name := field.Name,
      Type_ := field.Type_.setNonNull false }

/-- The Go function `createSingularQueryField`. -/
def createSingularQueryField (definition : Definition) : FieldDefinition :=
  { Description := ""
    Name := ToLower definition.Name
    Arguments := createQueryFieldArguments definition
    Type_ := .leaf definition.Name true }

/-- The Go function `createPluralQueryField`. -/
def createPluralQueryField (definition : Definition) : FieldDefinition :=
  { Description := ""
    Name := Plural (ToLower definition.Name)
    Arguments := createQueryFieldArguments definition
    Type_ := .wrap "" (.leaf definition.Name true) true }

/-- The loop `for _, f := range fields { root.Fields = append(root.Fields, f) }` through
the pointer `root`, which panics on a nil pointer at its first iteration. -/
def appendFieldsToRoot (heap : List Definition) (root : Option Nat) :
    List FieldDefinition → Res (List Definition)
  | [] => .ok heap
  | f :: rest =>
    match root with
    | none => .panic nilDeref
    | some p =>
      match heap[p]? with
      | none => .panic nilDeref
      | some _ => appendFieldsToRoot (appendField heap p f) root rest

/-- The Go function `addMutationFieldsForSynthesizedInputTypesToSchema`. -/
def addMutationFieldsForSynthesizedInputTypesToSchema :
    Schema → List synthesizedInputTypeInfo → Res Schema
  | schema, [] => .ok schema
  | schema, info :: rest =>
    match schema.heap[info.originalType]?, schema.heap[info.inputType]? with
    | some originalType, some inputType =>
      let mutationFields :=
        [createInsertMutationField ToLower originalType inputType,
         createDeleteMutationField ToLower originalType,
         createUpdateMutationField ToLower originalType inputType]
      match appendFieldsToRoot schema.heap schema.Mutation mutationFields with
      | .ok heap' =>
        addMutationFieldsForSynthesizedInputTypesToSchema { schema with heap := heap' } rest
      | .error m => .error m
      | .panic m => .panic m
      | .diverge => .diverge
    | _, _ => .panic nilDeref

/-- The Go function `addQueryFieldsForSynthesizedInputTypesToSchema`. -/
def addQueryFieldsForSynthesizedInputTypesToSchema :
    Schema → List synthesizedInputTypeInfo → Res Schema
  | schema, [] => .ok schema
  | schema, info :: rest =>
    match schema.heap[info.originalType]? with
    | some originalType =>
      let queryFields :=
        [createSingularQueryField ToLower originalType,
         createPluralQueryField ToLower Plural originalType]
      match appendFieldsToRoot schema.heap schema.Query queryFields with
      | .ok heap' =>
        addQueryFieldsForSynthesizedInputTypesToSchema { schema with heap := heap' } rest
      | .error m => .error m
      | .panic m => .panic m
      | .diverge => .diverge
    | none => .panic nilDeref

/-- The local struct `DefinitionFieldDefinitionPair` of the relation pass: the pointer to
the referenced type and the field to append to it. -/
structure DefinitionFieldDefinitionPair where
  definition : Nat
  fieldDefinition : FieldDefinition
deriving DecidableEq, Repr

/-- The inner loop of `addQueryRelationFieldsToSchemaForTypes` over the fields of one
type: the pairs it collects, or the error it returns. -/
def relationFieldsOfType (schema : Schema) (typeDefinition : Definition) :
    List FieldDefinition → Res (List DefinitionFieldDefinitionPair)
  | [] => .ok []
  | fieldDefinition :: rest =>
    match fieldDefinition.Type_.Elem with
    | some _ => relationFieldsOfType schema typeDefinition rest
    | none =>
      match schema.lookupType fieldDefinition.Type_.NamedType with
      | none =>
        .error ("schema.Types is missing type defined by field of type \""
          ++ typeDefinition.Name ++ "\": \"" ++ fieldDefinition.Name ++ "\"")
      | some (p, fieldType) =>
        if fieldType.BuiltIn then relationFieldsOfType schema typeDefinition rest
        else
          match relationFieldsOfType schema typeDefinition rest with
          | .ok pairs =>
            .ok ({ definition := p
                   fieldDefinition :=
                     { Description := ""
                       Name := Plural (ToLower typeDefinition.Name) ++ "_as_"
                         ++ ToLower fieldType.Name
                       Arguments := []
                       Type_ := .wrap "" (.leaf typeDefinition.Name true) true } } :: pairs)
          | r => r

/-- The first loop of `addQueryRelationFieldsToSchemaForTypes` over the type names. -/
def collectQueryRelationFields (schema : Schema) :
    List String → Res (List DefinitionFieldDefinitionPair)
  | [] => .ok []
  | typeNameToUpdate :: rest =>
    match schema.lookupType typeNameToUpdate with
    | none =>
      .error ("schema.Types is missing type specified in typeNamesToUpdate argument: \""
        ++ typeNameToUpdate ++ "\"")
    | some (_, typeDefinition) =>
      match relationFieldsOfType ToLower Plural schema typeDefinition typeDefinition.Fields with
      | .ok pairs =>
        match collectQueryRelationFields schema rest with
        | .ok morePairs => .ok (pairs ++ morePairs)
        | r => r
      | r => r

/-- The second loop of `addQueryRelationFieldsToSchemaForTypes`: append each collected
field to the type it was collected for. -/
def applyQueryRelationFields (heap : List Definition) :
    List DefinitionFieldDefinitionPair → List Definition
  | [] => heap
  | pair :: rest =>
    applyQueryRelationFields (appendField heap pair.definition pair.fieldDefinition) rest

/-- The Go function `addQueryRelationFieldsToSchemaForTypes`: the schema it leaves and
what it returns. -/
def addQueryRelationFieldsToSchemaForTypes (schema : Schema) (typeNamesToUpdate : List String) :
    Schema × Res Unit :=
  match collectQueryRelationFields ToLower Plural schema typeNamesToUpdate with
  | .ok queryRelationFields =>
    ({ schema with heap := applyQueryRelationFields schema.heap queryRelationFields }, .ok ())
  | .error m => (schema, .error m)
  | .panic m => (schema, .panic m)
  | .diverge => (schema, .diverge)

/-- The Go function `addSynthesizedTypesAndFields`: the schema it leaves and what it
returns. -/
def addSynthesizedTypesAndFields (schema : Schema) : Schema × Res Unit :=
  match nonBuiltInTypesFromSchema schema with
  | .ok originalNonBuiltInTypes =>
    match namesFromDefinitions schema.heap originalNonBuiltInTypes with
    | .ok originalNonBuiltInTypeNames =>
      match addQueryRelationFieldsToSchemaForTypes ToLower Plural
          (addSyntheticTypesForSdkTypesToSchema schema) originalNonBuiltInTypeNames with
      | (schema2, .ok _) =>
        match addSynthesizedInputTypesToSchemaForTypes schema2 originalNonBuiltInTypes with
        | .ok (schema3, synthesizedInputTypes) =>
          match addMutationFieldsForSynthesizedInputTypesToSchema ToLower schema3
              synthesizedInputTypes with
          | .ok schema4 =>
            match addQueryFieldsForSynthesizedInputTypesToSchema ToLower Plural schema4
                synthesizedInputTypes with
            | .ok schema5 => (schema5, .ok ())
            | .error m => (schema4, .error m)
            | .panic m => (schema4, .panic m)
            | .diverge => (schema4, .diverge)
          | .error m => (schema3, .error m)
          | .panic m => (schema3, .panic m)
          | .diverge => (schema3, .diverge)
        | .error m => (schema2, .error m)
        | .panic m => (schema2, .panic m)
        | .diverge => (schema2, .diverge)
      | (schema2, .error m) => (schema2, .error m)
      | (schema2, .panic m) => (schema2, .panic m)
      | (schema2, .diverge) => (schema2, .diverge)
    | .error m => (schema, .error m)
    | .panic m => (schema, .panic m)
    | .diverge => (schema, .diverge)
  | .error m => (schema, .error m)
  | .panic m => (schema, .panic m)
  | .diverge => (schema, .diverge)

end Library

/-! ## `operation.go`: the operation model builder, data model -/

/-- The struct `ast.Argument` of a directive: its name and, for the children of its value,
their raw values (`Value.Children[i].Value.Raw`). -/
structure Argument where
  Name : String
  Children : List String
deriving DecidableEq, Repr

/-- The struct `ast.Directive`. -/
structure Directive where
  Name : String
  Arguments : List Argument
deriving DecidableEq, Repr

/-- The struct `ast.VariableDefinition`: `Definition` is the definition behind the non-nil
pointer that validation (or `kotlinClassForSelectionSet`) stores. -/
structure VariableDefinition where
  Variable : String
  Type_ : AstType
  Directives : List Directive
  Definition : Definition
deriving DecidableEq, Repr

/-- The interface `ast.Selection` with its three implementations. -/
inductive Selection where
  | Field (Name : String) (Definition : FieldDefinition) (SelectionSet : List Selection)
  | FragmentSpread (Name : String)
  | InlineFragment (TypeCondition : String) (SelectionSet : List Selection)
deriving Repr

/-- The struct `ast.Field` (name, definition, selection set). -/
structure AstField where
  Name : String
  Definition : FieldDefinition
  SelectionSet : List Selection
deriving Repr

/-- The struct `kotlinFunctionParameter`. -/
structure kotlinFunctionParameter where
  Name : String
  KotlinType : String
  IsLast : Bool
deriving DecidableEq, Repr

/-- The structs `kotlinFunctionArgument` and `kotlinFunctionCall`: `plain` has a nil
`Expression`, `call` has the expression with `FunctionName` and `Arguments`. -/
inductive kotlinFunctionArgument where
  | plain (Name : String) (IsLast : Bool)
  | call (Name : String) (FunctionName : String) (Arguments : List kotlinFunctionArgument)
      (IsLast : Bool)
deriving Repr

/-- Field `Name` of `kotlinFunctionArgument`. -/
def kotlinFunctionArgument.Name : kotlinFunctionArgument → String
  | .plain n _ => n
  | .call n _ _ _ => n

/-- Field `IsLast` of `kotlinFunctionArgument`. -/
def kotlinFunctionArgument.IsLast : kotlinFunctionArgument → Bool
  | .plain _ b => b
  | .call _ _ _ b => b

/-- The assignment `a.IsLast = b`. -/
def kotlinFunctionArgument.setIsLast : kotlinFunctionArgument → Bool → kotlinFunctionArgument
  | .plain n _, b => .plain n b
  | .call n f args _, b => .call n f args b

/-- The struct `kotlinSecondaryConstructor`. -/
structure kotlinSecondaryConstructor where
  Parameters : List kotlinFunctionParameter
  PrimaryConstructorArguments : List kotlinFunctionArgument
deriving Repr

/-- The struct `kotlinClass`. -/
inductive kotlinClass where
  | mk (Name : String) (ConstructorParameters : List kotlinFunctionParameter)
      (SecondaryConstructors : List kotlinSecondaryConstructor)
      (NestedClasses : List kotlinClass)
deriving Repr

/-- Field `Name` of `kotlinClass`. -/
def kotlinClass.Name : kotlinClass → String
  | .mk n _ _ _ => n

/-- Field `ConstructorParameters` of `kotlinClass`. -/
def kotlinClass.ConstructorParameters : kotlinClass → List kotlinFunctionParameter
  | .mk _ ps _ _ => ps

/-- Field `SecondaryConstructors` of `kotlinClass`. -/
def kotlinClass.SecondaryConstructors : kotlinClass → List kotlinSecondaryConstructor
  | .mk _ _ cs _ => cs

/-- Field `NestedClasses` of `kotlinClass`. -/
def kotlinClass.NestedClasses : kotlinClass → List kotlinClass
  | .mk _ _ _ ns => ns

/-- The method `HasBody` of `kotlinClass`. -/
def kotlinClass.HasBody (r : kotlinClass) : Bool :=
  if r.NestedClasses.length > 0 then true
  else if r.SecondaryConstructors.length > 0 then true
  else false

/-! ## `operation.go`: rendering of types -/

/-- The Go function `isScalarTypeName`. -/
def isScalarTypeName (typeName : String) : Bool :=
  if typeName = "Int" then true
  else if typeName = "Float" then true
  else if typeName = "String" then true
  else if typeName = "Boolean" then true
  else if typeName = "ID" then true
  else false

/-- The Go function `isScalarType`. -/
def isScalarType (node : AstType) : Bool :=
  isScalarTypeName node.NamedType

/-- The Go function `namedTypeOfInnermostElemOfType`. -/
def namedTypeOfInnermostElemOfType : AstType → AstType
  | .leaf n b => .leaf n b
  | .wrap _ e _ => namedTypeOfInnermostElemOfType e

/-- The call `strings.HasPrefix(s, p)`. -/
def hasPrefixStr (s p : String) : Bool :=
  p.data.isPrefixOf s.data

/-- The Go function `kotlinTypeNameFromGraphQLTypeName`; `graphQLTypeName[4:]` drops the
four one-byte characters of the prefix `sdk:`. -/
def kotlinTypeNameFromGraphQLTypeName (graphQLTypeName : String) : String :=
  if graphQLTypeName = "Int" then "Int"
  else if graphQLTypeName = "Float" then "Float"
  else if graphQLTypeName = "String" then "String"
  else if graphQLTypeName = "Boolean" then "Boolean"
  else if graphQLTypeName = "ID" then "String"
  else if hasPrefixStr graphQLTypeName "sdk:" then String.mk (graphQLTypeName.data.drop 4)
  else graphQLTypeName

/-- The Go function `kotlinTypeFromTypeNode`. -/
def kotlinTypeFromTypeNode : AstType → String
  | .leaf namedType nonNull =>
    kotlinTypeNameFromGraphQLTypeName namedType ++ (if nonNull then "" else "?")
  | .wrap _ elem nonNull =>
    "List<" ++ kotlinTypeFromTypeNode elem ++ ">" ++ (if nonNull then "" else "?")

/-! ## `operation.go`: the field picker -/

/-- The Go function `pickDirectiveForVariableDefinition`. -/
def pickDirectiveForVariableDefinition (variableDefinition : VariableDefinition) :
    Option Directive :=
  variableDefinition.Directives.find? fun directive => decide (directive.Name = "pick")

/-- The key set of the map `pickedFields` that `pickedFieldsForVariableDefinition` builds
from the `fields` arguments of the directive. -/
def pickedFieldNamesOfDirective (pickDirective : Directive) : List String :=
  (pickDirective.Arguments.filter fun a => decide (a.Name = "fields")).flatMap
    fun a => a.Children

/-- The Go function `pickedFieldsForVariableDefinition`. -/
def pickedFieldsForVariableDefinition (variableDefinition : VariableDefinition) :
    List FieldDefinition :=
  match pickDirectiveForVariableDefinition variableDefinition with
  | none => variableDefinition.Definition.Fields
  | some pickDirective =>
    variableDefinition.Definition.Fields.filter fun field =>
      decide (field.Name ∈ pickedFieldNamesOfDirective pickDirective)

/-- The Go function `fieldNameSetFromFieldDefinitions`: the key set of the map it returns. -/
def fieldNameSetFromFieldDefinitions (fieldDefinitions : List FieldDefinition) : List String :=
  fieldDefinitions.map fun fieldDefinition => fieldDefinition.Name

/-- The Go function `deleteUnpickedFields`. -/
def deleteUnpickedFields (fieldDefinitions : List FieldDefinition)
    (variableDefinition : VariableDefinition) : List FieldDefinition :=
  let pickedFieldsList := pickedFieldsForVariableDefinition variableDefinition
  let pickedFieldNames := fieldNameSetFromFieldDefinitions pickedFieldsList
  fieldDefinitions.filter fun fieldDefinition => decide (fieldDefinition.Name ∈ pickedFieldNames)

/-- The Go function `fieldFromSelection`. -/
def fieldFromSelection : Selection → Res AstField
  | .Field name definition selectionSet =>
    .ok { Name := name, Definition := definition, SelectionSet := selectionSet }
  | .FragmentSpread _ => .panic "Unsupported ast.Selection type"
  | .InlineFragment _ _ => .panic "Unsupported ast.Selection type"

/-- The loop `for _, selection := range selectionSet` with `fieldFromSelection` applied to
each entry. -/
def fieldsFromSelections : List Selection → Res (List AstField)
  | [] => .ok []
  | selection :: rest =>
    match fieldFromSelection selection with
    | .ok field =>
      match fieldsFromSelections rest with
      | .ok fields => .ok (field :: fields)
      | r => r
    | .error m => .error m
    | .panic m => .panic m
    | .diverge => .diverge

/-- The Go function `fieldsSelectedBySelectionSet`. -/
def fieldsSelectedBySelectionSet (fieldDefinitions : List FieldDefinition)
    (selectionSet : List Selection) : Res (List FieldDefinition) :=
  if selectionSet.length = 0 then .ok fieldDefinitions
  else
    match fieldsFromSelections selectionSet with
    | .ok fields =>
      let selectedFieldNames := fields.map fun field => field.Name
      .ok (fieldDefinitions.filter fun fieldDefinition =>
        decide (fieldDefinition.Name ∈ selectedFieldNames))
    | .error m => .error m
    | .panic m => .panic m
    | .diverge => .diverge

/-! ## `operation.go`: classes, nested classes and convenience constructors -/

/-- The loop `for i := range ps { ps[i].IsLast = i+1 == len(ps) }` on parameters. -/
def markLastParameters (ps : List kotlinFunctionParameter) : List kotlinFunctionParameter :=
  ps.mapIdx fun i p => { p with IsLast := decide (i + 1 = ps.length) }

/-- The loop `for i := range as { as[i].IsLast = i+1 == len(as) }` on arguments. -/
def markLastArguments (as : List kotlinFunctionArgument) : List kotlinFunctionArgument :=
  as.mapIdx fun i a => a.setIsLast (decide (i + 1 = as.length))

/-- The Go function `variablesClassConstructorParametersFromVariableDefinitions`. -/
def variablesClassConstructorParametersFromVariableDefinitions
    (variableDefinitions : List VariableDefinition) : List kotlinFunctionParameter :=
  variableDefinitions.mapIdx fun i variableDefinition =>
    { Name := variableDefinition.Variable
      KotlinType := kotlinTypeFromTypeNode variableDefinition.Type_
      IsLast := decide (i + 1 = variableDefinitions.length) }

/-- The Go function `constructorParametersFromFieldDefinitions`. -/
def constructorParametersFromFieldDefinitions (fieldDefinitions : List FieldDefinition) :
    List kotlinFunctionParameter :=
  fieldDefinitions.mapIdx fun i fieldDefinition =>
    { Name := fieldDefinition.Name
      KotlinType := kotlinTypeFromTypeNode fieldDefinition.Type_
      IsLast := decide (i + 1 = fieldDefinitions.length) }

/-- The three locals of `nestedClassesFromVariableDefinitions`: the worklist and the two
maps keyed by type name. -/
structure NestedState where
  nestedTypeNames : List String
  nestedTypeDefinitionByName : List (String × Definition)
  variableDefinitionByNestedTypeName : List (String × VariableDefinition)
deriving DecidableEq, Repr

/-- The first loop of `nestedClassesFromVariableDefinitions`, which seeds the worklist
from the variable definitions. -/
def seedNestedTypes (schema : Schema) : List VariableDefinition → NestedState → Res NestedState
  | [], st => .ok st
  | variableDefinition :: rest, st =>
    if isScalarType variableDefinition.Type_ then seedNestedTypes schema rest st
    else
      let leafTypeName := (namedTypeOfInnermostElemOfType variableDefinition.Type_).NamedType
      match schema.lookupType leafTypeName with
      | none =>
        .error ("schema.Types is missing nested type defined by variable \""
          ++ variableDefinition.Variable ++ "\": " ++ leafTypeName)
      | some (_, typeInfo) =>
        if typeInfo.BuiltIn then seedNestedTypes schema rest st
        else
          let typeInfoWithUnpickedFieldsDeleted : Definition :=
            { typeInfo with Fields := deleteUnpickedFields typeInfo.Fields variableDefinition }
          seedNestedTypes schema rest
            { nestedTypeNames := st.nestedTypeNames ++ [leafTypeName]
              nestedTypeDefinitionByName :=
                mapSet st.nestedTypeDefinitionByName leafTypeName typeInfoWithUnpickedFieldsDeleted
              variableDefinitionByNestedTypeName :=
                mapSet st.variableDefinitionByNestedTypeName leafTypeName variableDefinition }

/-- The inner loop of the worklist over the fields of the dequeued type; it yields the
worklist and the map of definitions as the loop leaves them. The error message reads
`associatedVariableDefinition.Variable`, a nil dereference when the dequeued type has no
associated variable definition. -/
def expandNestedFields (schema : Schema)
    (associatedVariableDefinition : Option VariableDefinition) :
    List FieldDefinition → List String → List (String × Definition) →
      Res (List String × List (String × Definition))
  | [], nestedTypeNames, nestedTypeDefinitionByName =>
    .ok (nestedTypeNames, nestedTypeDefinitionByName)
  | fieldDefinition :: rest, nestedTypeNames, nestedTypeDefinitionByName =>
    if isScalarType fieldDefinition.Type_ then
      expandNestedFields schema associatedVariableDefinition rest nestedTypeNames
        nestedTypeDefinitionByName
    else
      let fieldTypeName := (namedTypeOfInnermostElemOfType fieldDefinition.Type_).NamedType
      match mapGet nestedTypeDefinitionByName fieldTypeName with
      | some _ =>
        expandNestedFields schema associatedVariableDefinition rest nestedTypeNames
          nestedTypeDefinitionByName
      | none =>
        match schema.lookupType fieldTypeName with
        | none =>
          match associatedVariableDefinition with
          | none => .panic nilDeref
          | some variableDefinition =>
            .error ("schema.Types is missing type defined by variable \""
              ++ variableDefinition.Variable ++ "\": " ++ fieldTypeName)
        | some (_, fieldTypeInfo) =>
          expandNestedFields schema associatedVariableDefinition rest
            (nestedTypeNames ++ [fieldTypeName])
            (mapSet nestedTypeDefinitionByName fieldTypeName fieldTypeInfo)

/-- The worklist loop `for len(nestedTypeNames) > 0` of
`nestedClassesFromVariableDefinitions`; `fuel` bounds its iterations. -/
def nestedWorklist (schema : Schema)
    (variableDefinitionByNestedTypeName : List (String × VariableDefinition)) :
    Nat → List String → List (String × Definition) → List kotlinClass → Res (List kotlinClass)
  | _, [], _, nestedClasses => .ok nestedClasses
  | 0, _ :: _, _, _ => .diverge
  | fuel + 1, typeName :: nestedTypeNames, nestedTypeDefinitionByName, nestedClasses =>
    match mapGet nestedTypeDefinitionByName typeName with
    | none => .panic nilDeref
    | some typeDefinition =>
      match expandNestedFields schema (mapGet variableDefinitionByNestedTypeName typeName)
          typeDefinition.Fields nestedTypeNames nestedTypeDefinitionByName with
      | .ok (nestedTypeNames', nestedTypeDefinitionByName') =>
        nestedWorklist schema variableDefinitionByNestedTypeName fuel nestedTypeNames'
          nestedTypeDefinitionByName'
          (nestedClasses ++
            [.mk typeName (constructorParametersFromFieldDefinitions typeDefinition.Fields) [] []])
      | .error m => .error m
      | .panic m => .panic m
      | .diverge => .diverge

/-- The Go function `nestedClassesFromVariableDefinitions`; `fuel` bounds the iterations
of its worklist. -/
def nestedClassesFromVariableDefinitions (fuel : Nat)
    (variableDefinitions : List VariableDefinition) (schema : Schema) : Res (List kotlinClass) :=
  match seedNestedTypes schema variableDefinitions
      { nestedTypeNames := [], nestedTypeDefinitionByName := [],
        variableDefinitionByNestedTypeName := [] } with
  | .ok st =>
    nestedWorklist schema st.variableDefinitionByNestedTypeName fuel st.nestedTypeNames
      st.nestedTypeDefinitionByName []
  | .error m => .error m
  | .panic m => .panic m
  | .diverge => .diverge

/-- The loop of `convenienceFunctionParametersFromFieldDefinitions` before its final
`IsLast` pass; `recurse` is the recursive call of the function. -/
def convenienceParametersLoop (schema : Schema)
    (recurse : List FieldDefinition → Res (List kotlinFunctionParameter)) :
    List FieldDefinition → Res (List kotlinFunctionParameter)
  | [] => .ok []
  | fieldDefinition :: rest =>
    if isScalarType fieldDefinition.Type_ then
      match convenienceParametersLoop schema recurse rest with
      | .ok ps =>
        .ok ({ Name := fieldDefinition.Name
               KotlinType := kotlinTypeFromTypeNode fieldDefinition.Type_
               IsLast := false } :: ps)
      | r => r
    else
      let fieldTypeName := fieldDefinition.Type_.NamedType
      match schema.lookupType fieldTypeName with
      | none =>
        .error ("schema.Types is missing type defined by field \"" ++ fieldDefinition.Name
          ++ "\": " ++ fieldTypeName)
      | some (_, fieldTypeInfo) =>
        match recurse fieldTypeInfo.Fields with
        | .ok childFunctionParameters =>
          match convenienceParametersLoop schema recurse rest with
          | .ok ps => .ok (childFunctionParameters ++ ps)
          | r => r
        | r => r

/-- The Go function `convenienceFunctionParametersFromFieldDefinitions`; `fuel` bounds
the depth of its recursion. -/
def convenienceFunctionParametersFromFieldDefinitions (schema : Schema) :
    Nat → List FieldDefinition → Res (List kotlinFunctionParameter)
  | 0, _ => .diverge
  | fuel + 1, fieldDefinitions =>
    match convenienceParametersLoop schema
        (convenienceFunctionParametersFromFieldDefinitions schema fuel) fieldDefinitions with
    | .ok ps => .ok (markLastParameters ps)
    | r => r

/-- The loop of `convenienceFunctionParametersFromVariableDefinitions` before its final
`IsLast` pass. -/
def convenienceParametersOfVariables (schema : Schema) (fuel : Nat) :
    List VariableDefinition → Res (List kotlinFunctionParameter)
  | [] => .ok []
  | variableDefinition :: rest =>
    if isScalarType variableDefinition.Type_ then
      match convenienceParametersOfVariables schema fuel rest with
      | .ok ps =>
        .ok ({ Name := variableDefinition.Variable
               KotlinType := kotlinTypeFromTypeNode variableDefinition.Type_
               IsLast := false } :: ps)
      | r => r
    else
      let variableTypeName := variableDefinition.Type_.NamedType
      match schema.lookupType variableTypeName with
      | none =>
        .error ("schema.Types is missing type defined by variable \""
          ++ variableDefinition.Variable ++ "\": " ++ variableTypeName)
      | some (_, variableTypeInfo) =>
        let pickedFields := deleteUnpickedFields variableTypeInfo.Fields variableDefinition
        match convenienceFunctionParametersFromFieldDefinitions schema fuel pickedFields with
        | .ok childFunctionParameters =>
          match convenienceParametersOfVariables schema fuel rest with
          | .ok ps => .ok (childFunctionParameters ++ ps)
          | r => r
        | r => r

/-- The Go function `convenienceFunctionParametersFromVariableDefinitions`. -/
def convenienceFunctionParametersFromVariableDefinitions (fuel : Nat)
    (variableDefinitions : List VariableDefinition) (schema : Schema) :
    Res (List kotlinFunctionParameter) :=
  match convenienceParametersOfVariables schema fuel variableDefinitions with
  | .ok ps => .ok (markLastParameters ps)
  | r => r

/-- The loop of `convenienceFunctionForwardedArgumentsFromFieldDefinitions` before its
final `IsLast` pass; `recurse` is the recursive call of the function. -/
def forwardedArgumentsLoop (schema : Schema) (functionNamePrefix : String)
    (recurse : List FieldDefinition → Res (List kotlinFunctionArgument)) :
    List FieldDefinition → Res (List kotlinFunctionArgument)
  | [] => .ok []
  | fieldDefinition :: rest =>
    if isScalarType fieldDefinition.Type_ then
      match forwardedArgumentsLoop schema functionNamePrefix recurse rest with
      | .ok as => .ok (.plain fieldDefinition.Name false :: as)
      | r => r
    else
      let fieldTypeName := fieldDefinition.Type_.NamedType
      match schema.lookupType fieldTypeName with
      | none =>
        .error ("schema.Types is missing type defined by field \"" ++ fieldDefinition.Name
          ++ "\": " ++ fieldTypeName)
      | some (_, fieldTypeInfo) =>
        match recurse fieldTypeInfo.Fields with
        | .ok childFunctionArguments =>
          match forwardedArgumentsLoop schema functionNamePrefix recurse rest with
          | .ok as =>
            .ok (.call fieldDefinition.Name (functionNamePrefix ++ fieldTypeInfo.Name)
              childFunctionArguments false :: as)
          | r => r
        | r => r

/-- The Go function `convenienceFunctionForwardedArgumentsFromFieldDefinitions`; `fuel`
bounds the depth of its recursion. -/
def convenienceFunctionForwardedArgumentsFromFieldDefinitions (schema : Schema)
    (functionNamePrefix : String) : Nat → List FieldDefinition → Res (List kotlinFunctionArgument)
  | 0, _ => .diverge
  | fuel + 1, fieldDefinitions =>
    match forwardedArgumentsLoop schema functionNamePrefix
        (convenienceFunctionForwardedArgumentsFromFieldDefinitions schema functionNamePrefix fuel)
        fieldDefinitions with
    | .ok as => .ok (markLastArguments as)
    | r => r

/-- The loop of `convenienceFunctionForwardedArgumentsFromVariableDefinitions` before its
final `IsLast` pass. -/
def forwardedArgumentsOfVariables (schema : Schema) (functionNamePrefix : String) (fuel : Nat) :
    List VariableDefinition → Res (List kotlinFunctionArgument)
  | [] => .ok []
  | variableDefinition :: rest =>
    if isScalarType variableDefinition.Type_ then
      match forwardedArgumentsOfVariables schema functionNamePrefix fuel rest with
      | .ok as => .ok (.plain variableDefinition.Variable false :: as)
      | r => r
    else
      let variableTypeName := variableDefinition.Type_.NamedType
      match schema.lookupType variableTypeName with
      | none =>
        .error ("schema.Types is missing type defined by variable \""
          ++ variableDefinition.Variable ++ "\": " ++ variableTypeName)
      | some (_, variableTypeInfo) =>
        let pickedFields := deleteUnpickedFields variableTypeInfo.Fields variableDefinition
        match convenienceFunctionForwardedArgumentsFromFieldDefinitions schema functionNamePrefix
            fuel pickedFields with
        | .ok childFunctionArguments =>
          match forwardedArgumentsOfVariables schema functionNamePrefix fuel rest with
          | .ok as =>
            .ok (.call variableDefinition.Variable (functionNamePrefix ++ variableTypeInfo.Name)
              childFunctionArguments false :: as)
          | r => r
        | r => r

/-- The Go function `convenienceFunctionForwardedArgumentsFromVariableDefinitions`. -/
def convenienceFunctionForwardedArgumentsFromVariableDefinitions (fuel : Nat)
    (variableDefinitions : List VariableDefinition) (functionNamePrefix : String)
    (schema : Schema) : Res (List kotlinFunctionArgument) :=
  match forwardedArgumentsOfVariables schema functionNamePrefix fuel variableDefinitions with
  | .ok as => .ok (markLastArguments as)
  | r => r

/-- The Go function `secondaryConstructorsFromVariableDefinitions`. -/
def secondaryConstructorsFromVariableDefinitions (fuel : Nat)
    (variableDefinitions : List VariableDefinition) (schema : Schema) :
    Res (List kotlinSecondaryConstructor) :=
  let nonScalarVariableCount :=
    (variableDefinitions.filter fun variableDefinition =>
      !isScalarType variableDefinition.Type_).length
  if nonScalarVariableCount = 0 then .ok []
  else
    match convenienceFunctionParametersFromVariableDefinitions fuel variableDefinitions schema with
    | .ok parameters =>
      match convenienceFunctionForwardedArgumentsFromVariableDefinitions fuel variableDefinitions
          "" schema with
      | .ok primaryConstructorArguments =>
        .ok [{ Parameters := parameters
               PrimaryConstructorArguments := primaryConstructorArguments }]
      | .error m => .error m
      | .panic m => .panic m
      | .diverge => .diverge
    | .error m => .error m
    | .panic m => .panic m
    | .diverge => .diverge

/-- The Go function `kotlinClassForVariableDefinitions`; `none` is the nil class. -/
def kotlinClassForVariableDefinitions (fuel : Nat) (kotlinClassName : String)
    (includeConvenienceFunctions : Bool) (variableDefinitions : List VariableDefinition)
    (schema : Schema) : Res (Option kotlinClass) :=
  if variableDefinitions.length = 0 then .ok none
  else
    match nestedClassesFromVariableDefinitions fuel variableDefinitions schema with
    | .ok nestedClasses =>
      match (if !includeConvenienceFunctions then Res.ok []
             else secondaryConstructorsFromVariableDefinitions fuel variableDefinitions schema) with
      | .ok secondaryConstructors =>
        .ok (some (.mk kotlinClassName
          (variablesClassConstructorParametersFromVariableDefinitions variableDefinitions)
          secondaryConstructors nestedClasses))
      | .error m => .error m
      | .panic m => .panic m
      | .diverge => .diverge
    | .error m => .error m
    | .panic m => .panic m
    | .diverge => .diverge

/-- The second loop of `kotlinClassForSelectionSet`: one synthetic variable definition
per selected field. -/
def variableDefinitionsOfFields (schema : Schema) : List AstField → Res (List VariableDefinition)
  | [] => .ok []
  | field :: rest =>
    let fieldTypeName := (namedTypeOfInnermostElemOfType field.Definition.Type_).NamedType
    match schema.lookupType fieldTypeName with
    | none =>
      .error ("schema.Types is missing type defined by field selection \"" ++ field.Name
        ++ "\": " ++ fieldTypeName)
    | some (_, fieldTypeInfo) =>
      match fieldsSelectedBySelectionSet fieldTypeInfo.Fields field.SelectionSet with
      | .ok selectedFields =>
        match variableDefinitionsOfFields schema rest with
        | .ok variableDefinitions =>
          .ok ({ Variable := field.Name
                 Type_ := field.Definition.Type_
                 Directives := []
                 Definition := { fieldTypeInfo with Fields := selectedFields } }
            :: variableDefinitions)
        | r => r
      | .error m => .error m
      | .panic m => .panic m
      | .diverge => .diverge

/-- The Go function `kotlinClassForSelectionSet`. -/
def kotlinClassForSelectionSet (fuel : Nat) (kotlinClassName : String)
    (selectionSet : List Selection) (schema : Schema) : Res (Option kotlinClass) :=
  if selectionSet.length = 0 then .ok none
  else
    match fieldsFromSelections selectionSet with
    | .ok fields =>
      match variableDefinitionsOfFields schema fields with
      | .ok variableDefinitions =>
        kotlinClassForVariableDefinitions fuel kotlinClassName false variableDefinitions schema
      | .error m => .error m
      | .panic m => .panic m
      | .diverge => .diverge
    | .error m => .error m
    | .panic m => .panic m
    | .diverge => .diverge

/-! ## `operation.go`: the template data of one operation -/

/-- The struct `ast.OperationDefinition` (operation kind, name, variable definitions,
selection set). -/
structure OperationDefinition where
  Operation : String
  Name : String
  VariableDefinitions : List VariableDefinition
  SelectionSet : List Selection
deriving Repr

/-- The struct `RenderOperationTemplateConfig`. -/
structure RenderOperationTemplateConfig where
  KotlinPackage : String
  Operation : OperationDefinition
  Schema : Schema
deriving Repr

/-- The struct `operationTemplateData`; `none` is a nil class. -/
structure operationTemplateData where
  KotlinPackage : String
  OperationName : String
  OperationType : String
  Variables : Option kotlinClass
  VariablesKotlinType : String
  Response : Option kotlinClass
  ResponseKotlinType : String
  ConvenienceFunctionParameters : List kotlinFunctionParameter
  ConvenienceFunctionForwardedArguments : List kotlinFunctionArgument
deriving Repr

/-- The Go function `operationTemplateDataFromRenderOperationTemplateConfig`; `fuel` is
handed to every builder it calls. -/
def operationTemplateDataFromRenderOperationTemplateConfig (fuel : Nat)
    (config : RenderOperationTemplateConfig) : Res operationTemplateData :=
  let operationName := config.Operation.Name
  match kotlinClassForVariableDefinitions fuel (operationName ++ "Variables") true
      config.Operation.VariableDefinitions config.Schema with
  | .ok variablesClass =>
    let variablesKotlinType :=
      match variablesClass with
      | some cls => cls.Name
      | none => "Unit"
    match kotlinClassForSelectionSet fuel (operationName ++ "Data") config.Operation.SelectionSet
        config.Schema with
    | .ok response =>
      let responseKotlinType :=
        match response with
        | some cls => cls.Name
        | none => "Unit"
      let templateData : operationTemplateData :=
        { KotlinPackage := config.KotlinPackage
          OperationName := operationName
          OperationType := config.Operation.Operation
          Variables := variablesClass
          VariablesKotlinType := variablesKotlinType
          Response := response
          ResponseKotlinType := responseKotlinType
          ConvenienceFunctionParameters := []
          ConvenienceFunctionForwardedArguments := [] }
      match variablesClass with
      | none => .ok templateData
      | some cls =>
        match convenienceFunctionParametersFromVariableDefinitions fuel
            config.Operation.VariableDefinitions config.Schema with
        | .ok convenienceFunctionParameters =>
          match convenienceFunctionForwardedArgumentsFromVariableDefinitions fuel
              config.Operation.VariableDefinitions
              (config.Operation.Name ++ "." ++ cls.Name ++ ".") config.Schema with
          | .ok convenienceFunctionForwardedArguments =>
            .ok { templateData with
                  ConvenienceFunctionParameters := convenienceFunctionParameters
                  ConvenienceFunctionForwardedArguments := convenienceFunctionForwardedArguments }
          | .error m => .error m
          | .panic m => .panic m
          | .diverge => .diverge
        | .error m => .error m
        | .panic m => .panic m
        | .diverge => .diverge
    | .error m => .error m
    | .panic m => .panic m
    | .diverge => .diverge
  | .error m => .error m
  | .panic m => .panic m
  | .diverge => .diverge

/-! ## Notions used to state the properties of the augmentation -/

/-- Names of the three marker scalars registered by `addSyntheticTypesForSdkTypesToSchema`. -/
def markerNames : List String :=
  ["sdk:MutationRef.InsertData", "sdk:MutationRef.UpdateData", "sdk:MutationRef.DeleteData"]

/-- Representation invariant of a schema built by the GraphQL library: the keys of `Types`
are distinct, every entry points to a definition that carries the key as its name, and the
root pointers, when not nil, point into the heap. -/
def Schema.WellFormed (schema : Schema) : Prop :=
  (mapKeys schema.Types).Nodup ∧
  (∀ e ∈ schema.Types, (schema.heap[e.2]?).map Definition.Name = some e.1) ∧
  (∀ q ∈ schema.Query, q < schema.heap.length) ∧
  (∀ q ∈ schema.Mutation, q < schema.heap.length)

instance (schema : Schema) : Decidable schema.WellFormed := by
  unfold Schema.WellFormed
  infer_instance

/-- Whether the pointer `p` points to a definition that is not built in. -/
def isNonBuiltInAt (heap : List Definition) (p : Nat) : Bool :=
  match heap[p]? with
  | some d => !d.BuiltIn
  | none => false

/-- The original types of a schema: the pointers of `Types`, in iteration order, whose
definition is not built in. -/
def originalTypes (schema : Schema) : List Nat :=
  (schema.Types.map Prod.snd).filter (isNonBuiltInAt schema.heap)

/-- The name of the definition behind a pointer (empty for a nil pointer). -/
def nameAt (heap : List Definition) (p : Nat) : String :=
  match heap[p]? with
  | some d => d.Name
  | none => ""

/-- The names of the original types, in iteration order. -/
def originalTypeNames (schema : Schema) : List String :=
  (originalTypes schema).map (nameAt schema.heap)

section Library

variable (ToLower Plural : String → String)

/-- The relation field that the field `f` of the type `owner` contributes to the type at
the address `target`, following the specification: `f` is not list-typed, its named type
is found in the schema at `target`, and that type is not built in. -/
def relationFieldOf (schema : Schema) (owner : Definition) (target : Nat)
    (f : FieldDefinition) : Option FieldDefinition :=
  match f.Type_.Elem, schema.lookupType f.Type_.NamedType with
  | none, some (r, referenced) =>
    if r = target ∧ referenced.BuiltIn = false then
      some { Description := ""
             Name := Plural (ToLower owner.Name) ++ "_as_" ++ ToLower referenced.Name
             Arguments := []
             Type_ := .wrap "" (.leaf owner.Name true) true }
    else none
  | _, _ => none

/-- The relation fields of the type at the address `target`, following the specification:
one per pair of an owner type name and a field of that owner, in the order of the owner
names and, within an owner, of its fields. -/
def relationFieldsFor (schema : Schema) (owners : List String) (target : Nat) :
    List FieldDefinition :=
  owners.flatMap fun ownerName =>
    match schema.lookupType ownerName with
    | none => []
    | some (_, owner) => owner.Fields.filterMap (relationFieldOf ToLower Plural schema owner target)

/-- The schema as the relation pass of the augmentation leaves it. -/
def schemaAfterRelationPass (schema : Schema) : Schema :=
  (addQueryRelationFieldsToSchemaForTypes ToLower Plural
    (addSyntheticTypesForSdkTypesToSchema schema) (originalTypeNames schema)).1

end Library

/-- The function `strings.ToLower` on ASCII letters. -/
def asciiLower (s : String) : String :=
  String.mk (s.data.map Char.toLower)

/-- The plural of a regular noun, as the pluralize client forms it: `movie` gives
`movies`, and a final `y` after a consonant becomes `ies` (`query` gives `queries`). -/
def regularPlural (s : String) : String :=
  match s.data.reverse with
  | 'y' :: c :: rest =>
    if c ∈ ['a', 'e', 'i', 'o', 'u'] then s ++ "s"
    else String.mk (c :: rest).reverse ++ "ies"
  | _ => s ++ "s"

/-- The input counterpart of a definition, following the specification: the same
definition named `<Type>_Data` and of kind input object. -/
def inputTypeOf (d : Definition) : Definition :=
  { d with Name := d.Name ++ "_Data", Kind := .InputObject }

/-- The three mutation fields of an original type, following the specification:
`insert(data)` returning the non-null insert marker, `delete(id)` returning the nullable
delete marker, `update(id, data)` returning the non-null update marker; `typeName` is the
name of the original type and `dataName` the name of its input type. -/
def mutationFieldsFor (ToLower : String → String) (typeName dataName : String) :
    List FieldDefinition :=
  [{ Description := "", Name := ToLower typeName ++ "_insert"
     Arguments := [{ Description := "", Name := "data", Type_ := .leaf dataName false }]
     Type_ := .leaf "sdk:MutationRef.InsertData" true },
   { Description := "", Name := ToLower typeName ++ "_delete"
     Arguments := [{ Description := "", Name := "id", Type_ := .leaf "String" false }]
     Type_ := .leaf "sdk:MutationRef.DeleteData" false },
   { Description := "", Name := ToLower typeName ++ "_update"
     Arguments := [{ Description := "", Name := "id", Type_ := .leaf "String" false },
                   { Description := "", Name := "data", Type_ := .leaf dataName false }]
     Type_ := .leaf "sdk:MutationRef.UpdateData" true }]

/-- The arguments of a synthesized query field, following the specification: one per
field, in field order, with the field's name and the field's type made nullable. -/
def queryArgumentsFor (fields : List FieldDefinition) : List ArgumentDefinition :=
  fields.map fun f =>
    { Description := f.Description, Name := f.Name, Type_ := f.Type_.setNonNull false }

/-- The singular query field `lowercase(Type)(...) -> Type!` of the specification. -/
def singularQueryFieldFor (ToLower : String → String) (typeName : String)
    (fields : List FieldDefinition) : FieldDefinition :=
  { Description := "", Name := ToLower typeName, Arguments := queryArgumentsFor fields
    Type_ := .leaf typeName true }

/-- The plural query field `pluralize(lowercase(Type))(...) -> [Type!]!` of the
specification. -/
def pluralQueryFieldFor (ToLower Plural : String → String) (typeName : String)
    (fields : List FieldDefinition) : FieldDefinition :=
  { Description := "", Name := Plural (ToLower typeName), Arguments := queryArgumentsFor fields
    Type_ := .wrap "" (.leaf typeName true) true }

/-! ## Example schemas and operations -/

/-- A built-in scalar definition, as the prelude of the GraphQL library declares it. -/
def builtInScalar (name : String) : Definition :=
  { Kind := .Scalar, Name := name, Fields := [], BuiltIn := true }

/-- A field without description and arguments. -/
def plainField (name : String) (type : AstType) : FieldDefinition :=
  { Description := "", Name := name, Arguments := [], Type_ := type }

/-- The scenario schema `type Movie { id: ID!, title: String!, studio: Studio }`,
`type Studio { id: ID!, name: String! }` with the built-in scalars and empty `Query` and
`Mutation` roots. -/
def movieSchema : Schema :=
  { heap :=
      [builtInScalar "Int", builtInScalar "Float", builtInScalar "String",
       builtInScalar "Boolean", builtInScalar "ID",
       { Kind := .Object, Name := "Query", Fields := [], BuiltIn := false },
       { Kind := .Object, Name := "Mutation", Fields := [], BuiltIn := false },
       { Kind := .Object, Name := "Movie", BuiltIn := false
         Fields := [plainField "id" (.leaf "ID" true), plainField "title" (.leaf "String" true),
                    plainField "studio" (.leaf "Studio" false)] },
       { Kind := .Object, Name := "Studio", BuiltIn := false
         Fields := [plainField "id" (.leaf "ID" true), plainField "name" (.leaf "String" true)] }]
    Types := [("Int", 0), ("Float", 1), ("String", 2), ("Boolean", 3), ("ID", 4), ("Query", 5),
              ("Mutation", 6), ("Movie", 7), ("Studio", 8)]
    Query := some 5
    Mutation := some 6 }

/-- The definition of `Studio` in `movieSchema`. -/
def studioDefinition : Definition :=
  { Kind := .Object, Name := "Studio", BuiltIn := false
    Fields := [plainField "id" (.leaf "ID" true), plainField "name" (.leaf "String" true)] }

/-- The variables `($title: String!, $studio: Studio)`. -/
def titleAndStudioVariables : List VariableDefinition :=
  [{ Variable := "title", Type_ := .leaf "String" true, Directives := [],
     Definition := builtInScalar "String" },
   { Variable := "studio", Type_ := .leaf "Studio" false, Directives := [],
     Definition := studioDefinition }]

/-- The selection set `{ studio { name } studios { id } }` on a query root with fields
`studio: Studio!` and `studios: [Studio!]!`. -/
def studioSelections : List Selection :=
  [.Field "studio" (plainField "studio" (.leaf "Studio" true))
     [.Field "name" (plainField "name" (.leaf "String" true)) []],
   .Field "studios" (plainField "studios" (.wrap "" (.leaf "Studio" true) true))
     [.Field "id" (plainField "id" (.leaf "ID" true)) []]]

/-- A schema with a type that has a list-of-scalars field: `type Tagged { tags: [String] }`. -/
def taggedSchema : Schema :=
  { heap :=
      [builtInScalar "String",
       { Kind := .InputObject, Name := "Tagged", BuiltIn := false
         Fields := [plainField "tags" (.wrap "" (.leaf "String" false) false)] }]
    Types := [("String", 0), ("Tagged", 1)]
    Query := none
    Mutation := none }

/-- The variable `$t: Tagged` over `taggedSchema`. -/
def taggedVariable : VariableDefinition :=
  { Variable := "t", Type_ := .leaf "Tagged" false, Directives := [],
    Definition :=
      { Kind := .InputObject, Name := "Tagged", BuiltIn := false
        Fields := [plainField "tags" (.wrap "" (.leaf "String" false) false)] } }

/-- The variables `($old: Studio, $new: Studio)` over `movieSchema`. -/
def oldAndNewStudioVariables : List VariableDefinition :=
  [{ Variable := "old", Type_ := .leaf "Studio" false, Directives := [],
     Definition := studioDefinition },
   { Variable := "new", Type_ := .leaf "Studio" false, Directives := [],
     Definition := studioDefinition }]

/-- A schema with an enum referenced by a field: `enum Genre`, `type Movie { genre: Genre }`. -/
def genreSchema : Schema :=
  { heap :=
      [{ Kind := .Enum, Name := "Genre", Fields := [], BuiltIn := false },
       { Kind := .Object, Name := "Movie", BuiltIn := false
         Fields := [plainField "genre" (.leaf "Genre" false)] }]
    Types := [("Genre", 0), ("Movie", 1)]
    Query := none
    Mutation := none }

/-- An empty object type, as a root type without fields of its own. -/
def emptyObject (name : String) : Definition :=
  { Kind := .Object, Name := name, Fields := [], BuiltIn := false }

/-- A schema in which the user declares both `type Movie { title: String }` and
`input Movie_Data { name: String }`. -/
def collidingSchema : Schema :=
  { heap :=
      [builtInScalar "String", emptyObject "Query", emptyObject "Mutation",
       { Kind := .Object, Name := "Movie", BuiltIn := false
         Fields := [plainField "title" (.leaf "String" false)] },
       { Kind := .InputObject, Name := "Movie_Data", BuiltIn := false
         Fields := [plainField "name" (.leaf "String" false)] }]
    Types := [("String", 0), ("Query", 1), ("Mutation", 2), ("Movie", 3), ("Movie_Data", 4)]
    Query := some 1
    Mutation := some 2 }

/-- A schema with a type whose fields return the root types:
`type Payload { query: Query, mutation: Mutation }`. -/
def payloadSchema : Schema :=
  { heap :=
      [emptyObject "Query", emptyObject "Mutation",
       { Kind := .Object, Name := "Payload", BuiltIn := false
         Fields := [plainField "query" (.leaf "Query" false),
                    plainField "mutation" (.leaf "Mutation" false)] }]
    Types := [("Query", 0), ("Mutation", 1), ("Payload", 2)]
    Query := some 0
    Mutation := some 1 }

/-- A schema with a list-typed field whose element type `Missing` is not declared:
`type Basket { items: [Missing] }`. -/
def listOfMissingSchema : Schema :=
  { heap :=
      [emptyObject "Query", emptyObject "Mutation",
       { Kind := .Object, Name := "Basket", BuiltIn := false
         Fields := [plainField "items" (.wrap "" (.leaf "Missing" false) false)] }]
    Types := [("Query", 0), ("Mutation", 1), ("Basket", 2)]
    Query := some 0
    Mutation := some 1 }

/-- A schema with a field whose type `Missing` is not declared:
`type Basket { item: Missing }`. -/
def missingTypeSchema : Schema :=
  { heap :=
      [emptyObject "Query", emptyObject "Mutation",
       { Kind := .Object, Name := "Basket", BuiltIn := false
         Fields := [plainField "item" (.leaf "Missing" false)] }]
    Types := [("Query", 0), ("Mutation", 1), ("Basket", 2)]
    Query := some 0
    Mutation := some 1 }

/-! ## Notions used to state the properties of the operation model -/

/-- The name of the innermost named type of a type reference (the leaf type name). -/
def leafTypeNameOf (t : AstType) : String :=
  (namedTypeOfInnermostElemOfType t).NamedType

/-- Whether a selection is a plain field. -/
def Selection.isField : Selection → Bool
  | .Field _ _ _ => true
  | .FragmentSpread _ => false
  | .InlineFragment _ _ => false

/-- The names of the plain fields of a selection set, in selection order. -/
def selectedFieldNames : List Selection → List String
  | [] => []
  | .Field name _ _ :: rest => name :: selectedFieldNames rest
  | .FragmentSpread _ :: rest => selectedFieldNames rest
  | .InlineFragment _ _ :: rest => selectedFieldNames rest

/-- The fields that a variable definition picks from the type `T`, following the
specification: the fields of `T` named by the `pick` directive, in the field order of
`T`; all fields of `T` when there is no `pick` directive. -/
def pickedFieldsOf (variableDefinition : VariableDefinition) (T : Definition) :
    List FieldDefinition :=
  match pickDirectiveForVariableDefinition variableDefinition with
  | none => T.Fields
  | some pickDirective =>
    T.Fields.filter fun f => decide (f.Name ∈ pickedFieldNamesOfDirective pickDirective)

/-- The constructor parameters of a class that mirrors a field list, following the
specification: one parameter per field, in field order, with the field's name and rendered
type, the final one marked last. -/
def parametersMirroring (fields : List FieldDefinition) : List kotlinFunctionParameter :=
  fields.mapIdx fun i f =>
    { Name := f.Name, KotlinType := kotlinTypeFromTypeNode f.Type_,
      IsLast := decide (i + 1 = fields.length) }

/-- A field list resolves in a schema when the leaf type of every field that is not
scalar-typed is found in the type mapping. -/
def fieldsResolve (schema : Schema) (fields : List FieldDefinition) : Prop :=
  ∀ f ∈ fields, isScalarType f.Type_ = false →
    (schema.lookupType (leafTypeNameOf f.Type_)).isSome = true

instance (schema : Schema) (fields : List FieldDefinition) :
    Decidable (fieldsResolve schema fields) := by
  unfold fieldsResolve
  infer_instance

/-- Consistency of a schema as validation leaves it: the fields of every type of the
mapping resolve. -/
def Schema.Closed (schema : Schema) : Prop :=
  ∀ e ∈ schema.Types, ∀ D ∈ schema.heap[e.2]?, fieldsResolve schema D.Fields

instance (schema : Schema) : Decidable schema.Closed := by
  unfold Schema.Closed
  infer_instance

mutual

/-- The names of the leaves of a forwarding argument, depth first: an argument without
a constructor-call expression is a leaf, a constructor call stands for the leaves of its
arguments. -/
def kotlinFunctionArgument.leafNames : kotlinFunctionArgument → List String
  | .plain name _ => [name]
  | .call _ _ arguments _ => leafNamesOfArguments arguments

/-- The names of the leaves of a list of forwarding arguments, depth first. -/
def leafNamesOfArguments : List kotlinFunctionArgument → List String
  | [] => []
  | a :: rest => a.leafNames ++ leafNamesOfArguments rest

end

/-! ## Example operations -/

/-- The selection set `{ movie { studio { name } } }` on a query root with the field
`movie: Movie!`. -/
def movieStudioNameSelections : List Selection :=
  [.Field "movie" (plainField "movie" (.leaf "Movie" true))
     [.Field "studio" (plainField "studio" (.leaf "Studio" false))
        [.Field "name" (plainField "name" (.leaf "String" true)) []]]]

/-- The selection set `{ movie { id title } }` on a query root with the field
`movie: Movie!`. -/
def movieIdTitleSelections : List Selection :=
  [.Field "movie" (plainField "movie" (.leaf "Movie" true))
     [.Field "id" (plainField "id" (.leaf "ID" true)) [],
      .Field "title" (plainField "title" (.leaf "String" true)) []]]

/-- The definition of `Movie` in `movieSchema`. -/
def movieDefinition : Definition :=
  { Kind := .Object, Name := "Movie", BuiltIn := false
    Fields := [plainField "id" (.leaf "ID" true), plainField "title" (.leaf "String" true),
               plainField "studio" (.leaf "Studio" false)] }

/-- A schema in which a type reached only through a field references an undeclared type:
`type Movie { studio: Studio }`, `type Studio { owner: Person }`, without `Person`. -/
def ownerMissingSchema : Schema :=
  { heap :=
      [{ Kind := .Object, Name := "Movie", BuiltIn := false
         Fields := [plainField "studio" (.leaf "Studio" false)] },
       { Kind := .Object, Name := "Studio", BuiltIn := false
         Fields := [plainField "owner" (.leaf "Person" false)] }]
    Types := [("Movie", 0), ("Studio", 1)]
    Query := none
    Mutation := none }

/-- The variable `$m: Movie` over `ownerMissingSchema`. -/
def ownerMissingVariable : VariableDefinition :=
  { Variable := "m", Type_ := .leaf "Movie" false, Directives := [],
    Definition :=
      { Kind := .Object, Name := "Movie", BuiltIn := false
        Fields := [plainField "studio" (.leaf "Studio" false)] } }

/-- The selection set `{ movie { title } ...MovieParts }`, whose second entry is a
fragment spread. -/
def fragmentSelections : List Selection :=
  [.Field "movie" (plainField "movie" (.leaf "Movie" true))
     [.Field "title" (plainField "title" (.leaf "String" true)) []],
   .FragmentSpread "MovieParts"]

/-- The selection set `{ movie { ... on Movie { title } } }`, whose field `movie` has an
inline fragment as sub-selection. -/
def inlineFragmentSelections : List Selection :=
  [.Field "movie" (plainField "movie" (.leaf "Movie" true))
     [.InlineFragment "Movie"
        [.Field "title" (plainField "title" (.leaf "String" true)) []]]]


/-- The operation `mutation AddMovie($title: String!, $studio: Studio) { movie { id title } }`
over `movieSchema`. -/
def addMovieConfig : RenderOperationTemplateConfig :=
  { KotlinPackage := "com.example"
    Operation :=
      { Operation := "mutation", Name := "AddMovie"
        VariableDefinitions := titleAndStudioVariables
        SelectionSet := movieIdTitleSelections }
    Schema := movieSchema }

/-- The operation `query Ping` without variables and without selections, over `movieSchema`. -/
def pingConfig : RenderOperationTemplateConfig :=
  { KotlinPackage := "com.example"
    Operation := { Operation := "query", Name := "Ping", VariableDefinitions := [], SelectionSet := [] }
    Schema := movieSchema }

/-- The template data that the build yields for `addMovieConfig`. -/
def addMovieData : operationTemplateData :=
  { KotlinPackage := "com.example"
    OperationName := "AddMovie"
    OperationType := "mutation"
    Variables := some (.mk "AddMovieVariables"
      [{ Name := "title", KotlinType := "String", IsLast := false },
       { Name := "studio", KotlinType := "Studio?", IsLast := true }]
      [{ Parameters := [{ Name := "title", KotlinType := "String", IsLast := false },
                        { Name := "id", KotlinType := "String", IsLast := false },
                        { Name := "name", KotlinType := "String", IsLast := true }]
         PrimaryConstructorArguments :=
           [.plain "title" false,
            .call "studio" "Studio" [.plain "id" false, .plain "name" true] true] }]
      [.mk "Studio" [{ Name := "id", KotlinType := "String", IsLast := false },
                     { Name := "name", KotlinType := "String", IsLast := true }] [] []])
    VariablesKotlinType := "AddMovieVariables"
    Response := some (.mk "AddMovieData"
      [{ Name := "movie", KotlinType := "Movie", IsLast := true }] []
      [.mk "Movie" [{ Name := "id", KotlinType := "String", IsLast := false },
                    { Name := "title", KotlinType := "String", IsLast := true }] [] []])
    ResponseKotlinType := "AddMovieData"
    ConvenienceFunctionParameters :=
      [{ Name := "title", KotlinType := "String", IsLast := false },
       { Name := "id", KotlinType := "String", IsLast := false },
       { Name := "name", KotlinType := "String", IsLast := true }]
    ConvenienceFunctionForwardedArguments :=
      [.plain "title" false,
       .call "studio" "AddMovie.AddMovieVariables.Studio"
         [.plain "id" false, .plain "name" true] true] }

/-- The template data that the build yields for `pingConfig`. -/
def pingData : operationTemplateData :=
  { KotlinPackage := "com.example"
    OperationName := "Ping"
    OperationType := "query"
    Variables := none
    VariablesKotlinType := "Unit"
    Response := none
    ResponseKotlinType := "Unit"
    ConvenienceFunctionParameters := []
    ConvenienceFunctionForwardedArguments := [] }

/-- Agreement of an outcome of the parameter flattening with an outcome of the forwarding
build, for entries named `names`: either both succeed, the forwarding list has one
argument per entry, named after it, and its leaves read depth first carry the names of the
flattened parameters; or both fail in the same way. -/
def roundTrips (names : List String) :
    Res (List kotlinFunctionParameter) → Res (List kotlinFunctionArgument) → Prop
  | .ok ps, .ok as =>
    as.map kotlinFunctionArgument.Name = names ∧
    leafNamesOfArguments as = ps.map fun p => p.Name
  | .error m, .error m' => m = m'
  | .panic m, .panic m' => m = m'
  | .diverge, .diverge => True
  | _, _ => False

/-- One pass over a field list for `scalarLeaves`; `below` gives the leaves of the fields
of a type one level down. -/
def scalarLeavesLoop (schema : Schema)
    (below : List FieldDefinition → Option (List (String × String))) :
    List FieldDefinition → Option (List (String × String))
  | [] => some []
  | f :: rest =>
    let own :=
      if isScalarType f.Type_ then some [(f.Name, kotlinTypeFromTypeNode f.Type_)]
      else
        match schema.lookupType f.Type_.NamedType with
        | none => none
        | some (_, T) => below T.Fields
    match own, scalarLeavesLoop schema below rest with
    | some leaves, some others => some (leaves ++ others)
    | _, _ => none

/-- The scalar leaves of a field list, following the specification: a scalar field
contributes itself (its name and rendered type), a non-scalar field contributes the
depth-first flattening of the fields of its type; `none` when a type is not in the schema
or the nesting is deeper than `depth`. -/
def scalarLeaves (schema : Schema) : Nat → List FieldDefinition → Option (List (String × String))
  | 0, _ => none
  | depth + 1, fields => scalarLeavesLoop schema (scalarLeaves schema depth) fields

/-- The variable `$m: Movie! @pick(fields: names)` over `movieSchema`. -/
def pickedMovieVariable (names : List String) : VariableDefinition :=
  { Variable := "m", Type_ := .leaf "Movie" true,
    Directives := [{ Name := "pick", Arguments := [{ Name := "fields", Children := names }] }],
    Definition := movieDefinition }

/-- The variables `($a: Studio @pick(fields: ["id"]), $b: Studio @pick(fields: ["name"]))`
over `movieSchema`. -/
def idAndNamePickedStudioVariables : List VariableDefinition :=
  [{ Variable := "a", Type_ := .leaf "Studio" false,
     Directives := [{ Name := "pick", Arguments := [{ Name := "fields", Children := ["id"] }] }],
     Definition := studioDefinition },
   { Variable := "b", Type_ := .leaf "Studio" false,
     Directives := [{ Name := "pick", Arguments := [{ Name := "fields", Children := ["name"] }] }],
     Definition := studioDefinition }]

/-- The input type `Movie_Data` that the augmentation synthesizes for `Movie` of
`movieSchema`: the fields of `Movie`. -/
def movieDataDefinition : Definition :=
  { Kind := .InputObject, Name := "Movie_Data", BuiltIn := false
    Fields := [plainField "id" (.leaf "ID" true), plainField "title" (.leaf "String" true),
               plainField "studio" (.leaf "Studio" false)] }

/-- The variable `$m: Movie_Data @pick(fields: ["title"])` over the augmented movie schema. -/
def titlePickedMovieDataVariable : VariableDefinition :=
  { Variable := "m", Type_ := .leaf "Movie_Data" false,
    Directives := [{ Name := "pick", Arguments := [{ Name := "fields", Children := ["title"] }] }],
    Definition := movieDataDefinition }

/-- The number of type names of the schema that have no definition yet in the map of the
worklist; it bounds the number of types that the worklist can still discover. -/
def unexpandedTypeCount (schema : Schema) (d : List (String × Definition)) : Nat :=
  ((mapKeys schema.Types).toFinset \ (mapKeys d).toFinset).card

/-- A schema with a built-in object type, as the introspection types of the GraphQL
library are: `type __Schema { description: String }` with `BuiltIn` set. -/
def introspectionSchema : Schema :=
  { heap :=
      [builtInScalar "String",
       { Kind := .Object, Name := "__Schema", BuiltIn := true
         Fields := [plainField "description" (.leaf "String" false)] }]
    Types := [("String", 0), ("__Schema", 1)]
    Query := none
    Mutation := none }

/-- The selection set `{ __schema { description } }` on a query root with the field
`__schema: __Schema!`. -/
def introspectionSelections : List Selection :=
  [.Field "__schema" (plainField "__schema" (.leaf "__Schema" true))
     [.Field "description" (plainField "description" (.leaf "String" false)) []]]

/-- The selection set `{ basket { item } }` on a query root with the field
`basket: Basket` of `missingTypeSchema`. -/
def basketItemSelections : List Selection :=
  [.Field "basket" (plainField "basket" (.leaf "Basket" false))
     [.Field "item" (plainField "item" (.leaf "Missing" false)) []]]

/-- The scenario schema `movieSchema` with its type mapping enumerated in another order:
the same heap, the same roots and the same key-value pairs, `Studio` being met before
`Movie`. Two iterations over one Go map can differ in exactly this way. -/
def studioFirstMovieSchema : Schema :=
  { movieSchema with
    Types := [("Int", 0), ("Float", 1), ("String", 2), ("Boolean", 3), ("ID", 4), ("Query", 5),
              ("Mutation", 6), ("Studio", 8), ("Movie", 7)] }

/-! ## Example schemas with a reference cycle and with colliding names -/

/-- A schema whose non-scalar fields form a reference cycle:
`type Author { book: Book }`, `type Book { author: Author }`. -/
def authorBookSchema : Schema :=
  { heap :=
      [{ Kind := .Object, Name := "Author", BuiltIn := false
         Fields := [plainField "book" (.leaf "Book" false)] },
       { Kind := .Object, Name := "Book", BuiltIn := false
         Fields := [plainField "author" (.leaf "Author" false)] }]
    Types := [("Author", 0), ("Book", 1)]
    Query := none
    Mutation := none }

/-- The variable `$a: Author` over `authorBookSchema`. -/
def authorVariable : VariableDefinition :=
  { Variable := "a", Type_ := .leaf "Author" false, Directives := [],
    Definition :=
      { Kind := .Object, Name := "Author", BuiltIn := false
        Fields := [plainField "book" (.leaf "Book" false)] } }

/-- The variables `($title: String!, $tags: [String!])` over `movieSchema`; the second is
list-typed. -/
def titleAndTagsVariables : List VariableDefinition :=
  [{ Variable := "title", Type_ := .leaf "String" true, Directives := [],
     Definition := builtInScalar "String" },
   { Variable := "tags", Type_ := .wrap "" (.leaf "String" true) false, Directives := [],
     Definition := builtInScalar "String" }]

/-- A schema in which two types refer to a third:
`type Movie { studio: Studio }`, `type Show { studio: Studio }`, `type Studio { name: String }`. -/
def movieShowSchema : Schema :=
  { heap :=
      [builtInScalar "String",
       { Kind := .Object, Name := "Movie", BuiltIn := false
         Fields := [plainField "studio" (.leaf "Studio" false)] },
       { Kind := .Object, Name := "Show", BuiltIn := false
         Fields := [plainField "studio" (.leaf "Studio" false)] },
       { Kind := .Object, Name := "Studio", BuiltIn := false
         Fields := [plainField "name" (.leaf "String" false)] }]
    Types := [("String", 0), ("Movie", 1), ("Show", 2), ("Studio", 3)]
    Query := none
    Mutation := none }

/-- The ways in which the convenience flattening can end: with a parameter list, with a
`schema.Types is missing type` error, or without an outcome within the fuel; it does not
end with another error or with a panic. -/
def flattenOutcome : Res (List kotlinFunctionParameter) → Bool
  | .ok _ => true
  | .error m => hasPrefixStr m "schema.Types is missing type"
  | .panic _ => false
  | .diverge => true

/-- A schema in which the user declares a type named like a synthesized input type:
`type Movie { title: String }`, `type Movie_Data { name: String }`,
`type Ticket { data: Movie_Data }`. -/
def ticketSchema : Schema :=
  { heap :=
      [builtInScalar "String", emptyObject "Query", emptyObject "Mutation",
       { Kind := .Object, Name := "Movie", BuiltIn := false
         Fields := [plainField "title" (.leaf "String" false)] },
       { Kind := .Object, Name := "Movie_Data", BuiltIn := false
         Fields := [plainField "name" (.leaf "String" false)] },
       { Kind := .Object, Name := "Ticket", BuiltIn := false
         Fields := [plainField "data" (.leaf "Movie_Data" false)] }]
    Types := [("String", 0), ("Query", 1), ("Mutation", 2), ("Movie", 3), ("Movie_Data", 4),
              ("Ticket", 5)]
    Query := some 1
    Mutation := some 2 }

/-! ## Notions used to state the order of the synthesized fields -/

section Library

variable (ToLower Plural : String → String)

/-- The fields of the type at the address `p` when the query pass of the augmentation
starts, following the specification: its original fields, then the relation fields
collected for it, owner by owner in the order of the snapshot, then, when `p` is the
`Mutation` root, the three mutation fields of every original type in the order of the
snapshot. -/
def fieldsAfterMutationPass (schema : Schema) (p : Nat) : List FieldDefinition :=
  match schema.heap[p]? with
  | none => []
  | some R =>
    R.Fields ++
      relationFieldsFor ToLower Plural (addSyntheticTypesForSdkTypesToSchema schema)
        (originalTypeNames schema) p ++
      (if schema.Mutation = some p then
        (originalTypeNames schema).flatMap fun name =>
          mutationFieldsFor ToLower name (name ++ "_Data")
       else [])

end Library

/-- The scenario schema `movieSchema` with its type mapping enumerated in yet another
order: the same heap, roots and key-value pairs, the built-in scalars being met in another
order and the types that are not built in in the same order as in `movieSchema`. -/
def floatFirstMovieSchema : Schema :=
  { movieSchema with
    Types := [("Float", 1), ("Int", 0), ("ID", 4), ("Query", 5), ("String", 2), ("Mutation", 6),
              ("Boolean", 3), ("Movie", 7), ("Studio", 8)] }

/-! # Theorems -/

/-! ## Maps -/

theorem mapGet_mapSet_self {β : Type} (m : List (String × β)) (k : String) (v : β) :
    mapGet (mapSet m k v) k = some v := by
  induction m with
  | nil => simp [mapSet, mapGet]
  | cons e m ih =>
    obtain ⟨k', v'⟩ := e
    by_cases hk : k' = k
    · simp [mapSet, mapGet, hk]
    · simp [mapSet, mapGet, hk, ih]

theorem mapGet_mapSet_ne {β : Type} (m : List (String × β)) (k k' : String) (v : β)
    (h : k' ≠ k) : mapGet (mapSet m k v) k' = mapGet m k' := by
  induction m with
  | nil => simp [mapSet, mapGet, Ne.symm h]
  | cons e m ih =>
    obtain ⟨k2, v2⟩ := e
    by_cases hk : k2 = k
    · subst hk
      simp [mapSet, mapGet, Ne.symm h]
    · by_cases hk' : k2 = k'
      · subst hk'
        simp [mapSet, mapGet, hk]
      · simp [mapSet, mapGet, hk, hk', ih]

theorem mem_mapKeys_mapSet {β : Type} (m : List (String × β)) (k k' : String) (v : β) :
    k' ∈ mapKeys (mapSet m k v) ↔ k' = k ∨ k' ∈ mapKeys m := by
  induction m with
  | nil => simp [mapSet, mapKeys]
  | cons e m ih =>
    obtain ⟨k2, v2⟩ := e
    by_cases hk : k2 = k
    · subst hk
      simp [mapSet, mapKeys]
    · simp only [mapKeys] at ih
      simp [mapSet, mapKeys, hk, ih]
      tauto

theorem mapGet_eq_none_iff {β : Type} (m : List (String × β)) (k : String) :
    mapGet m k = none ↔ k ∉ mapKeys m := by
  induction m with
  | nil => simp [mapGet, mapKeys]
  | cons e m ih =>
    obtain ⟨k2, v2⟩ := e
    simp only [mapKeys] at ih
    by_cases hk : k2 = k
    · simp [mapGet, mapKeys, hk]
    · simp [mapGet, mapKeys, hk, ih, Ne.symm hk]

theorem mapGet_of_mem {β : Type} (m : List (String × β)) (k : String) (v : β)
    (hnd : (mapKeys m).Nodup) (h : (k, v) ∈ m) : mapGet m k = some v := by
  induction m with
  | nil => simp at h
  | cons e m ih =>
    obtain ⟨k2, v2⟩ := e
    simp only [mapKeys, List.map_cons, List.nodup_cons] at hnd
    rcases List.mem_cons.1 h with h1 | h1
    · injection h1 with h2 h3
      simp [mapGet, h2, h3]
    · have hne : k2 ≠ k := by
        intro heq
        apply hnd.1
        rw [heq]
        exact List.mem_map.2 ⟨(k, v), h1, rfl⟩
      simp [mapGet, hne, ih hnd.2 h1]

theorem mem_of_mapGet {β : Type} (m : List (String × β)) (k : String) (v : β)
    (h : mapGet m k = some v) : (k, v) ∈ m := by
  induction m with
  | nil => simp [mapGet] at h
  | cons e m ih =>
    obtain ⟨k2, v2⟩ := e
    by_cases hk : k2 = k
    · simp [mapGet, hk] at h
      simp [hk, h]
    · simp [mapGet, hk] at h
      exact List.mem_cons_of_mem _ (ih h)

/-! ## Heap updates -/

theorem length_appendField (heap : List Definition) (p : Nat) (f : FieldDefinition) :
    (appendField heap p f).length = heap.length := by
  unfold appendField
  split <;> simp

theorem getElem?_appendField (heap : List Definition) (p q : Nat) (f : FieldDefinition) :
    (appendField heap p f)[q]? =
      (heap[q]?).map fun d => if q = p then { d with Fields := d.Fields ++ [f] } else d := by
  unfold appendField
  cases hp : heap[p]? with
  | none =>
    simp only
    by_cases hq : q = p
    · subst hq; simp [hp]
    · cases heap[q]? <;> simp [hq]
  | some d =>
    simp only
    rw [List.getElem?_set]
    by_cases hq : q = p
    · subst hq
      have hlt : q < heap.length := by
        rcases List.getElem?_eq_some.1 hp with ⟨h, _⟩
        exact h
      simp [hp, hlt]
    · have hq' : ¬ p = q := fun h => hq h.symm
      cases heap[q]? <;> simp [hq, hq']

theorem length_applyQueryRelationFields (pairs : List DefinitionFieldDefinitionPair) :
    ∀ heap : List Definition, (applyQueryRelationFields heap pairs).length = heap.length := by
  induction pairs with
  | nil => intro heap; rfl
  | cons pr rest ih =>
    intro heap
    simp [applyQueryRelationFields, ih, length_appendField]

theorem getElem?_applyQueryRelationFields (pairs : List DefinitionFieldDefinitionPair) :
    ∀ (heap : List Definition) (q : Nat),
      (applyQueryRelationFields heap pairs)[q]? =
        (heap[q]?).map fun d =>
          { d with Fields := d.Fields ++
              (pairs.filter fun pr => decide (pr.definition = q)).map fun pr => pr.fieldDefinition } := by
  induction pairs with
  | nil =>
    intro heap q
    cases hq : heap[q]? <;> simp [applyQueryRelationFields, hq]
  | cons pr rest ih =>
    intro heap q
    simp only [applyQueryRelationFields]
    rw [ih, getElem?_appendField]
    cases heap[q]? with
    | none => simp
    | some d =>
      by_cases hq : q = pr.definition
      · simp [hq]
      · have hq' : ¬ pr.definition = q := fun h => hq h.symm
        simp [hq, hq']

/-! ## The relation pass -/

section Library

variable (ToLower Plural : String → String)

theorem relationFieldsOfType_filter (schema : Schema) (owner : Definition) (target : Nat) :
    ∀ (fields : List FieldDefinition) (pairs : List DefinitionFieldDefinitionPair),
      relationFieldsOfType ToLower Plural schema owner fields = .ok pairs →
      ((pairs.filter fun pr => decide (pr.definition = target)).map fun pr => pr.fieldDefinition)
        = fields.filterMap (relationFieldOf ToLower Plural schema owner target) := by
  intro fields
  induction fields with
  | nil =>
    intro pairs h
    simp [relationFieldsOfType] at h
    subst h
    rfl
  | cons f rest ih =>
    intro pairs h
    simp only [relationFieldsOfType] at h
    cases he : f.Type_.Elem with
    | some e =>
      rw [he] at h
      simp only at h
      rw [ih pairs h]
      simp [List.filterMap_cons, relationFieldOf, he]
    | none =>
      rw [he] at h
      simp only at h
      cases hl : schema.lookupType f.Type_.NamedType with
      | none =>
        rw [hl] at h
        simp at h
      | some pd =>
        obtain ⟨r, referenced⟩ := pd
        rw [hl] at h
        simp only at h
        by_cases hb : referenced.BuiltIn = true
        · rw [if_pos hb] at h
          rw [ih pairs h]
          simp [List.filterMap_cons, relationFieldOf, he, hl, hb]
        · rw [if_neg hb] at h
          cases hr : relationFieldsOfType ToLower Plural schema owner rest with
          | ok ps =>
            rw [hr] at h
            simp only [Res.ok.injEq] at h
            subst h
            have hb' : referenced.BuiltIn = false := by simpa using hb
            by_cases ht : r = target
            · simp [List.filterMap_cons, relationFieldOf, he, hl, hb', ht, ih ps hr]
            · simp [List.filterMap_cons, relationFieldOf, he, hl, ht, ih ps hr]
          | error m => rw [hr] at h; simp at h
          | panic m => rw [hr] at h; simp at h
          | diverge => rw [hr] at h; simp at h

theorem collectQueryRelationFields_filter (schema : Schema) (target : Nat) :
    ∀ (names : List String) (pairs : List DefinitionFieldDefinitionPair),
      collectQueryRelationFields ToLower Plural schema names = .ok pairs →
      ((pairs.filter fun pr => decide (pr.definition = target)).map fun pr => pr.fieldDefinition)
        = relationFieldsFor ToLower Plural schema names target := by
  intro names
  induction names with
  | nil =>
    intro pairs h
    simp [collectQueryRelationFields] at h
    subst h
    rfl
  | cons n rest ih =>
    intro pairs h
    simp only [collectQueryRelationFields] at h
    cases hl : schema.lookupType n with
    | none => rw [hl] at h; simp at h
    | some pd =>
      obtain ⟨p, owner⟩ := pd
      rw [hl] at h
      simp only at h
      cases hf : relationFieldsOfType ToLower Plural schema owner owner.Fields with
      | ok ps =>
        rw [hf] at h
        simp only at h
        cases hr : collectQueryRelationFields ToLower Plural schema rest with
        | ok qs =>
          rw [hr] at h
          simp only [Res.ok.injEq] at h
          subst h
          have h1 := relationFieldsOfType_filter ToLower Plural schema owner target _ ps hf
          have h2 := ih qs hr
          simp only [List.filter_append, List.map_append, h1, h2]
          simp [relationFieldsFor, List.flatMap_cons, hl]
        | error m => rw [hr] at h; simp at h
        | panic m => rw [hr] at h; simp at h
        | diverge => rw [hr] at h; simp at h
      | error m => rw [hf] at h; simp at h
      | panic m => rw [hf] at h; simp at h
      | diverge => rw [hf] at h; simp at h

theorem addQueryRelationFields_ok (schema schema' : Schema) (names : List String)
    (h : addQueryRelationFieldsToSchemaForTypes ToLower Plural schema names = (schema', .ok ())) :
    ∃ pairs, collectQueryRelationFields ToLower Plural schema names = .ok pairs ∧
      schema' = { schema with heap := applyQueryRelationFields schema.heap pairs } := by
  unfold addQueryRelationFieldsToSchemaForTypes at h
  cases hc : collectQueryRelationFields ToLower Plural schema names with
  | ok pairs =>
    rw [hc] at h
    simp only [Prod.mk.injEq, and_true] at h
    exact ⟨pairs, rfl, h.symm⟩
  | error m => rw [hc] at h; simp at h
  | panic m => rw [hc] at h; simp at h
  | diverge => rw [hc] at h; simp at h

end Library

/-! ## The snapshot of original types -/

theorem nonBuiltInTypesFromEntries_ok (heap : List Definition) :
    ∀ (entries : List (String × Nat)) (ps : List Nat),
      nonBuiltInTypesFromEntries heap entries = .ok ps →
      ps = (entries.map Prod.snd).filter (isNonBuiltInAt heap) ∧
      ∀ e ∈ entries, e.2 < heap.length := by
  intro entries
  induction entries with
  | nil =>
    intro ps h
    simp [nonBuiltInTypesFromEntries] at h
    subst h
    simp
  | cons e rest ih =>
    intro ps h
    obtain ⟨k, p⟩ := e
    simp only [nonBuiltInTypesFromEntries] at h
    cases hp : heap[p]? with
    | none => rw [hp] at h; simp at h
    | some d =>
      rw [hp] at h
      simp only at h
      have hlt : p < heap.length := (List.getElem?_eq_some.1 hp).1
      cases hr : nonBuiltInTypesFromEntries heap rest with
      | ok qs =>
        rw [hr] at h
        simp only [Res.ok.injEq] at h
        obtain ⟨h1, h2⟩ := ih qs hr
        refine ⟨?_, ?_⟩
        · subst h
          cases hb : d.BuiltIn <;> simp [List.filter_cons, isNonBuiltInAt, hp, hb, h1]
        · intro e he
          rcases List.mem_cons.1 he with he | he
          · subst he; exact hlt
          · exact h2 e he
      | error m => rw [hr] at h; simp at h
      | panic m => rw [hr] at h; simp at h
      | diverge => rw [hr] at h; simp at h

theorem nonBuiltInTypesFromSchema_ok (schema : Schema) (ps : List Nat)
    (h : nonBuiltInTypesFromSchema schema = .ok ps) :
    ps = originalTypes schema ∧ ∀ e ∈ schema.Types, e.2 < schema.heap.length :=
  nonBuiltInTypesFromEntries_ok schema.heap schema.Types ps h

theorem nonBuiltInTypesFromEntries_total (heap : List Definition) :
    ∀ (entries : List (String × Nat)), (∀ e ∈ entries, e.2 < heap.length) →
      nonBuiltInTypesFromEntries heap entries =
        .ok ((entries.map Prod.snd).filter (isNonBuiltInAt heap)) := by
  intro entries
  induction entries with
  | nil => intro _; rfl
  | cons e rest ih =>
    intro h
    obtain ⟨k, p⟩ := e
    have hlt : p < heap.length := h (k, p) (List.mem_cons_self _ _)
    have hp : heap[p]? = some heap[p] := List.getElem?_eq_getElem hlt
    simp only [nonBuiltInTypesFromEntries, hp]
    rw [ih (fun e he => h e (List.mem_cons_of_mem _ he))]
    cases hb : heap[p].BuiltIn <;> simp [List.filter_cons, isNonBuiltInAt, hp, hb]

theorem namesFromDefinitions_ok (heap : List Definition) :
    ∀ (ps : List Nat) (names : List String),
      namesFromDefinitions heap ps = .ok names → names = ps.map (nameAt heap) := by
  intro ps
  induction ps with
  | nil =>
    intro names h
    simp [namesFromDefinitions] at h
    subst h
    rfl
  | cons p rest ih =>
    intro names h
    simp only [namesFromDefinitions] at h
    cases hp : heap[p]? with
    | none => rw [hp] at h; simp at h
    | some d =>
      rw [hp] at h
      simp only at h
      cases hr : namesFromDefinitions heap rest with
      | ok ns =>
        rw [hr] at h
        simp only [Res.ok.injEq] at h
        subst h
        simp [nameAt, hp, ih ns hr]
      | error m => rw [hr] at h; simp at h
      | panic m => rw [hr] at h; simp at h
      | diverge => rw [hr] at h; simp at h

theorem namesFromDefinitions_total (heap : List Definition) :
    ∀ (ps : List Nat), (∀ p ∈ ps, p < heap.length) →
      namesFromDefinitions heap ps = .ok (ps.map (nameAt heap)) := by
  intro ps
  induction ps with
  | nil => intro _; rfl
  | cons p rest ih =>
    intro h
    have hlt : p < heap.length := h p (List.mem_cons_self _ _)
    have hp : heap[p]? = some heap[p] := List.getElem?_eq_getElem hlt
    simp only [namesFromDefinitions, hp]
    rw [ih (fun q hq => h q (List.mem_cons_of_mem _ hq))]
    simp [nameAt, hp]

theorem originalTypes_lt (schema : Schema) (p : Nat) (h : p ∈ originalTypes schema) :
    p < schema.heap.length := by
  unfold originalTypes at h
  rw [List.mem_filter] at h
  have h2 := h.2
  unfold isNonBuiltInAt at h2
  cases hp : schema.heap[p]? with
  | none => rw [hp] at h2; simp at h2
  | some d => exact (List.getElem?_eq_some.1 hp).1

/-! ## Inversion of a successful augmentation -/

section Library

variable (ToLower Plural : String → String)

theorem addSynthesizedTypesAndFields_ok (schema schema' : Schema)
    (h : addSynthesizedTypesAndFields ToLower Plural schema = (schema', .ok ())) :
    ∃ (schema2 schema3 schema4 : Schema) (infos : List synthesizedInputTypeInfo),
      (∀ e ∈ schema.Types, e.2 < schema.heap.length) ∧
      addQueryRelationFieldsToSchemaForTypes ToLower Plural
        (addSyntheticTypesForSdkTypesToSchema schema) (originalTypeNames schema)
          = (schema2, .ok ()) ∧
      addSynthesizedInputTypesToSchemaForTypes schema2 (originalTypes schema)
          = .ok (schema3, infos) ∧
      addMutationFieldsForSynthesizedInputTypesToSchema ToLower schema3 infos = .ok schema4 ∧
      addQueryFieldsForSynthesizedInputTypesToSchema ToLower Plural schema4 infos
          = .ok schema' := by
  unfold addSynthesizedTypesAndFields at h
  cases h0 : nonBuiltInTypesFromSchema schema with
  | ok ps =>
    rw [h0] at h
    simp only at h
    obtain ⟨hps, hval⟩ := nonBuiltInTypesFromSchema_ok schema ps h0
    cases h1 : namesFromDefinitions schema.heap ps with
    | ok names =>
      rw [h1] at h
      simp only at h
      have hnames := namesFromDefinitions_ok schema.heap ps names h1
      rw [hps] at hnames
      change names = originalTypeNames schema at hnames
      subst hnames
      subst hps
      cases h2 : addQueryRelationFieldsToSchemaForTypes ToLower Plural
          (addSyntheticTypesForSdkTypesToSchema schema) (originalTypeNames schema) with
      | mk schema2 r2 =>
        rw [h2] at h
        cases r2 with
        | ok u =>
          simp only at h
          cases h3 : addSynthesizedInputTypesToSchemaForTypes schema2 (originalTypes schema) with
          | ok si =>
            obtain ⟨schema3, infos⟩ := si
            rw [h3] at h
            simp only at h
            cases h4 : addMutationFieldsForSynthesizedInputTypesToSchema ToLower schema3 infos with
            | ok schema4 =>
              rw [h4] at h
              simp only at h
              cases h5 : addQueryFieldsForSynthesizedInputTypesToSchema ToLower Plural schema4
                  infos with
              | ok schema5 =>
                rw [h5] at h
                simp only [Prod.mk.injEq, and_true] at h
                subst h
                exact ⟨schema2, schema3, schema4, infos, hval, rfl, h3, h4, h5⟩
              | error m => rw [h5] at h; simp at h
              | panic m => rw [h5] at h; simp at h
              | diverge => rw [h5] at h; simp at h
            | error m => rw [h4] at h; simp at h
            | panic m => rw [h4] at h; simp at h
            | diverge => rw [h4] at h; simp at h
          | error m => rw [h3] at h; simp at h
          | panic m => rw [h3] at h; simp at h
          | diverge => rw [h3] at h; simp at h
        | error m => simp at h
        | panic m => simp at h
        | diverge => simp at h
    | error m => rw [h1] at h; simp at h
    | panic m => rw [h1] at h; simp at h
    | diverge => rw [h1] at h; simp at h
  | error m => rw [h0] at h; simp at h
  | panic m => rw [h0] at h; simp at h
  | diverge => rw [h0] at h; simp at h

end Library

/-! ## Strings -/

theorem append_data_cancel (a b : String) (h : a ++ "_Data" = b ++ "_Data") : a = b := by
  have h2 := congrArg String.data h
  simp only [String.data_append] at h2
  exact String.ext (List.append_cancel_right h2)

theorem append_data_not_marker (a : String) : a ++ "_Data" ∉ markerNames := by
  intro h
  have hs : "_Data".data <:+ (a ++ "_Data").data := by
    rw [String.data_append]
    exact List.suffix_append _ _
  simp only [markerNames, List.mem_cons, List.mem_singleton, List.not_mem_nil, or_false] at h
  rcases h with h | h | h <;>
  · rw [h] at hs
    revert hs
    decide

/-! ## Heap cells and names -/

theorem nameAt_eq_of_getElem? (heap heap' : List Definition) (p : Nat)
    (h : (heap'[p]?).map Definition.Name = (heap[p]?).map Definition.Name) :
    nameAt heap' p = nameAt heap p := by
  unfold nameAt
  cases h1 : heap'[p]? <;> cases h2 : heap[p]? <;> simp_all

theorem getElem?_append_left_of_lt (heap extra : List Definition) (p : Nat)
    (h : p < heap.length) : (heap ++ extra)[p]? = heap[p]? := by
  rw [List.getElem?_append, if_pos h]

/-! ## The input types pass -/

theorem addSynthesizedInputTypes_inv :
    ∀ (ps : List Nat) (s s3 : Schema) (infos : List synthesizedInputTypeInfo),
      (∀ p ∈ ps, p < s.heap.length) →
      addSynthesizedInputTypesToSchemaForTypes s ps = .ok (s3, infos) →
      s3.Query = s.Query ∧ s3.Mutation = s.Mutation ∧
      s3.heap.length = s.heap.length + ps.length ∧
      (∀ q, q < s.heap.length → s3.heap[q]? = s.heap[q]?) ∧
      (∀ k, k ∈ mapKeys s3.Types ↔
        k ∈ mapKeys s.Types ∨ ∃ p ∈ ps, k = nameAt s.heap p ++ "_Data") ∧
      (∀ k, (∀ p ∈ ps, k ≠ nameAt s.heap p ++ "_Data") →
        mapGet s3.Types k = mapGet s.Types k) ∧
      List.Forall₂ (fun info p => info.originalType = p ∧ s.heap.length ≤ info.inputType ∧
        s3.heap[info.inputType]? = (s3.heap[p]?).map inputTypeOf) infos ps ∧
      ((ps.map (nameAt s.heap)).Nodup → ∀ p ∈ ps, ∃ q, s.heap.length ≤ q ∧
        mapGet s3.Types (nameAt s.heap p ++ "_Data") = some q ∧
        s3.heap[q]? = (s.heap[p]?).map inputTypeOf) := by
  intro ps
  induction ps with
  | nil =>
    intro s s3 infos _ h
    simp only [addSynthesizedInputTypesToSchemaForTypes, Res.ok.injEq, Prod.mk.injEq] at h
    obtain ⟨h1, h2⟩ := h
    subst h1
    subst h2
    simp
  | cons p rest ih =>
    intro s s3 infos hlt h
    have hp : p < s.heap.length := hlt p (List.mem_cons_self _ _)
    have hpd : s.heap[p]? = some s.heap[p] := List.getElem?_eq_getElem hp
    simp only [addSynthesizedInputTypesToSchemaForTypes, hpd] at h
    generalize hd : s.heap[p] = d at h hpd
    generalize hs' : s.register (d.Name ++ "_Data")
      { Kind := .InputObject, Name := d.Name ++ "_Data", Fields := d.Fields, BuiltIn := d.BuiltIn }
        = s' at h
    cases hr : addSynthesizedInputTypesToSchemaForTypes s' rest with
    | ok si =>
      obtain ⟨s3', infos'⟩ := si
      rw [hr] at h
      simp only [Res.ok.injEq, Prod.mk.injEq] at h
      obtain ⟨h1, h2⟩ := h
      subst h1
      subst h2
      have hheap' : s'.heap = s.heap ++ [inputTypeOf d] := by
        rw [← hs']; rfl
      have hlen' : s'.heap.length = s.heap.length + 1 := by
        rw [hheap']; simp
      have htypes' : s'.Types = mapSet s.Types (d.Name ++ "_Data") s.heap.length := by
        rw [← hs']; rfl
      have hq' : s'.Query = s.Query := by rw [← hs']; rfl
      have hm' : s'.Mutation = s.Mutation := by rw [← hs']; rfl
      have hlt' : ∀ q ∈ rest, q < s'.heap.length := by
        intro q hq
        have := hlt q (List.mem_cons_of_mem _ hq)
        omega
      have hget' : ∀ q, q < s.heap.length → s'.heap[q]? = s.heap[q]? := by
        intro q hq
        rw [hheap']
        exact getElem?_append_left_of_lt _ _ _ hq
      have hname' : ∀ q, q < s.heap.length → nameAt s'.heap q = nameAt s.heap q := by
        intro q hq
        exact nameAt_eq_of_getElem? _ _ _ (by rw [hget' q hq])
      have hnamep : nameAt s.heap p = d.Name := by
        simp [nameAt, hpd]
      obtain ⟨i1, i2, i3, i4, i5, i6, i7, i8⟩ := ih s' s3' infos' hlt' hr
      refine ⟨by rw [i1, hq'], by rw [i2, hm'], ?_, ?_, ?_, ?_, ?_, ?_⟩
      · rw [i3, hlen']
        simp
        omega
      · intro q hq
        rw [i4 q (by omega), hget' q hq]
      · intro k
        rw [i5 k, htypes', mem_mapKeys_mapSet]
        constructor
        · rintro (h | ⟨q, hq, hk⟩)
          · rcases h with h | h
            · exact Or.inr ⟨p, List.mem_cons_self _ _, by rw [hnamep, h]⟩
            · exact Or.inl h
          · refine Or.inr ⟨q, List.mem_cons_of_mem _ hq, ?_⟩
            rw [hk, hname' q (hlt q (List.mem_cons_of_mem _ hq))]
        · rintro (h | ⟨q, hq, hk⟩)
          · exact Or.inl (Or.inr h)
          · rcases List.mem_cons.1 hq with hq | hq
            · subst hq
              exact Or.inl (Or.inl (by rw [hk, hnamep]))
            · refine Or.inr ⟨q, hq, ?_⟩
              rw [hk, hname' q (hlt q (List.mem_cons_of_mem _ hq))]
      · intro k hk
        rw [i6 k ?_, htypes', mapGet_mapSet_ne]
        · have := hk p (List.mem_cons_self _ _)
          rw [hnamep] at this
          exact this
        · intro q hq
          rw [hname' q (hlt q (List.mem_cons_of_mem _ hq))]
          exact hk q (List.mem_cons_of_mem _ hq)
      · refine List.Forall₂.cons ⟨rfl, le_refl _, ?_⟩ ?_
        · simp only
          rw [i4 _ (by omega), i4 p (by omega), hget' p hp, hpd, hheap']
          simp
        · refine List.Forall₂.imp ?_ i7
          intro info q ⟨a1, a2, a3⟩
          exact ⟨a1, by omega, a3⟩
      · intro hnd p0 hp0
        simp only [List.map_cons, List.nodup_cons] at hnd
        have hmap : rest.map (nameAt s'.heap) = rest.map (nameAt s.heap) :=
          List.map_congr_left fun q hq => hname' q (hlt q (List.mem_cons_of_mem _ hq))
        rcases List.mem_cons.1 hp0 with hp0 | hp0
        · subst hp0
          refine ⟨s.heap.length, le_refl _, ?_, ?_⟩
          · rw [hnamep, i6, htypes', mapGet_mapSet_self]
            intro q hq hk
            apply hnd.1
            rw [hnamep]
            have := append_data_cancel _ _ hk
            rw [this, hname' q (hlt q (List.mem_cons_of_mem _ hq))]
            exact List.mem_map.2 ⟨q, hq, rfl⟩
          · rw [i4 _ (by omega), hheap', hpd]
            simp
        · obtain ⟨q, b1, b2, b3⟩ := i8 (by rw [hmap]; exact hnd.2) p0 hp0
          have hp0lt := hlt p0 (List.mem_cons_of_mem _ hp0)
          refine ⟨q, by omega, ?_, ?_⟩
          · rw [← hname' p0 hp0lt]; exact b2
          · rw [b3, hget' p0 hp0lt]
    | error m => rw [hr] at h; simp at h
    | panic m => rw [hr] at h; simp at h
    | diverge => rw [hr] at h; simp at h

/-! ## Appending fields to a root type -/

theorem appendFieldsToRoot_inv (root : Option Nat) :
    ∀ (fs : List FieldDefinition) (heap heap' : List Definition),
      appendFieldsToRoot heap root fs = .ok heap' →
      heap'.length = heap.length ∧
      (fs ≠ [] → ∃ m, root = some m ∧ m < heap.length) ∧
      ∀ q : Nat, heap'[q]? = (heap[q]?).map fun d =>
        if root = some q then { d with Fields := d.Fields ++ fs } else d := by
  intro fs
  induction fs with
  | nil =>
    intro heap heap' h
    simp only [appendFieldsToRoot, Res.ok.injEq] at h
    subst h
    refine ⟨rfl, by simp, ?_⟩
    intro q
    cases heap[q]? <;> simp
  | cons f rest ih =>
    intro heap heap' h
    cases hroot : root with
    | none => simp [appendFieldsToRoot, hroot] at h
    | some m =>
      cases hm : heap[m]? with
      | none => simp [appendFieldsToRoot, hroot, hm] at h
      | some dm =>
        simp only [appendFieldsToRoot, hroot, hm] at h
        rw [← hroot] at h
        obtain ⟨h1, _, h3⟩ := ih (appendField heap m f) heap' h
        have hmlt : m < heap.length := (List.getElem?_eq_some.1 hm).1
        refine ⟨by rw [h1, length_appendField], fun _ => ⟨m, rfl, hmlt⟩, ?_⟩
        intro q
        rw [h3 q, getElem?_appendField]
        cases heap[q]? with
        | none => simp
        | some d =>
          by_cases hq : q = m
          · subst hq
            simp [hroot]
          · have hq' : ¬ m = q := fun h => hq h.symm
            simp [hroot, hq, hq']

theorem nameAt_appendFieldsToRoot (root : Option Nat) (fs : List FieldDefinition)
    (heap heap' : List Definition) (h : appendFieldsToRoot heap root fs = .ok heap') (q : Nat) :
    nameAt heap' q = nameAt heap q := by
  obtain ⟨_, _, h3⟩ := appendFieldsToRoot_inv root fs heap heap' h
  apply nameAt_eq_of_getElem?
  rw [h3 q]
  cases heap[q]? with
  | none => simp
  | some d =>
    simp only [Option.map_some']
    split <;> rfl

/-! ## The mutation fields pass -/

section Library

variable (ToLower Plural : String → String)

theorem addMutationFields_inv :
    ∀ (infos : List synthesizedInputTypeInfo) (s s4 : Schema),
      addMutationFieldsForSynthesizedInputTypesToSchema ToLower s infos = .ok s4 →
      s4.Types = s.Types ∧ s4.Query = s.Query ∧ s4.Mutation = s.Mutation ∧
      s4.heap.length = s.heap.length ∧
      (infos ≠ [] → ∃ m, s.Mutation = some m ∧ m < s.heap.length) ∧
      ∀ q : Nat, s4.heap[q]? = (s.heap[q]?).map fun d =>
        if s.Mutation = some q then
          { d with Fields := d.Fields ++ infos.flatMap (fun info =>
              mutationFieldsFor ToLower (nameAt s.heap info.originalType)
                (nameAt s.heap info.inputType)) }
        else d := by
  intro infos
  induction infos with
  | nil =>
    intro s s4 h
    simp only [addMutationFieldsForSynthesizedInputTypesToSchema, Res.ok.injEq] at h
    subst h
    refine ⟨rfl, rfl, rfl, rfl, by simp, ?_⟩
    intro q
    cases s.heap[q]? <;> simp
  | cons info rest ih =>
    intro s s4 h
    simp only [addMutationFieldsForSynthesizedInputTypesToSchema] at h
    cases ho : s.heap[info.originalType]? with
    | none => rw [ho] at h; simp at h
    | some o =>
      cases hi : s.heap[info.inputType]? with
      | none => rw [ho, hi] at h; simp at h
      | some i =>
        rw [ho, hi] at h
        simp only at h
        cases ha : appendFieldsToRoot s.heap s.Mutation
            [createInsertMutationField ToLower o i, createDeleteMutationField ToLower o,
             createUpdateMutationField ToLower o i] with
        | ok heap' =>
          rw [ha] at h
          simp only at h
          obtain ⟨a1, a2, a3⟩ := appendFieldsToRoot_inv _ _ _ _ ha
          obtain ⟨b1, b2, b3, b4, _, b6⟩ := ih { s with heap := heap' } s4 h
          have hnames : ∀ q, nameAt heap' q = nameAt s.heap q :=
            nameAt_appendFieldsToRoot _ _ _ _ ha
          refine ⟨b1, b2, b3, by rw [b4]; exact a1, fun _ => a2 (by simp), ?_⟩
          intro q
          rw [b6 q]
          simp only
          rw [a3 q]
          cases s.heap[q]? with
          | none => simp
          | some d =>
            have e1 : nameAt s.heap info.originalType = o.Name := by simp [nameAt, ho]
            have e2 : nameAt s.heap info.inputType = i.Name := by simp [nameAt, hi]
            by_cases hq : s.Mutation = some q
            · simp only [Option.map_some', hq, if_true, List.flatMap_cons, hnames, e1, e2]
              simp [mutationFieldsFor, createInsertMutationField, createDeleteMutationField,
                createUpdateMutationField]
            · simp [hq]
        | error m => rw [ha] at h; simp at h
        | panic m => rw [ha] at h; simp at h
        | diverge => rw [ha] at h; simp at h

/-! ## The query fields pass -/

theorem addQueryFields_inv :
    ∀ (infos : List synthesizedInputTypeInfo) (s s5 : Schema),
      addQueryFieldsForSynthesizedInputTypesToSchema ToLower Plural s infos = .ok s5 →
      s5.Types = s.Types ∧ s5.Query = s.Query ∧ s5.Mutation = s.Mutation ∧
      s5.heap.length = s.heap.length ∧
      (infos ≠ [] → ∃ q, s.Query = some q ∧ q < s.heap.length) ∧
      (∀ p : Nat, s.Query ≠ some p → s5.heap[p]? = s.heap[p]?) ∧
      (∀ p : Nat, (s5.heap[p]?).map Definition.Name = (s.heap[p]?).map Definition.Name) ∧
      ∀ (root : Nat) (d : Definition), s.Query = some root → s.heap[root]? = some d →
        ∃ G : List FieldDefinition,
          s5.heap[root]? = some { d with Fields := d.Fields ++ G } ∧
          G.length = 2 * infos.length ∧
          ∀ (i : Nat) (info : synthesizedInputTypeInfo), infos[i]? = some info →
            ∃ T : Definition, s.heap[info.originalType]? = some T ∧
              G[2 * i]? = some (singularQueryFieldFor ToLower T.Name
                (if info.originalType = root then d.Fields ++ G.take (2 * i) else T.Fields)) ∧
              G[2 * i + 1]? = some (pluralQueryFieldFor ToLower Plural T.Name
                (if info.originalType = root then d.Fields ++ G.take (2 * i) else T.Fields)) := by
  intro infos
  induction infos with
  | nil =>
    intro s s5 h
    simp only [addQueryFieldsForSynthesizedInputTypesToSchema, Res.ok.injEq] at h
    subst h
    refine ⟨rfl, rfl, rfl, rfl, by simp, fun _ _ => rfl, fun _ => rfl, ?_⟩
    intro root d _ hd
    exact ⟨[], by simp [hd], rfl, by simp⟩
  | cons info rest ih =>
    intro s s5 h
    simp only [addQueryFieldsForSynthesizedInputTypesToSchema] at h
    cases ho : s.heap[info.originalType]? with
    | none => rw [ho] at h; simp at h
    | some T =>
      rw [ho] at h
      simp only at h
      cases ha : appendFieldsToRoot s.heap s.Query
          [createSingularQueryField ToLower T, createPluralQueryField ToLower Plural T] with
      | ok heap' =>
        rw [ha] at h
        simp only at h
        obtain ⟨a1, a2, a3⟩ := appendFieldsToRoot_inv _ _ _ _ ha
        obtain ⟨b1, b2, b3, b4, _, b6, b7, b8⟩ := ih { s with heap := heap' } s5 h
        simp only at b1 b2 b3 b4 b6 b7 b8
        refine ⟨b1, b2, b3, by rw [b4]; exact a1, fun _ => a2 (by simp), ?_, ?_, ?_⟩
        · intro p hp
          rw [b6 p hp, a3 p]
          cases s.heap[p]? <;> simp [hp]
        · intro p
          rw [b7 p, a3 p]
          cases s.heap[p]? with
          | none => simp
          | some d =>
            simp only [Option.map_some']
            split <;> rfl
        · intro root d hroot hd
          have hd' : heap'[root]? = some { d with Fields := d.Fields ++
              [createSingularQueryField ToLower T, createPluralQueryField ToLower Plural T] } := by
            rw [a3 root, hd]
            simp [hroot]
          obtain ⟨G', g1, g2, g3⟩ := b8 root _ hroot hd'
          refine ⟨[createSingularQueryField ToLower T, createPluralQueryField ToLower Plural T] ++ G',
            ?_, ?_, ?_⟩
          · rw [g1]
            simp
          · simp [g2]
            omega
          · intro i info' hinfo
            cases i with
            | zero =>
              simp only [List.getElem?_cons_zero, Option.some.injEq] at hinfo
              subst hinfo
              refine ⟨T, ho, ?_, ?_⟩
              · by_cases hr : info.originalType = root
                · have hTd : T = d := by
                    rw [hr, hd] at ho
                    exact (Option.some.inj ho).symm
                  subst hTd
                  simp [hr, singularQueryFieldFor, createSingularQueryField,
                    createQueryFieldArguments, queryArgumentsFor]
                · simp [hr, singularQueryFieldFor, createSingularQueryField,
                    createQueryFieldArguments, queryArgumentsFor]
              · by_cases hr : info.originalType = root
                · have hTd : T = d := by
                    rw [hr, hd] at ho
                    exact (Option.some.inj ho).symm
                  subst hTd
                  simp [hr, pluralQueryFieldFor, createPluralQueryField,
                    createQueryFieldArguments, queryArgumentsFor]
                · simp [hr, pluralQueryFieldFor, createPluralQueryField,
                    createQueryFieldArguments, queryArgumentsFor]
            | succ j =>
              simp only [List.getElem?_cons_succ] at hinfo
              obtain ⟨T', t1, t2, t3⟩ := g3 j info' hinfo
              have e1 : 2 * (j + 1) = (2 * j) + 2 := by omega
              have e2 : 2 * (j + 1) + 1 = (2 * j + 1) + 2 := by omega
              by_cases hr : info'.originalType = root
              · rw [hr] at t1
                rw [hd'] at t1
                have hT' : T' = { d with Fields := d.Fields ++
                    [createSingularQueryField ToLower T,
                     createPluralQueryField ToLower Plural T] } := (Option.some.inj t1).symm
                refine ⟨d, by rw [hr]; exact hd, ?_, ?_⟩
                · rw [e1]
                  simp only [hr, if_true] at t2 ⊢
                  simp only [List.cons_append, List.nil_append, List.getElem?_cons_succ,
                    List.take_succ_cons]
                  rw [t2, hT']
                  simp
                · rw [e2, e1]
                  simp only [hr, if_true] at t3 ⊢
                  simp only [List.cons_append, List.nil_append, List.getElem?_cons_succ,
                    List.take_succ_cons]
                  rw [t3, hT']
                  simp
              · have hne : s.Query ≠ some info'.originalType := by
                  rw [hroot]
                  intro hc
                  exact hr (Option.some.inj hc).symm
                have t1' : s.heap[info'.originalType]? = some T' := by
                  rw [a3 info'.originalType] at t1
                  cases hs : s.heap[info'.originalType]? with
                  | none => rw [hs] at t1; simp at t1
                  | some x =>
                    rw [hs] at t1
                    simp [hne] at t1
                    rw [t1]
                refine ⟨T', t1', ?_, ?_⟩
                · rw [e1]
                  simp only [hr, if_false] at t2 ⊢
                  simp only [List.cons_append, List.nil_append, List.getElem?_cons_succ]
                  exact t2
                · rw [e2]
                  simp only [hr, if_false] at t3 ⊢
                  simp only [List.cons_append, List.nil_append, List.getElem?_cons_succ]
                  exact t3
      | error m => rw [ha] at h; simp at h
      | panic m => rw [ha] at h; simp at h
      | diverge => rw [ha] at h; simp at h

end Library

/-! ## The marker pass -/

theorem markers_heap (s : Schema) :
    (addSyntheticTypesForSdkTypesToSchema s).heap = s.heap ++
      [{ Kind := .Scalar, Name := "sdk:MutationRef.InsertData", Fields := [], BuiltIn := true },
       { Kind := .Scalar, Name := "sdk:MutationRef.UpdateData", Fields := [], BuiltIn := true },
       { Kind := .Scalar, Name := "sdk:MutationRef.DeleteData", Fields := [], BuiltIn := true }] := by
  simp [addSyntheticTypesForSdkTypesToSchema, Schema.register]

theorem markers_types (s : Schema) :
    (addSyntheticTypesForSdkTypesToSchema s).Types =
      mapSet (mapSet (mapSet s.Types "sdk:MutationRef.InsertData" s.heap.length)
        "sdk:MutationRef.UpdateData" (s.heap.length + 1))
        "sdk:MutationRef.DeleteData" (s.heap.length + 2) := by
  simp [addSyntheticTypesForSdkTypesToSchema, Schema.register]

theorem markers_query (s : Schema) : (addSyntheticTypesForSdkTypesToSchema s).Query = s.Query := rfl

theorem markers_mutation (s : Schema) :
    (addSyntheticTypesForSdkTypesToSchema s).Mutation = s.Mutation := rfl

theorem markers_length (s : Schema) :
    (addSyntheticTypesForSdkTypesToSchema s).heap.length = s.heap.length + 3 := by
  rw [markers_heap]; simp

theorem markers_getElem?_lt (s : Schema) (q : Nat) (h : q < s.heap.length) :
    (addSyntheticTypesForSdkTypesToSchema s).heap[q]? = s.heap[q]? := by
  rw [markers_heap]
  exact getElem?_append_left_of_lt _ _ _ h

theorem markers_mem_keys (s : Schema) (k : String) :
    k ∈ mapKeys (addSyntheticTypesForSdkTypesToSchema s).Types ↔
      k ∈ mapKeys s.Types ∨ k ∈ markerNames := by
  rw [markers_types]
  simp only [mem_mapKeys_mapSet, markerNames, List.mem_cons, List.mem_singleton,
    List.not_mem_nil, or_false]
  tauto

theorem markers_mapGet_other (s : Schema) (k : String) (h : k ∉ markerNames) :
    mapGet (addSyntheticTypesForSdkTypesToSchema s).Types k = mapGet s.Types k := by
  simp only [markerNames, List.mem_cons, List.mem_singleton, List.not_mem_nil, or_false,
    not_or] at h
  obtain ⟨h1, h2, h3⟩ := h
  rw [markers_types, mapGet_mapSet_ne _ _ _ _ h3, mapGet_mapSet_ne _ _ _ _ h2,
    mapGet_mapSet_ne _ _ _ _ h1]

theorem markers_mapGet_marker (s : Schema) (m : String) (h : m ∈ markerNames) :
    ∃ q, s.heap.length ≤ q ∧ mapGet (addSyntheticTypesForSdkTypesToSchema s).Types m = some q ∧
      (addSyntheticTypesForSdkTypesToSchema s).heap[q]? =
        some { Kind := .Scalar, Name := m, Fields := [], BuiltIn := true } := by
  simp only [markerNames, List.mem_cons, List.mem_singleton, List.not_mem_nil, or_false] at h
  rcases h with h | h | h
  · subst h
    refine ⟨s.heap.length, le_refl _, ?_, ?_⟩
    · rw [markers_types, mapGet_mapSet_ne _ _ _ _ (by decide),
        mapGet_mapSet_ne _ _ _ _ (by decide), mapGet_mapSet_self]
    · rw [markers_heap, List.getElem?_append_right (le_refl _)]
      simp
  · subst h
    refine ⟨s.heap.length + 1, by omega, ?_, ?_⟩
    · rw [markers_types, mapGet_mapSet_ne _ _ _ _ (by decide), mapGet_mapSet_self]
    · rw [markers_heap, List.getElem?_append_right (by omega)]
      simp
  · subst h
    refine ⟨s.heap.length + 2, by omega, ?_, ?_⟩
    · rw [markers_types, mapGet_mapSet_self]
    · rw [markers_heap, List.getElem?_append_right (by omega)]
      simp

theorem markers_lookupType_other (s : Schema) (k : String) (h : k ∉ markerNames)
    (hval : ∀ e ∈ s.Types, e.2 < s.heap.length) :
    (addSyntheticTypesForSdkTypesToSchema s).lookupType k = s.lookupType k := by
  unfold Schema.lookupType
  rw [markers_mapGet_other s k h]
  cases hg : mapGet s.Types k with
  | none => rfl
  | some p =>
    have hp : p < s.heap.length := hval (k, p) (mem_of_mapGet _ _ _ hg)
    simp only
    rw [markers_getElem?_lt s p hp]

/-! ## Names of the original types -/

theorem nameAt_of_wellFormed (s : Schema) (hwf : s.WellFormed) (e : String × Nat)
    (he : e ∈ s.Types) : nameAt s.heap e.2 = e.1 := by
  have := hwf.2.1 e he
  unfold nameAt
  cases hd : s.heap[e.2]? with
  | none => rw [hd] at this; simp at this
  | some d => rw [hd] at this; simpa using this

theorem wellFormed_valid (s : Schema) (hwf : s.WellFormed) :
    ∀ e ∈ s.Types, e.2 < s.heap.length := by
  intro e he
  have := hwf.2.1 e he
  cases hd : s.heap[e.2]? with
  | none => rw [hd] at this; simp at this
  | some d => exact (List.getElem?_eq_some.1 hd).1

theorem originalTypeNames_nodup (s : Schema) (hwf : s.WellFormed) :
    (originalTypeNames s).Nodup := by
  have h1 : originalTypeNames s =
      (s.Types.filter fun e => isNonBuiltInAt s.heap e.2).map Prod.fst := by
    unfold originalTypeNames originalTypes
    rw [List.filter_map, List.map_map]
    apply List.map_congr_left
    intro e he
    exact nameAt_of_wellFormed s hwf e (List.mem_filter.1 he).1
  rw [h1]
  exact List.Nodup.sublist (List.Sublist.map _ (List.filter_sublist _)) hwf.1

theorem mem_originalTypes_iff (s : Schema) (p : Nat) :
    p ∈ originalTypes s ↔
      ∃ k T, (k, p) ∈ s.Types ∧ s.heap[p]? = some T ∧ T.BuiltIn = false := by
  unfold originalTypes
  rw [List.mem_filter, List.mem_map]
  constructor
  · rintro ⟨⟨e, he, hep⟩, hb⟩
    obtain ⟨k, p'⟩ := e
    simp only at hep
    subst hep
    unfold isNonBuiltInAt at hb
    cases hd : s.heap[p']? with
    | none => rw [hd] at hb; simp at hb
    | some T =>
      rw [hd] at hb
      exact ⟨k, T, he, rfl, by simpa using hb⟩
  · rintro ⟨k, T, he, hd, hb⟩
    exact ⟨⟨(k, p), he, rfl⟩, by simp [isNonBuiltInAt, hd, hb]⟩

section Library

variable (ToLower Plural : String → String)

theorem lookupType_some (s : Schema) (n : String) (r : Nat) (d : Definition)
    (h : s.lookupType n = some (r, d)) : mapGet s.Types n = some r ∧ s.heap[r]? = some d := by
  unfold Schema.lookupType at h
  cases hg : mapGet s.Types n with
  | none => rw [hg] at h; simp at h
  | some p =>
    rw [hg] at h
    simp only at h
    cases hd : s.heap[p]? with
    | none => rw [hd] at h; simp at h
    | some d' =>
      rw [hd] at h
      simp only [Option.some.injEq, Prod.mk.injEq] at h
      obtain ⟨h1, h2⟩ := h
      subst h1
      subst h2
      exact ⟨rfl, hd⟩

theorem relationFieldOf_builtIn (s : Schema) (owner R : Definition) (target : Nat)
    (hR : s.heap[target]? = some R) (hb : R.BuiltIn = true) (f : FieldDefinition) :
    relationFieldOf ToLower Plural s owner target f = none := by
  unfold relationFieldOf
  split
  · rename_i r referenced _ hl
    by_cases hr : r = target
    · subst hr
      have := (lookupType_some s _ _ _ hl).2
      rw [hR] at this
      have hRr : R = referenced := Option.some.inj this
      subst hRr
      simp [hb]
    · simp [hr]
  · rfl

theorem relationFieldsFor_builtIn (s : Schema) (names : List String) (R : Definition)
    (target : Nat) (hR : s.heap[target]? = some R) (hb : R.BuiltIn = true) :
    relationFieldsFor ToLower Plural s names target = [] := by
  unfold relationFieldsFor
  rw [List.flatMap_eq_nil_iff]
  intro n _
  split
  · rfl
  · rw [List.filterMap_eq_nil_iff]
    intro f _
    exact relationFieldOf_builtIn ToLower Plural s _ R target hR hb f

theorem relationPass_spec (schema schema' : Schema) (names : List String)
    (h : addQueryRelationFieldsToSchemaForTypes ToLower Plural schema names = (schema', .ok ())) :
    schema'.Types = schema.Types ∧ schema'.Query = schema.Query ∧
    schema'.Mutation = schema.Mutation ∧ schema'.heap.length = schema.heap.length ∧
    ∀ (target : Nat) (R : Definition), schema.heap[target]? = some R →
      schema'.heap[target]? =
        some { R with Fields := R.Fields ++ relationFieldsFor ToLower Plural schema names target } := by
  obtain ⟨pairs, hc, hs⟩ := addQueryRelationFields_ok ToLower Plural schema schema' names h
  subst hs
  refine ⟨rfl, rfl, rfl, length_applyQueryRelationFields pairs schema.heap, ?_⟩
  intro target R hR
  simp only
  rw [getElem?_applyQueryRelationFields, hR,
    collectQueryRelationFields_filter ToLower Plural schema target names pairs hc]
  rfl

theorem relationPass_nameAt (schema schema' : Schema) (names : List String)
    (h : addQueryRelationFieldsToSchemaForTypes ToLower Plural schema names = (schema', .ok ()))
    (q : Nat) : nameAt schema'.heap q = nameAt schema.heap q := by
  obtain ⟨_, _, _, hlen, hget⟩ := relationPass_spec ToLower Plural schema schema' names h
  unfold nameAt
  cases hd : schema.heap[q]? with
  | none =>
    have : schema'.heap[q]? = none := by
      rw [List.getElem?_eq_none_iff] at hd ⊢
      omega
    rw [this]
  | some d => rw [hget q d hd]

/-- Facts about the stages of a successful augmentation. -/
theorem augmentation_stages (s s' : Schema)
    (h : addSynthesizedTypesAndFields ToLower Plural s = (s', .ok ())) :
    ∃ (s3 s4 : Schema) (infos : List synthesizedInputTypeInfo),
      addQueryRelationFieldsToSchemaForTypes ToLower Plural
        (addSyntheticTypesForSdkTypesToSchema s) (originalTypeNames s)
          = (schemaAfterRelationPass ToLower Plural s, .ok ()) ∧
      addSynthesizedInputTypesToSchemaForTypes (schemaAfterRelationPass ToLower Plural s)
        (originalTypes s) = .ok (s3, infos) ∧
      addMutationFieldsForSynthesizedInputTypesToSchema ToLower s3 infos = .ok s4 ∧
      addQueryFieldsForSynthesizedInputTypesToSchema ToLower Plural s4 infos = .ok s' ∧
      (schemaAfterRelationPass ToLower Plural s).heap.length = s.heap.length + 3 ∧
      (∀ p ∈ originalTypes s, p < (schemaAfterRelationPass ToLower Plural s).heap.length) ∧
      (∀ q, nameAt (schemaAfterRelationPass ToLower Plural s).heap q
        = nameAt (addSyntheticTypesForSdkTypesToSchema s).heap q) ∧
      (∀ p ∈ originalTypes s,
        nameAt (schemaAfterRelationPass ToLower Plural s).heap p = nameAt s.heap p) := by
  obtain ⟨s2, s3, s4, infos, hval, h2, h3, h4, h5⟩ :=
    addSynthesizedTypesAndFields_ok ToLower Plural s s' h
  have hs2 : schemaAfterRelationPass ToLower Plural s = s2 := by
    unfold schemaAfterRelationPass
    rw [h2]
  rw [hs2]
  obtain ⟨r1, r2, r3, r4, r5⟩ := relationPass_spec ToLower Plural _ s2 _ h2
  have hlen : s2.heap.length = s.heap.length + 3 := by rw [r4, markers_length]
  have hname : ∀ q, nameAt s2.heap q = nameAt (addSyntheticTypesForSdkTypesToSchema s).heap q :=
    relationPass_nameAt ToLower Plural _ s2 _ h2
  refine ⟨s3, s4, infos, h2, h3, h4, h5, hlen, ?_, hname, ?_⟩
  · intro p hp
    have := originalTypes_lt s p hp
    omega
  · intro p hp
    rw [hname p]
    exact nameAt_eq_of_getElem? _ _ _ (by rw [markers_getElem?_lt s p (originalTypes_lt s p hp)])

end Library

/-! ## Lists related elementwise -/

theorem flatMap_eq_of_forall₂ {α β γ : Type} (R : α → β → Prop) (f : α → List γ)
    (g : β → List γ) :
    ∀ (as : List α) (bs : List β), List.Forall₂ R as bs →
      (∀ a b, R a b → b ∈ bs → f a = g b) → as.flatMap f = bs.flatMap g := by
  intro as bs hall
  induction hall with
  | nil => intro _; rfl
  | cons hab _ ih =>
    intro hfg
    rw [List.flatMap_cons, List.flatMap_cons, hfg _ _ hab (List.mem_cons_self _ _),
      ih fun a b hR hb => hfg a b hR (List.mem_cons_of_mem _ hb)]

theorem forall₂_getElem? {α β : Type} (R : α → β → Prop) :
    ∀ (as : List α) (bs : List β), List.Forall₂ R as bs →
      ∀ (i : Nat) (b : β), bs[i]? = some b → ∃ a, as[i]? = some a ∧ R a b := by
  intro as bs hall
  induction hall with
  | nil => intro i b h; simp at h
  | cons hab _ ih =>
    intro i b h
    cases i with
    | zero =>
      simp only [List.getElem?_cons_zero, Option.some.injEq] at h
      subst h
      exact ⟨_, by simp, hab⟩
    | succ j =>
      simp only [List.getElem?_cons_succ] at h
      obtain ⟨a, h1, h2⟩ := ih j b h
      exact ⟨a, by simpa using h1, h2⟩

theorem forall₂_getElem?_left {α β : Type} (R : α → β → Prop) :
    ∀ (as : List α) (bs : List β), List.Forall₂ R as bs →
      ∀ (i : Nat) (a : α), as[i]? = some a → ∃ b, bs[i]? = some b ∧ R a b := by
  intro as bs hall
  induction hall with
  | nil => intro i b h; simp at h
  | cons hab _ ih =>
    intro i a h
    cases i with
    | zero =>
      simp only [List.getElem?_cons_zero, Option.some.injEq] at h
      subst h
      exact ⟨_, by simp, hab⟩
    | succ j =>
      simp only [List.getElem?_cons_succ] at h
      obtain ⟨b, h1, h2⟩ := ih j a h
      exact ⟨b, by simpa using h1, h2⟩

/-! ## Outcomes of the passes -/

theorem nonBuiltInTypesFromEntries_ne_error (heap : List Definition) (msg : String) :
    ∀ entries : List (String × Nat), nonBuiltInTypesFromEntries heap entries ≠ .error msg := by
  intro entries
  induction entries with
  | nil => simp [nonBuiltInTypesFromEntries]
  | cons e rest ih =>
    obtain ⟨k, p⟩ := e
    simp only [nonBuiltInTypesFromEntries]
    cases heap[p]? with
    | none => simp
    | some d =>
      simp only
      cases hr : nonBuiltInTypesFromEntries heap rest with
      | ok ps => simp
      | error m => simp; intro hc; exact ih (by rw [hr, hc])
      | panic m => simp
      | diverge => simp

theorem namesFromDefinitions_ne_error (heap : List Definition) (msg : String) :
    ∀ ps : List Nat, namesFromDefinitions heap ps ≠ .error msg := by
  intro ps
  induction ps with
  | nil => simp [namesFromDefinitions]
  | cons p rest ih =>
    simp only [namesFromDefinitions]
    cases heap[p]? with
    | none => simp
    | some d =>
      simp only
      cases hr : namesFromDefinitions heap rest with
      | ok ps => simp
      | error m => simp; intro hc; exact ih (by rw [hr, hc])
      | panic m => simp
      | diverge => simp

theorem addSynthesizedInputTypes_ne_error (msg : String) :
    ∀ (ps : List Nat) (s : Schema),
      addSynthesizedInputTypesToSchemaForTypes s ps ≠ .error msg := by
  intro ps
  induction ps with
  | nil => intro s; simp [addSynthesizedInputTypesToSchemaForTypes]
  | cons p rest ih =>
    intro s
    simp only [addSynthesizedInputTypesToSchemaForTypes]
    cases s.heap[p]? with
    | none => simp
    | some d =>
      simp only
      split
      · simp
      · rename_i r hr
        intro hc
        rw [hc] at hr
        have := ih _ (by assumption : _ = Res.error msg)
        exact this

theorem appendFieldsToRoot_ne_error (root : Option Nat) (msg : String) :
    ∀ (fs : List FieldDefinition) (heap : List Definition),
      appendFieldsToRoot heap root fs ≠ .error msg := by
  intro fs
  induction fs with
  | nil => intro heap; simp [appendFieldsToRoot]
  | cons f rest ih =>
    intro heap
    cases root with
    | none => simp [appendFieldsToRoot]
    | some m =>
      simp only [appendFieldsToRoot]
      cases heap[m]? with
      | none => simp
      | some d => exact ih _

section Library

variable (ToLower Plural : String → String)

theorem addMutationFields_ne_error (msg : String) :
    ∀ (infos : List synthesizedInputTypeInfo) (s : Schema),
      addMutationFieldsForSynthesizedInputTypesToSchema ToLower s infos ≠ .error msg := by
  intro infos
  induction infos with
  | nil => intro s; simp [addMutationFieldsForSynthesizedInputTypesToSchema]
  | cons info rest ih =>
    intro s
    simp only [addMutationFieldsForSynthesizedInputTypesToSchema]
    cases s.heap[info.originalType]? with
    | none => simp
    | some o =>
      cases s.heap[info.inputType]? with
      | none => simp
      | some i =>
        simp only
        cases ha : appendFieldsToRoot s.heap s.Mutation
            [createInsertMutationField ToLower o i, createDeleteMutationField ToLower o,
             createUpdateMutationField ToLower o i] with
        | ok heap' => exact ih _
        | error m => exact absurd ha (appendFieldsToRoot_ne_error _ _ _ _)
        | panic m => simp
        | diverge => simp

theorem addQueryFields_ne_error (msg : String) :
    ∀ (infos : List synthesizedInputTypeInfo) (s : Schema),
      addQueryFieldsForSynthesizedInputTypesToSchema ToLower Plural s infos ≠ .error msg := by
  intro infos
  induction infos with
  | nil => intro s; simp [addQueryFieldsForSynthesizedInputTypesToSchema]
  | cons info rest ih =>
    intro s
    simp only [addQueryFieldsForSynthesizedInputTypesToSchema]
    cases s.heap[info.originalType]? with
    | none => simp
    | some o =>
      simp only
      cases ha : appendFieldsToRoot s.heap s.Query
          [createSingularQueryField ToLower o, createPluralQueryField ToLower Plural o] with
      | ok heap' => exact ih _
      | error m => exact absurd ha (appendFieldsToRoot_ne_error _ _ _ _)
      | panic m => simp
      | diverge => simp

theorem relationFieldsOfType_ok_or_error (s : Schema) (owner : Definition) :
    ∀ fields : List FieldDefinition,
      (∃ pairs, relationFieldsOfType ToLower Plural s owner fields = .ok pairs) ∨
      (∃ msg, relationFieldsOfType ToLower Plural s owner fields = .error msg) := by
  intro fields
  induction fields with
  | nil => exact Or.inl ⟨[], rfl⟩
  | cons f rest ih =>
    simp only [relationFieldsOfType]
    cases f.Type_.Elem with
    | some e => exact ih
    | none =>
      simp only
      cases s.lookupType f.Type_.NamedType with
      | none => exact Or.inr ⟨_, rfl⟩
      | some pd =>
        obtain ⟨p, d⟩ := pd
        simp only
        by_cases hb : d.BuiltIn = true
        · rw [if_pos hb]; exact ih
        · rw [if_neg hb]
          rcases ih with ⟨pairs, hp⟩ | ⟨msg, hm⟩
          · rw [hp]; exact Or.inl ⟨_, rfl⟩
          · rw [hm]; exact Or.inr ⟨_, rfl⟩

theorem relationFieldsOfType_error_of_missing (s : Schema) (owner : Definition)
    (f : FieldDefinition) (hElem : f.Type_.Elem = none)
    (hmiss : s.lookupType f.Type_.NamedType = none) :
    ∀ fields : List FieldDefinition, f ∈ fields →
      ∃ msg, relationFieldsOfType ToLower Plural s owner fields = .error msg := by
  intro fields
  induction fields with
  | nil => intro h; simp at h
  | cons g rest ih =>
    intro hmem
    by_cases hg : f = g
    · subst hg
      simp only [relationFieldsOfType, hElem, hmiss]
      exact ⟨_, rfl⟩
    · have hrest : f ∈ rest := by
        rcases List.mem_cons.1 hmem with h | h
        · exact absurd h hg
        · exact h
      obtain ⟨msg, hmsg⟩ := ih hrest
      simp only [relationFieldsOfType]
      cases g.Type_.Elem with
      | some e => exact ⟨msg, hmsg⟩
      | none =>
        simp only
        cases s.lookupType g.Type_.NamedType with
        | none => exact ⟨_, rfl⟩
        | some pd =>
          obtain ⟨p, d⟩ := pd
          simp only
          by_cases hb : d.BuiltIn = true
          · rw [if_pos hb]; exact ⟨msg, hmsg⟩
          · rw [if_neg hb, hmsg]; exact ⟨msg, rfl⟩

theorem collectQueryRelationFields_ok_or_error (s : Schema) :
    ∀ names : List String,
      (∃ pairs, collectQueryRelationFields ToLower Plural s names = .ok pairs) ∨
      (∃ msg, collectQueryRelationFields ToLower Plural s names = .error msg) := by
  intro names
  induction names with
  | nil => exact Or.inl ⟨[], rfl⟩
  | cons n rest ih =>
    simp only [collectQueryRelationFields]
    cases s.lookupType n with
    | none => exact Or.inr ⟨_, rfl⟩
    | some pd =>
      obtain ⟨p, d⟩ := pd
      simp only
      rcases relationFieldsOfType_ok_or_error ToLower Plural s d d.Fields with
        ⟨pairs, hp⟩ | ⟨msg, hm⟩
      · rw [hp]
        simp only
        rcases ih with ⟨more, hq⟩ | ⟨msg, hm⟩
        · rw [hq]; exact Or.inl ⟨_, rfl⟩
        · rw [hm]; exact Or.inr ⟨_, rfl⟩
      · rw [hm]; exact Or.inr ⟨_, rfl⟩

theorem collectQueryRelationFields_error_of_missing (s : Schema) (k : String) (p : Nat)
    (T : Definition) (hT : s.lookupType k = some (p, T))
    (herr : ∃ msg, relationFieldsOfType ToLower Plural s T T.Fields = .error msg) :
    ∀ names : List String, k ∈ names →
      ∃ msg, collectQueryRelationFields ToLower Plural s names = .error msg := by
  intro names
  induction names with
  | nil => intro h; simp at h
  | cons n rest ih =>
    intro hmem
    by_cases hn : k = n
    · subst hn
      obtain ⟨msg, hmsg⟩ := herr
      simp only [collectQueryRelationFields, hT, hmsg]
      exact ⟨_, rfl⟩
    · have hrest : k ∈ rest := by
        rcases List.mem_cons.1 hmem with h | h
        · exact absurd h hn
        · exact h
      obtain ⟨msg, hmsg⟩ := ih hrest
      simp only [collectQueryRelationFields]
      cases s.lookupType n with
      | none => exact ⟨_, rfl⟩
      | some pd =>
        obtain ⟨q, d⟩ := pd
        simp only
        rcases relationFieldsOfType_ok_or_error ToLower Plural s d d.Fields with
          ⟨pairs, hp⟩ | ⟨m2, hm⟩
        · rw [hp]
          simp only
          rw [hmsg]
          exact ⟨_, rfl⟩
        · rw [hm]; exact ⟨_, rfl⟩

/-- Claim C5, amended. The augmentation of a well-formed schema returns an error when a
field of an original (non-built-in) type is not list-typed and names a type that is
absent from the type mapping, the two names involved not being marker names. -/
theorem augmentation_error_on_missing_named_type (s : Schema) (hwf : s.WellFormed)
    (k : String) (p : Nat) (T : Definition) (f : FieldDefinition)
    (hentry : (k, p) ∈ s.Types) (hT : s.heap[p]? = some T) (hnb : T.BuiltIn = false)
    (hk : k ∉ markerNames) (hf : f ∈ T.Fields) (hElem : f.Type_.Elem = none)
    (habsent : f.Type_.NamedType ∉ mapKeys s.Types)
    (hfm : f.Type_.NamedType ∉ markerNames) :
    ∃ msg, (addSynthesizedTypesAndFields ToLower Plural s).2 = .error msg := by
  have hval := wellFormed_valid s hwf
  have h0 : nonBuiltInTypesFromSchema s = .ok (originalTypes s) :=
    nonBuiltInTypesFromEntries_total s.heap s.Types hval
  have h1 : namesFromDefinitions s.heap (originalTypes s) = .ok (originalTypeNames s) :=
    namesFromDefinitions_total s.heap _ (fun q hq => originalTypes_lt s q hq)
  have hpmem : p ∈ originalTypes s := (mem_originalTypes_iff s p).2 ⟨k, T, hentry, hT, hnb⟩
  have hname : nameAt s.heap p = k := nameAt_of_wellFormed s hwf (k, p) hentry
  have hkmem : k ∈ originalTypeNames s := by
    unfold originalTypeNames
    exact List.mem_map.2 ⟨p, hpmem, hname⟩
  have hlookT : (addSyntheticTypesForSdkTypesToSchema s).lookupType k = some (p, T) := by
    rw [markers_lookupType_other s k hk hval]
    unfold Schema.lookupType
    rw [mapGet_of_mem s.Types k p hwf.1 hentry]
    simp only
    rw [hT]
  have hlookF : (addSyntheticTypesForSdkTypesToSchema s).lookupType f.Type_.NamedType = none := by
    rw [markers_lookupType_other s _ hfm hval]
    unfold Schema.lookupType
    rw [(mapGet_eq_none_iff s.Types _).2 habsent]
  obtain ⟨msg, hmsg⟩ := collectQueryRelationFields_error_of_missing ToLower Plural _ k p T hlookT
    (relationFieldsOfType_error_of_missing ToLower Plural _ T f hElem hlookF T.Fields hf)
    (originalTypeNames s) hkmem
  refine ⟨msg, ?_⟩
  unfold addSynthesizedTypesAndFields
  rw [h0]
  simp only
  rw [h1]
  simp only [addQueryRelationFieldsToSchemaForTypes, hmsg]

/-- Claim C6, amended. When the augmentation returns an error, the schema is the original
schema with the three marker scalars registered and nothing else: the names of the type
mapping are the original names and the marker names, every entry with another name, both
roots and every original definition, hence every field list, are as before the call. -/
theorem augmentation_error_keeps_fields (s s' : Schema) (msg : String)
    (h : addSynthesizedTypesAndFields ToLower Plural s = (s', .error msg)) :
    s' = addSyntheticTypesForSdkTypesToSchema s ∧
    (∀ k, k ∈ mapKeys s'.Types ↔ k ∈ mapKeys s.Types ∨ k ∈ markerNames) ∧
    (∀ k, k ∉ markerNames → mapGet s'.Types k = mapGet s.Types k) ∧
    s'.Query = s.Query ∧ s'.Mutation = s.Mutation ∧
    s'.heap.length = s.heap.length + 3 ∧
    (∀ p : Nat, p < s.heap.length → s'.heap[p]? = s.heap[p]?) := by
  have hs : s' = addSyntheticTypesForSdkTypesToSchema s := by
    unfold addSynthesizedTypesAndFields at h
    cases h0 : nonBuiltInTypesFromSchema s with
    | ok ps =>
      rw [h0] at h
      simp only at h
      cases h1 : namesFromDefinitions s.heap ps with
      | ok names =>
        rw [h1] at h
        simp only at h
        unfold addQueryRelationFieldsToSchemaForTypes at h
        cases hc : collectQueryRelationFields ToLower Plural
            (addSyntheticTypesForSdkTypesToSchema s) names with
        | ok pairs =>
          rw [hc] at h
          simp only at h
          generalize hs2 : ({ addSyntheticTypesForSdkTypesToSchema s with
            heap := applyQueryRelationFields (addSyntheticTypesForSdkTypesToSchema s).heap pairs }
              : Schema) = s2 at h
          cases h3 : addSynthesizedInputTypesToSchemaForTypes s2 ps with
          | ok si =>
            obtain ⟨s3, infos⟩ := si
            rw [h3] at h
            simp only at h
            cases h4 : addMutationFieldsForSynthesizedInputTypesToSchema ToLower s3 infos with
            | ok s4 =>
              rw [h4] at h
              simp only at h
              cases h5 : addQueryFieldsForSynthesizedInputTypesToSchema ToLower Plural s4
                  infos with
              | ok s5 => rw [h5] at h; simp at h
              | error m => exact absurd h5 (addQueryFields_ne_error ToLower Plural _ _ _)
              | panic m => rw [h5] at h; simp at h
              | diverge => rw [h5] at h; simp at h
            | error m => exact absurd h4 (addMutationFields_ne_error ToLower _ _ _)
            | panic m => rw [h4] at h; simp at h
            | diverge => rw [h4] at h; simp at h
          | error m => exact absurd h3 (addSynthesizedInputTypes_ne_error _ _ _)
          | panic m => rw [h3] at h; simp at h
          | diverge => rw [h3] at h; simp at h
        | error m =>
          rw [hc] at h
          simp only [Prod.mk.injEq] at h
          exact h.1.symm
        | panic m => rw [hc] at h; simp at h
        | diverge => rw [hc] at h; simp at h
      | error m => exact absurd h1 (namesFromDefinitions_ne_error _ _ _)
      | panic m => rw [h1] at h; simp at h
      | diverge => rw [h1] at h; simp at h
    | error m => exact absurd h0 (nonBuiltInTypesFromEntries_ne_error _ _ _)
    | panic m => rw [h0] at h; simp at h
    | diverge => rw [h0] at h; simp at h
  subst hs
  exact ⟨rfl, markers_mem_keys s, fun k hk => markers_mapGet_other s k hk, rfl, rfl,
    markers_length s, fun p hp => markers_getElem?_lt s p hp⟩

end Library

section Library

variable (ToLower Plural : String → String)

/-- Claim C1, amended. After a successful augmentation of a well-formed schema: the names
of the type mapping are exactly the original names, the three marker names and `T_Data` for
every original (non-built-in) type `T`; an entry whose name is none of the new names is the
original entry, so only an original entry that already bears a new name is replaced; every
marker name maps to its built-in scalar; `T_Data` maps to an input object with the fields
`T` has after the relation pass; and the heap gains exactly three markers and one
definition per original type, so no type added by the engine gets a counterpart. -/
theorem augmentation_type_mapping (s s' : Schema) (hwf : s.WellFormed)
    (h : addSynthesizedTypesAndFields ToLower Plural s = (s', .ok ())) :
    (∀ k, k ∈ mapKeys s'.Types ↔
      k ∈ mapKeys s.Types ∨ k ∈ markerNames ∨
        ∃ p ∈ originalTypes s, k = nameAt s.heap p ++ "_Data") ∧
    (∀ k, k ∉ markerNames → (∀ p ∈ originalTypes s, k ≠ nameAt s.heap p ++ "_Data") →
      mapGet s'.Types k = mapGet s.Types k) ∧
    (∀ m ∈ markerNames, ∃ q, mapGet s'.Types m = some q ∧
      s'.heap[q]? = some { Kind := .Scalar, Name := m, Fields := [], BuiltIn := true }) ∧
    (∀ p ∈ originalTypes s, ∃ (q : Nat) (T : Definition),
      (schemaAfterRelationPass ToLower Plural s).heap[p]? = some T ∧
      T.Name = nameAt s.heap p ∧
      mapGet s'.Types (T.Name ++ "_Data") = some q ∧
      s'.heap[q]? = some { T with Name := T.Name ++ "_Data", Kind := .InputObject }) ∧
    s'.heap.length = s.heap.length + 3 + (originalTypes s).length := by
  obtain ⟨s3, s4, infos, h2, h3, h4, h5, hlen2, hlt2, hname2, hnameo⟩ :=
    augmentation_stages ToLower Plural s s' h
  generalize schemaAfterRelationPass ToLower Plural s = s2 at h2 h3 hlen2 hlt2 hname2 hnameo ⊢
  obtain ⟨r1, r2, r3, r4, r5⟩ := relationPass_spec ToLower Plural _ s2 _ h2
  rw [markers_query] at r2
  rw [markers_mutation] at r3
  obtain ⟨i1, i2, i3, i4, i5, i6, _, i8⟩ :=
    addSynthesizedInputTypes_inv (originalTypes s) s2 s3 infos hlt2 h3
  obtain ⟨m1, m2, m3, m4, _, m6⟩ := addMutationFields_inv ToLower infos s3 s4 h4
  obtain ⟨q1, q2, q3, q4, _, q6, _, _⟩ := addQueryFields_inv ToLower Plural infos s4 s' h5
  have htypes : s'.Types = s3.Types := by rw [q1, m1]
  have hquery : ∀ q, s.heap.length ≤ q → s4.Query ≠ some q := by
    intro q hq hc
    rw [m2, i1, r2] at hc
    have := hwf.2.2.1 q (by rw [hc]; rfl)
    omega
  have hmutation : ∀ q, s.heap.length ≤ q → s3.Mutation ≠ some q := by
    intro q hq hc
    rw [i2, r3] at hc
    have := hwf.2.2.2 q (by rw [hc]; rfl)
    omega
  have hfresh : ∀ q, s.heap.length ≤ q → s'.heap[q]? = s3.heap[q]? := by
    intro q hq
    rw [q6 q (hquery q hq), m6 q]
    cases s3.heap[q]? with
    | none => rfl
    | some d => simp [hmutation q hq]
  have hnd : ((originalTypes s).map (nameAt s2.heap)).Nodup := by
    have : (originalTypes s).map (nameAt s2.heap) = originalTypeNames s :=
      List.map_congr_left fun p hp => hnameo p hp
    rw [this]
    exact originalTypeNames_nodup s hwf
  refine ⟨?_, ?_, ?_, ?_, ?_⟩
  · intro k
    rw [htypes, i5 k, r1, markers_mem_keys]
    constructor
    · rintro (h | ⟨p, hp, hk⟩)
      · rcases h with h | h
        · exact Or.inl h
        · exact Or.inr (Or.inl h)
      · exact Or.inr (Or.inr ⟨p, hp, by rw [hk, hnameo p hp]⟩)
    · rintro (h | h | ⟨p, hp, hk⟩)
      · exact Or.inl (Or.inl h)
      · exact Or.inl (Or.inr h)
      · exact Or.inr ⟨p, hp, by rw [hk, hnameo p hp]⟩
  · intro k hk1 hk2
    rw [htypes, i6 k, r1, markers_mapGet_other s k hk1]
    intro p hp
    rw [hnameo p hp]
    exact hk2 p hp
  · intro m hm
    obtain ⟨q, hq, g1, g2⟩ := markers_mapGet_marker s m hm
    refine ⟨q, ?_, ?_⟩
    · rw [htypes, i6 m, r1, g1]
      intro p _ hc
      exact append_data_not_marker _ (hc ▸ hm)
    · have hq2 : q < s2.heap.length := by
        rw [r4]
        exact (List.getElem?_eq_some.1 g2).1
      rw [hfresh q hq, i4 q hq2, r5 q _ g2,
        relationFieldsFor_builtIn ToLower Plural _ _ _ q g2 rfl]
      rfl
  · intro p hp
    obtain ⟨q, b1, b2, b3⟩ := i8 hnd p hp
    have hplt : p < s2.heap.length := hlt2 p hp
    have hT : s2.heap[p]? = some s2.heap[p] := List.getElem?_eq_getElem hplt
    have hTn : s2.heap[p].Name = nameAt s.heap p := by
      rw [← hnameo p hp]
      simp [nameAt, hT]
    refine ⟨q, s2.heap[p], hT, hTn, ?_, ?_⟩
    · rw [htypes, hTn, ← hnameo p hp]
      exact b2
    · rw [hfresh q (by omega), b3, hT]
      rfl
  · rw [q4, m4, i3, hlen2]

end Library

section Library

variable (ToLower Plural : String → String)

/-- Claim C2, amended. After a successful augmentation of a well-formed schema whose
`Mutation` root is not also its `Query` root, the field list of `Mutation` is its list after
the relation pass (its previous list followed by the relation fields collected for
`Mutation`) followed by, for each original type name in snapshot order, the fields
`lowercase(T)_insert(data: T_Data): InsertData!`, `lowercase(T)_delete(id: String):
DeleteData` and `lowercase(T)_update(id: String, data: T_Data): UpdateData!`, and nothing
else. -/
theorem augmentation_mutation_fields (s s' : Schema) (mutation : Nat) (hwf : s.WellFormed)
    (hm : s.Mutation = some mutation) (hqm : s.Query ≠ s.Mutation)
    (h : addSynthesizedTypesAndFields ToLower Plural s = (s', .ok ())) :
    ∃ (M0 M2 M' : Definition),
      s.heap[mutation]? = some M0 ∧
      (schemaAfterRelationPass ToLower Plural s).heap[mutation]? = some M2 ∧
      M2.Fields = M0.Fields ++ relationFieldsFor ToLower Plural
        (addSyntheticTypesForSdkTypesToSchema s) (originalTypeNames s) mutation ∧
      s'.Mutation = some mutation ∧ s'.heap[mutation]? = some M' ∧
      M'.Fields = M2.Fields ++
        (originalTypeNames s).flatMap fun name => mutationFieldsFor ToLower name (name ++ "_Data") := by
  obtain ⟨s3, s4, infos, h2, h3, h4, h5, hlen2, hlt2, hname2, hnameo⟩ :=
    augmentation_stages ToLower Plural s s' h
  generalize schemaAfterRelationPass ToLower Plural s = s2 at h2 h3 hlen2 hlt2 hname2 hnameo ⊢
  obtain ⟨r1, r2, r3, r4, r5⟩ := relationPass_spec ToLower Plural _ s2 _ h2
  rw [markers_query] at r2
  rw [markers_mutation] at r3
  obtain ⟨i1, i2, i3, i4, _, _, i7, _⟩ :=
    addSynthesizedInputTypes_inv (originalTypes s) s2 s3 infos hlt2 h3
  obtain ⟨m1, m2, m3, m4, _, m6⟩ := addMutationFields_inv ToLower infos s3 s4 h4
  obtain ⟨q1, q2, q3, q4, _, q6, _, _⟩ := addQueryFields_inv ToLower Plural infos s4 s' h5
  have hmlt : mutation < s.heap.length := hwf.2.2.2 mutation (by rw [hm]; rfl)
  have hM0 : s.heap[mutation]? = some s.heap[mutation] := List.getElem?_eq_getElem hmlt
  have hM1 : (addSyntheticTypesForSdkTypesToSchema s).heap[mutation]? = some s.heap[mutation] := by
    rw [markers_getElem?_lt s mutation hmlt, hM0]
  have hM2 := r5 mutation _ hM1
  have hM3 : s3.heap[mutation]? = s2.heap[mutation]? := i4 mutation (by omega)
  have hmut3 : s3.Mutation = some mutation := by rw [i2, r3, hm]
  have hq4 : s4.Query ≠ some mutation := by
    rw [m2, i1, r2]
    intro hc
    exact hqm (by rw [hc, hm])
  have hflat : (infos.flatMap fun info =>
      mutationFieldsFor ToLower (nameAt s3.heap info.originalType) (nameAt s3.heap info.inputType))
      = (originalTypeNames s).flatMap fun name =>
          mutationFieldsFor ToLower name (name ++ "_Data") := by
    unfold originalTypeNames
    rw [List.flatMap_map]
    refine flatMap_eq_of_forall₂ _ _ _ infos (originalTypes s) i7 ?_
    intro info p ⟨a1, _, a3⟩ hp
    have hplt : p < s2.heap.length := hlt2 p hp
    have hp3 : s3.heap[p]? = s2.heap[p]? := i4 p hplt
    have hp2 : s2.heap[p]? = some s2.heap[p] := List.getElem?_eq_getElem hplt
    have hn2 : s2.heap[p].Name = nameAt s.heap p := by
      rw [← hnameo p hp]
      simp [nameAt, hp2]
    have e1 : nameAt s3.heap info.originalType = nameAt s.heap p := by
      rw [a1]
      simp [nameAt, hp3, hp2, hn2]
    have e2 : nameAt s3.heap info.inputType = nameAt s.heap p ++ "_Data" := by
      simp [nameAt, a3, hp3, hp2, inputTypeOf, hn2]
    simp only [e1, e2, Function.comp]
  refine ⟨s.heap[mutation], _,
    { Kind := s.heap[mutation].Kind, Name := s.heap[mutation].Name
      Fields := (s.heap[mutation].Fields ++ relationFieldsFor ToLower Plural
        (addSyntheticTypesForSdkTypesToSchema s) (originalTypeNames s) mutation) ++
          (originalTypeNames s).flatMap fun name =>
            mutationFieldsFor ToLower name (name ++ "_Data")
      BuiltIn := s.heap[mutation].BuiltIn },
    hM0, hM2, rfl, by rw [q3, m3, hmut3], ?_, rfl⟩
  rw [q6 mutation hq4, m6 mutation, hM3, hM2]
  simp only [Option.map_some', hmut3, if_true, hflat]

end Library

section Library

variable (ToLower Plural : String → String)

/-- Claim C3, amended. After a successful augmentation of a well-formed schema whose
`Query` root is not also its `Mutation` root, the field list of `Query` is its list after
the relation pass followed by a list `G` of two fields per original type, in snapshot
order: `lowercase(T): T!` and `pluralize(lowercase(T)): [T!]!`, both with one nullable
argument per field that `T` has when the pair is created, in field order. Those are the
final fields of `T`, except for `T = Query`, where they are the fields of `Query` built so
far. -/
theorem augmentation_query_fields (s s' : Schema) (query : Nat) (hwf : s.WellFormed)
    (hq : s.Query = some query) (hqm : s.Query ≠ s.Mutation)
    (h : addSynthesizedTypesAndFields ToLower Plural s = (s', .ok ())) :
    ∃ (Q0 Q2 Q' : Definition) (G : List FieldDefinition),
      s.heap[query]? = some Q0 ∧
      (schemaAfterRelationPass ToLower Plural s).heap[query]? = some Q2 ∧
      Q2.Fields = Q0.Fields ++ relationFieldsFor ToLower Plural
        (addSyntheticTypesForSdkTypesToSchema s) (originalTypeNames s) query ∧
      s'.Query = some query ∧ s'.heap[query]? = some Q' ∧
      Q'.Fields = Q2.Fields ++ G ∧
      G.length = 2 * (originalTypes s).length ∧
      ∀ (i p : Nat), (originalTypes s)[i]? = some p →
        ∃ T : Definition, s'.heap[p]? = some T ∧ T.Name = nameAt s.heap p ∧
          G[2 * i]? = some (singularQueryFieldFor ToLower T.Name
            (if p = query then Q2.Fields ++ G.take (2 * i) else T.Fields)) ∧
          G[2 * i + 1]? = some (pluralQueryFieldFor ToLower Plural T.Name
            (if p = query then Q2.Fields ++ G.take (2 * i) else T.Fields)) := by
  obtain ⟨s3, s4, infos, h2, h3, h4, h5, hlen2, hlt2, hname2, hnameo⟩ :=
    augmentation_stages ToLower Plural s s' h
  generalize schemaAfterRelationPass ToLower Plural s = s2 at h2 h3 hlen2 hlt2 hname2 hnameo ⊢
  obtain ⟨r1, r2, r3, r4, r5⟩ := relationPass_spec ToLower Plural _ s2 _ h2
  rw [markers_query] at r2
  rw [markers_mutation] at r3
  obtain ⟨i1, i2, i3, i4, _, _, i7, _⟩ :=
    addSynthesizedInputTypes_inv (originalTypes s) s2 s3 infos hlt2 h3
  obtain ⟨m1, m2, m3, m4, _, m6⟩ := addMutationFields_inv ToLower infos s3 s4 h4
  obtain ⟨q1, q2, q3, q4, _, q6, q7, q8⟩ := addQueryFields_inv ToLower Plural infos s4 s' h5
  have hqlt : query < s.heap.length := hwf.2.2.1 query (by rw [hq]; rfl)
  have hQ0 : s.heap[query]? = some s.heap[query] := List.getElem?_eq_getElem hqlt
  have hQ1 : (addSyntheticTypesForSdkTypesToSchema s).heap[query]? = some s.heap[query] := by
    rw [markers_getElem?_lt s query hqlt, hQ0]
  have hQ2 := r5 query _ hQ1
  have hQ3 : s3.heap[query]? = s2.heap[query]? := i4 query (by omega)
  have hquery4 : s4.Query = some query := by rw [m2, i1, r2, hq]
  have hmut3 : s3.Mutation ≠ some query := by
    rw [i2, r3]
    intro hc
    exact hqm (by rw [hc, hq])
  have hQ4 : s4.heap[query]? = s2.heap[query]? := by
    rw [m6 query, hQ3]
    cases s2.heap[query]? with
    | none => rfl
    | some d => simp [hmut3]
  rw [hQ2] at hQ4
  obtain ⟨G, g1, g2, g3⟩ := q8 query _ hquery4 hQ4
  have hlen : infos.length = (originalTypes s).length := List.Forall₂.length_eq i7
  refine ⟨s.heap[query], _, _, G, hQ0, hQ2, rfl, by rw [q2, hquery4], g1, rfl,
    by rw [g2, hlen], ?_⟩
  intro i p hp
  obtain ⟨info, hinfo, a1, _, _⟩ := forall₂_getElem? _ infos (originalTypes s) i7 i p hp
  obtain ⟨T4, t1, t2, t3⟩ := g3 i info hinfo
  rw [a1] at t1 t2 t3
  have hpmem : p ∈ originalTypes s := List.getElem?_mem hp
  have hplt : p < s2.heap.length := hlt2 p hpmem
  have hname4 : T4.Name = nameAt s.heap p := by
    have e4 : nameAt s4.heap p = T4.Name := by simp [nameAt, t1]
    have e3 : nameAt s4.heap p = nameAt s3.heap p := by
      apply nameAt_eq_of_getElem?
      rw [m6 p]
      cases s3.heap[p]? with
      | none => rfl
      | some d =>
        simp only [Option.map_some']
        split <;> rfl
    have e2 : nameAt s3.heap p = nameAt s2.heap p :=
      nameAt_eq_of_getElem? _ _ _ (by rw [i4 p hplt])
    rw [← e4, e3, e2, hnameo p hpmem]
  by_cases hpq : p = query
  · subst hpq
    rw [hQ4] at t1
    have hT4 : T4 = _ := (Option.some.inj t1).symm
    refine ⟨_, g1, ?_, ?_, ?_⟩
    · rw [← hname4, hT4]
    · simp only [if_true] at t2 ⊢
      rw [t2, hT4]
    · simp only [if_true] at t3 ⊢
      rw [t3, hT4]
  · have hne : s4.Query ≠ some p := by
      rw [hquery4]
      intro hc
      exact hpq (Option.some.inj hc).symm
    refine ⟨T4, by rw [q6 p hne, t1], hname4, ?_, ?_⟩
    · simp only [hpq, if_false] at t2 ⊢
      exact t2
    · simp only [hpq, if_false] at t3 ⊢
      exact t3

end Library

theorem hasPrefixStr_iff (s p : String) : hasPrefixStr s p = true ↔ ∃ rest : String, s = p ++ rest := by
  unfold hasPrefixStr
  rw [List.isPrefixOf_iff_prefix]
  constructor
  · rintro ⟨t, ht⟩
    refine ⟨String.mk t, ?_⟩
    apply String.ext
    simp [String.data_append, ht]
  · rintro ⟨rest, rfl⟩
    exact ⟨rest.data, by simp [String.data_append]⟩

theorem sdk_append_ne (rest : String) :
    "sdk:" ++ rest ≠ "Int" ∧ "sdk:" ++ rest ≠ "Float" ∧ "sdk:" ++ rest ≠ "String" ∧
    "sdk:" ++ rest ≠ "Boolean" ∧ "sdk:" ++ rest ≠ "ID" := by
  refine ⟨?_, ?_, ?_, ?_, ?_⟩ <;>
  · intro h
    have h2 := congrArg String.data h
    simp [String.data_append] at h2

/-- Claim C8. The rendering of a type reference: `Int`, `Float`, `String`, `Boolean` map
to themselves and `ID` to `String`; a name with the prefix `sdk:` loses the prefix; any
other name is unchanged; a named type renders as its mapped name, a list as `List<` + the
rendering of its element + `>`, each followed by `?` exactly when that level is
nullable. -/
theorem kotlinTypeFromTypeNode_rendering :
    (kotlinTypeNameFromGraphQLTypeName "Int" = "Int"
      ∧ kotlinTypeNameFromGraphQLTypeName "Float" = "Float"
      ∧ kotlinTypeNameFromGraphQLTypeName "String" = "String"
      ∧ kotlinTypeNameFromGraphQLTypeName "Boolean" = "Boolean"
      ∧ kotlinTypeNameFromGraphQLTypeName "ID" = "String")
    ∧ (∀ rest : String, kotlinTypeNameFromGraphQLTypeName ("sdk:" ++ rest) = rest)
    ∧ (∀ name : String, name ∉ ["Int", "Float", "String", "Boolean", "ID"] →
        (¬ ∃ rest : String, name = "sdk:" ++ rest) →
        kotlinTypeNameFromGraphQLTypeName name = name)
    ∧ (∀ (name : String) (nonNull : Bool),
        kotlinTypeFromTypeNode (.leaf name nonNull)
          = kotlinTypeNameFromGraphQLTypeName name ++ (if nonNull then "" else "?"))
    ∧ (∀ (name : String) (elem : AstType) (nonNull : Bool),
        kotlinTypeFromTypeNode (.wrap name elem nonNull)
          = "List<" ++ kotlinTypeFromTypeNode elem ++ ">" ++ (if nonNull then "" else "?")) := by
  refine ⟨⟨by decide, by decide, by decide, by decide, by decide⟩, ?_, ?_, ?_, ?_⟩
  · intro rest
    obtain ⟨h1, h2, h3, h4, h5⟩ := sdk_append_ne rest
    have hp : hasPrefixStr ("sdk:" ++ rest) "sdk:" = true := (hasPrefixStr_iff _ _).2 ⟨rest, rfl⟩
    unfold kotlinTypeNameFromGraphQLTypeName
    rw [if_neg h1, if_neg h2, if_neg h3, if_neg h4, if_neg h5, if_pos hp]
    apply String.ext
    simp [String.data_append]
  · intro name hn hp
    have hp2 : ¬ hasPrefixStr name "sdk:" = true := fun h => hp ((hasPrefixStr_iff _ _).1 h)
    simp only [List.mem_cons, List.mem_singleton, List.not_mem_nil, or_false, not_or] at hn
    obtain ⟨h1, h2, h3, h4, h5⟩ := hn
    unfold kotlinTypeNameFromGraphQLTypeName
    rw [if_neg h1, if_neg h2, if_neg h3, if_neg h4, if_neg h5, if_neg hp2]
  · intro name nonNull
    rfl
  · intro name elem nonNull
    rfl

theorem fieldsFromSelections_spec : ∀ (sels : List Selection) (fields : List AstField),
    fieldsFromSelections sels = .ok fields →
    sels = fields.map (fun f => Selection.Field f.Name f.Definition f.SelectionSet) := by
  intro sels
  induction sels with
  | nil =>
    intro fields h
    simp [fieldsFromSelections] at h
    subst h; rfl
  | cons s rest ih =>
    intro fields h
    cases s with
    | Field n d ss =>
      simp only [fieldsFromSelections, fieldFromSelection] at h
      cases hr : fieldsFromSelections rest with
      | ok fs =>
        rw [hr] at h
        simp at h
        subst h
        simp [ih fs hr]
      | error m => rw [hr] at h; simp at h
      | panic m => rw [hr] at h; simp at h
      | diverge => rw [hr] at h; simp at h
    | FragmentSpread n => simp [fieldsFromSelections, fieldFromSelection] at h
    | InlineFragment t ss => simp [fieldsFromSelections, fieldFromSelection] at h

theorem variableDefinitionsOfFields_spec (schema : Schema) : ∀ (fields : List AstField)
    (vds : List VariableDefinition),
    variableDefinitionsOfFields schema fields = .ok vds →
    vds.map (fun vd => (vd.Variable, vd.Type_)) = fields.map (fun f => (f.Name, f.Definition.Type_)) := by
  intro fields
  induction fields with
  | nil =>
    intro vds h
    simp [variableDefinitionsOfFields] at h
    subst h; rfl
  | cons f rest ih =>
    intro vds h
    simp only [variableDefinitionsOfFields] at h
    split at h
    · simp at h
    · split at h
      · cases hr : variableDefinitionsOfFields schema rest with
        | ok vs =>
          rw [hr] at h
          simp at h
          subst h
          simp [ih vs hr]
        | error m => rw [hr] at h; simp at h
        | panic m => rw [hr] at h; simp at h
        | diverge => rw [hr] at h; simp at h
      · simp at h
      · simp at h
      · simp at h

theorem kotlinClassForVariableDefinitions_parameters (fuel : Nat) (name : String) (incl : Bool)
    (vds : List VariableDefinition) (schema : Schema) (cls : kotlinClass)
    (h : kotlinClassForVariableDefinitions fuel name incl vds schema = .ok (some cls)) :
    cls.ConstructorParameters = variablesClassConstructorParametersFromVariableDefinitions vds := by
  unfold kotlinClassForVariableDefinitions at h
  split at h
  · simp at h
  · split at h
    · split at h
      · simp at h
        subst h
        rfl
      · simp at h
      · simp at h
      · simp at h
    · simp at h
    · simp at h
    · simp at h

theorem variablesClassConstructorParameters_get (vds : List VariableDefinition) (i : Nat)
    (hi : i < vds.length) :
    (variablesClassConstructorParametersFromVariableDefinitions vds)[i]? =
      some { Name := vds[i].Variable, KotlinType := kotlinTypeFromTypeNode vds[i].Type_,
             IsLast := decide (i + 1 = vds.length) } := by
  unfold variablesClassConstructorParametersFromVariableDefinitions
  rw [List.getElem?_eq_getElem (by simpa using hi)]
  simp

/-- Claim C7. When `kotlinClassForVariableDefinitions` succeeds on a non-empty list of
variable definitions, the class has one constructor parameter per definition, in order,
with the definition's name and the rendering of its declared type, and `IsLast` is set on
the final parameter only; when `kotlinClassForSelectionSet` succeeds, every selection is a
field and the class has one such parameter per selected field, in selection order. -/
theorem constructorParameters_mirror_definitions :
    (∀ (fuel : Nat) (name : String) (incl : Bool) (vds : List VariableDefinition)
        (schema : Schema) (cls : kotlinClass),
        vds ≠ [] →
        kotlinClassForVariableDefinitions fuel name incl vds schema = .ok (some cls) →
        cls.ConstructorParameters.length = vds.length ∧
        ∀ (i : Nat) (hi : i < vds.length),
          cls.ConstructorParameters[i]? =
            some { Name := vds[i].Variable
                   KotlinType := kotlinTypeFromTypeNode vds[i].Type_
                   IsLast := decide (i + 1 = vds.length) })
    ∧ (∀ (fuel : Nat) (name : String) (sels : List Selection) (schema : Schema)
        (cls : kotlinClass),
        kotlinClassForSelectionSet fuel name sels schema = .ok (some cls) →
        cls.ConstructorParameters.length = sels.length ∧
        ∀ (i : Nat) (hi : i < sels.length),
          ∃ (fieldName : String) (fieldDefinition : FieldDefinition) (sub : List Selection),
            sels[i] = .Field fieldName fieldDefinition sub ∧
            cls.ConstructorParameters[i]? =
              some { Name := fieldName
                     KotlinType := kotlinTypeFromTypeNode fieldDefinition.Type_
                     IsLast := decide (i + 1 = sels.length) }) := by
  constructor
  · intro fuel name incl vds schema cls _ h
    rw [kotlinClassForVariableDefinitions_parameters fuel name incl vds schema cls h]
    refine ⟨by simp [variablesClassConstructorParametersFromVariableDefinitions], ?_⟩
    intro i hi
    exact variablesClassConstructorParameters_get vds i hi
  · intro fuel name sels schema cls h
    unfold kotlinClassForSelectionSet at h
    split at h
    · simp at h
    · cases hf : fieldsFromSelections sels with
      | ok fields =>
        rw [hf] at h
        simp only at h
        cases hv : variableDefinitionsOfFields schema fields with
        | ok vds =>
          rw [hv] at h
          simp only at h
          have hsel := fieldsFromSelections_spec sels fields hf
          have hvd := variableDefinitionsOfFields_spec schema fields vds hv
          have hlen : vds.length = fields.length := by
            have := congrArg List.length hvd
            simpa using this
          have hlen2 : sels.length = fields.length := by
            rw [hsel]; simp
          rw [kotlinClassForVariableDefinitions_parameters fuel name false vds schema cls h]
          refine ⟨by simp [variablesClassConstructorParametersFromVariableDefinitions, hlen, hlen2], ?_⟩
          intro i hi
          have hif : i < fields.length := by omega
          have hiv : i < vds.length := by omega
          refine ⟨fields[i].Name, fields[i].Definition, fields[i].SelectionSet, ?_, ?_⟩
          · subst hsel
            simp
          · rw [variablesClassConstructorParameters_get vds i hiv]
            have h1 : (vds.map (fun vd => (vd.Variable, vd.Type_)))[i]? =
                (fields.map (fun f => (f.Name, f.Definition.Type_)))[i]? := by rw [hvd]
            simp only [List.getElem?_map, List.getElem?_eq_getElem hiv,
              List.getElem?_eq_getElem hif, Option.map_some'] at h1
            injection h1 with h1
            injection h1 with h1 h2
            simp [h1, h2, hlen, hlen2]
        | error m => rw [hv] at h; simp at h
        | panic m => rw [hv] at h; simp at h
        | diverge => rw [hv] at h; simp at h
      | error m => rw [hf] at h; simp at h
      | panic m => rw [hf] at h; simp at h
      | diverge => rw [hf] at h; simp at h

section Library

variable (ToLower Plural : String → String)

/-- Claim C4, amended. A successful relation pass leaves the type mapping and the roots
alone and appends to every type `R`, after its existing fields, exactly one field per
pair of an owner name `O` and a field of `O` whose type is not a list and names `R`, where
`R` is not built in (of any kind, not only an object type); the field is named
`pluralize(lowercase(O)) + "_as_" + lowercase(R)` and has type `[O!]!`. -/
theorem relationPass_appends_relation_fields (schema schema' : Schema) (names : List String)
    (h : addQueryRelationFieldsToSchemaForTypes ToLower Plural schema names = (schema', .ok ())) :
    schema'.Types = schema.Types ∧ schema'.Query = schema.Query ∧
    schema'.Mutation = schema.Mutation ∧ schema'.heap.length = schema.heap.length ∧
    ∀ (target : Nat) (R : Definition), schema.heap[target]? = some R →
      schema'.heap[target]? =
        some { R with Fields := R.Fields ++ relationFieldsFor ToLower Plural schema names target } := by
  obtain ⟨pairs, hc, hs⟩ := addQueryRelationFields_ok ToLower Plural schema schema' names h
  subst hs
  refine ⟨rfl, rfl, rfl, length_applyQueryRelationFields pairs schema.heap, ?_⟩
  intro target R hR
  simp only
  rw [getElem?_applyQueryRelationFields, hR,
    collectQueryRelationFields_filter ToLower Plural schema target names pairs hc]
  rfl

end Library

/-- Claim C1 fails as stated. With `type Movie` and a user-declared `input Movie_Data` the
result is not the original mapping extended: the original entry `Movie_Data` (address 4,
field `name`) is replaced by the input copy of `Movie` (address 10, field `title`). -/
theorem augmentation_replaces_colliding_entry :
    (addSynthesizedTypesAndFields asciiLower regularPlural collidingSchema).2 = .ok () ∧
    mapGet collidingSchema.Types "Movie_Data" = some 4 ∧
    collidingSchema.heap[4]? =
      some { Kind := .InputObject, Name := "Movie_Data", BuiltIn := false
             Fields := [plainField "name" (.leaf "String" false)] } ∧
    mapGet (addSynthesizedTypesAndFields asciiLower regularPlural collidingSchema).1.Types
      "Movie_Data" = some 10 ∧
    (addSynthesizedTypesAndFields asciiLower regularPlural collidingSchema).1.heap[10]? =
      some { Kind := .InputObject, Name := "Movie_Data", BuiltIn := false
             Fields := [plainField "title" (.leaf "String" false)] } := by
  decide

/-- Claim C1, witness: the scenario schema is well formed, its augmentation succeeds, and
`Studio` (address 8) gets its input counterpart. -/
theorem augmentation_type_mapping_on_movies :
    movieSchema.WellFormed ∧
    (addSynthesizedTypesAndFields asciiLower regularPlural movieSchema).2 = .ok () ∧
    ∃ (q : Nat) (T : Definition),
      (schemaAfterRelationPass asciiLower regularPlural movieSchema).heap[8]? = some T ∧
      T.Name = nameAt movieSchema.heap 8 ∧
      mapGet (addSynthesizedTypesAndFields asciiLower regularPlural movieSchema).1.Types
        (T.Name ++ "_Data") = some q ∧
      (addSynthesizedTypesAndFields asciiLower regularPlural movieSchema).1.heap[q]? =
        some { T with Name := T.Name ++ "_Data", Kind := .InputObject } :=
  ⟨by decide, by decide,
    (augmentation_type_mapping asciiLower regularPlural movieSchema
      (addSynthesizedTypesAndFields asciiLower regularPlural movieSchema).1 (by decide)
      (Prod.ext rfl (by decide))).2.2.2.1 8 (by decide)⟩

/-- Claim C2 fails as stated. With `type Payload { query: Query, mutation: Mutation }` the
field list of `Mutation`, empty before, ends with the relation field
`payloads_as_mutation` in front of the nine synthesized mutation fields. -/
theorem augmentation_adds_relation_field_to_mutation :
    (addSynthesizedTypesAndFields asciiLower regularPlural payloadSchema).2 = .ok () ∧
    payloadSchema.Mutation = some 1 ∧
    (payloadSchema.heap[1]?).map (fun d => d.Fields.map fun f => f.Name) = some [] ∧
    originalTypeNames payloadSchema = ["Query", "Mutation", "Payload"] ∧
    ((addSynthesizedTypesAndFields asciiLower regularPlural payloadSchema).1.heap[1]?).map
      (fun d => d.Fields.map fun f => f.Name) =
      some ["payloads_as_mutation", "query_insert", "query_delete", "query_update",
            "mutation_insert", "mutation_delete", "mutation_update",
            "payload_insert", "payload_delete", "payload_update"] := by
  decide

/-- Claim C2, witness: the scenario schema satisfies the hypotheses, with `Mutation` at
address 6. -/
theorem augmentation_mutation_fields_on_movies :
    movieSchema.WellFormed ∧ movieSchema.Mutation = some 6 ∧
    movieSchema.Query ≠ movieSchema.Mutation ∧
    (addSynthesizedTypesAndFields asciiLower regularPlural movieSchema).2 = .ok () ∧
    ∃ (M0 M2 M' : Definition),
      movieSchema.heap[6]? = some M0 ∧
      (schemaAfterRelationPass asciiLower regularPlural movieSchema).heap[6]? = some M2 ∧
      M2.Fields = M0.Fields ++ relationFieldsFor asciiLower regularPlural
        (addSyntheticTypesForSdkTypesToSchema movieSchema) (originalTypeNames movieSchema) 6 ∧
      (addSynthesizedTypesAndFields asciiLower regularPlural movieSchema).1.Mutation = some 6 ∧
      (addSynthesizedTypesAndFields asciiLower regularPlural movieSchema).1.heap[6]? = some M' ∧
      M'.Fields = M2.Fields ++
        (originalTypeNames movieSchema).flatMap fun name =>
          mutationFieldsFor asciiLower name (name ++ "_Data") :=
  ⟨by decide, by decide, by decide, by decide,
    augmentation_mutation_fields asciiLower regularPlural movieSchema
      (addSynthesizedTypesAndFields asciiLower regularPlural movieSchema).1 6 (by decide)
      (by decide) (by decide) (Prod.ext rfl (by decide))⟩

/-- Claim C3 fails as stated. With `type Payload { query: Query, mutation: Mutation }` the
field list of `Query`, empty before, ends with the relation field `payloads_as_query` in
front of the six synthesized query fields. -/
theorem augmentation_adds_relation_field_to_query :
    (addSynthesizedTypesAndFields asciiLower regularPlural payloadSchema).2 = .ok () ∧
    payloadSchema.Query = some 0 ∧
    (payloadSchema.heap[0]?).map (fun d => d.Fields.map fun f => f.Name) = some [] ∧
    originalTypeNames payloadSchema = ["Query", "Mutation", "Payload"] ∧
    ((addSynthesizedTypesAndFields asciiLower regularPlural payloadSchema).1.heap[0]?).map
      (fun d => d.Fields.map fun f => f.Name) =
      some ["payloads_as_query", "query", "queries", "mutation", "mutations",
            "payload", "payloads"] := by
  decide

/-- Claim C3, witness: the scenario schema satisfies the hypotheses, with `Query` at
address 5. -/
theorem augmentation_query_fields_on_movies :
    movieSchema.WellFormed ∧ movieSchema.Query = some 5 ∧
    movieSchema.Query ≠ movieSchema.Mutation ∧
    (addSynthesizedTypesAndFields asciiLower regularPlural movieSchema).2 = .ok () ∧
    ∃ (Q0 Q2 Q' : Definition) (G : List FieldDefinition),
      movieSchema.heap[5]? = some Q0 ∧
      (schemaAfterRelationPass asciiLower regularPlural movieSchema).heap[5]? = some Q2 ∧
      Q2.Fields = Q0.Fields ++ relationFieldsFor asciiLower regularPlural
        (addSyntheticTypesForSdkTypesToSchema movieSchema) (originalTypeNames movieSchema) 5 ∧
      (addSynthesizedTypesAndFields asciiLower regularPlural movieSchema).1.Query = some 5 ∧
      (addSynthesizedTypesAndFields asciiLower regularPlural movieSchema).1.heap[5]? = some Q' ∧
      Q'.Fields = Q2.Fields ++ G ∧
      G.length = 2 * (originalTypes movieSchema).length ∧
      ∀ (i p : Nat), (originalTypes movieSchema)[i]? = some p →
        ∃ T : Definition,
          (addSynthesizedTypesAndFields asciiLower regularPlural movieSchema).1.heap[p]? = some T ∧
          T.Name = nameAt movieSchema.heap p ∧
          G[2 * i]? = some (singularQueryFieldFor asciiLower T.Name
            (if p = 5 then Q2.Fields ++ G.take (2 * i) else T.Fields)) ∧
          G[2 * i + 1]? = some (pluralQueryFieldFor asciiLower regularPlural T.Name
            (if p = 5 then Q2.Fields ++ G.take (2 * i) else T.Fields)) :=
  ⟨by decide, by decide, by decide, by decide,
    augmentation_query_fields asciiLower regularPlural movieSchema
      (addSynthesizedTypesAndFields asciiLower regularPlural movieSchema).1 5 (by decide)
      (by decide) (by decide) (Prod.ext rfl (by decide))⟩

/-- Claim C4 fails as stated. With `enum Genre` and `type Movie { genre: Genre }` the
relation pass appends `movies_as_genre: [Movie!]!` to `Genre`, which is an enum and not an
object type. -/
theorem relationPass_adds_field_to_enum :
    originalTypeNames genreSchema = ["Genre", "Movie"] ∧
    genreSchema.heap[0]? =
      some { Kind := .Enum, Name := "Genre", Fields := [], BuiltIn := false } ∧
    addQueryRelationFieldsToSchemaForTypes asciiLower regularPlural genreSchema ["Genre", "Movie"]
      = ({ genreSchema with
            heap :=
              [{ Kind := .Enum, Name := "Genre", BuiltIn := false
                 Fields := [plainField "movies_as_genre" (.wrap "" (.leaf "Movie" true) true)] },
               { Kind := .Object, Name := "Movie", BuiltIn := false
                 Fields := [plainField "genre" (.leaf "Genre" false)] }] }, .ok ()) := by
  decide

/-- Claim C4, witness: in the scenario schema `Studio` gains exactly
`movies_as_studio: [Movie!]!` and `Movie` gains nothing. -/
theorem relationPass_on_movies :
    (addQueryRelationFieldsToSchemaForTypes asciiLower regularPlural movieSchema
      ["Movie", "Studio"]).2 = .ok () ∧
    (addQueryRelationFieldsToSchemaForTypes asciiLower regularPlural movieSchema
      ["Movie", "Studio"]).1.heap[8]? =
        some { studioDefinition with
          Fields := studioDefinition.Fields ++
            [plainField "movies_as_studio" (.wrap "" (.leaf "Movie" true) true)] } ∧
    (addQueryRelationFieldsToSchemaForTypes asciiLower regularPlural movieSchema
      ["Movie", "Studio"]).1.heap[7]? = movieSchema.heap[7]? := by
  have h := relationPass_appends_relation_fields asciiLower regularPlural movieSchema
    (addQueryRelationFieldsToSchemaForTypes asciiLower regularPlural movieSchema
      ["Movie", "Studio"]).1 ["Movie", "Studio"] (Prod.ext rfl (by decide))
  refine ⟨by decide, ?_, ?_⟩
  · rw [h.2.2.2.2 8 studioDefinition (by decide)]
    decide
  · rw [h.2.2.2.2 7 _ (by decide : movieSchema.heap[7]? = some
      { Kind := .Object, Name := "Movie", BuiltIn := false
        Fields := [plainField "id" (.leaf "ID" true), plainField "title" (.leaf "String" true),
                   plainField "studio" (.leaf "Studio" false)] })]
    decide

/-- Claim C5 fails as stated. With `type Basket { items: [Missing] }`, where `Missing` is
absent from the type mapping, the augmentation succeeds. -/
theorem augmentation_accepts_list_of_missing_type :
    listOfMissingSchema.heap[2]? =
      some { Kind := .Object, Name := "Basket", BuiltIn := false
             Fields := [plainField "items" (.wrap "" (.leaf "Missing" false) false)] } ∧
    mapGet listOfMissingSchema.Types "Basket" = some 2 ∧
    mapGet listOfMissingSchema.Types "Missing" = none ∧
    (addSynthesizedTypesAndFields asciiLower regularPlural listOfMissingSchema).2 = .ok () := by
  decide

/-- Claim C5, witness: with `type Basket { item: Missing }` the augmentation returns an
error. -/
theorem augmentation_error_on_missing_item_type :
    missingTypeSchema.WellFormed ∧
    ∃ msg, (addSynthesizedTypesAndFields asciiLower regularPlural missingTypeSchema).2
      = .error msg :=
  ⟨by decide,
    augmentation_error_on_missing_named_type asciiLower regularPlural missingTypeSchema
      (by decide) "Basket" 2
      { Kind := .Object, Name := "Basket", BuiltIn := false
        Fields := [plainField "item" (.leaf "Missing" false)] }
      (plainField "item" (.leaf "Missing" false))
      (by decide) (by decide) (by decide) (by decide) (by decide) (by decide) (by decide)
      (by decide)⟩

/-- Claim C6 fails as stated. With `type Basket { item: Missing }` the augmentation returns
an error and yet leaves the three marker scalars in the type mapping. -/
theorem augmentation_error_leaves_markers :
    (addSynthesizedTypesAndFields asciiLower regularPlural missingTypeSchema).2 =
      .error "schema.Types is missing type defined by field of type \"Basket\": \"item\"" ∧
    mapGet missingTypeSchema.Types "sdk:MutationRef.InsertData" = none ∧
    mapGet (addSynthesizedTypesAndFields asciiLower regularPlural missingTypeSchema).1.Types
      "sdk:MutationRef.InsertData" = some 3 ∧
    mapKeys (addSynthesizedTypesAndFields asciiLower regularPlural missingTypeSchema).1.Types =
      ["Query", "Mutation", "Basket", "sdk:MutationRef.InsertData",
       "sdk:MutationRef.UpdateData", "sdk:MutationRef.DeleteData"] := by
  decide

/-- Claim C6, witness: with `type Basket { item: Missing }` the augmentation returns an
error and every original definition is unchanged. -/
theorem augmentation_error_keeps_fields_on_missing_item_type :
    (addSynthesizedTypesAndFields asciiLower regularPlural missingTypeSchema).2 =
      .error "schema.Types is missing type defined by field of type \"Basket\": \"item\"" ∧
    ∀ p : Nat, p < missingTypeSchema.heap.length →
      (addSynthesizedTypesAndFields asciiLower regularPlural missingTypeSchema).1.heap[p]? =
        missingTypeSchema.heap[p]? :=
  ⟨by decide,
    (augmentation_error_keeps_fields asciiLower regularPlural missingTypeSchema
      (addSynthesizedTypesAndFields asciiLower regularPlural missingTypeSchema).1
      "schema.Types is missing type defined by field of type \"Basket\": \"item\""
      (Prod.ext rfl (by decide))).2.2.2.2.2.2⟩

/-- Claim C7, witness: the variables `($title: String!, $studio: Studio)` and the
selection `{ studio { name } studios { id } }` over the scenario schema. -/
theorem constructorParameters_on_title_and_studio :
    titleAndStudioVariables ≠ [] ∧
    (∃ cls, kotlinClassForVariableDefinitions 2 "AddMovieVariables" true titleAndStudioVariables
        movieSchema = .ok (some cls) ∧
      cls.ConstructorParameters =
        [{ Name := "title", KotlinType := "String", IsLast := false },
         { Name := "studio", KotlinType := "Studio?", IsLast := true }]) ∧
    (∃ cls, kotlinClassForSelectionSet 2 "GetStudiosData" studioSelections movieSchema
        = .ok (some cls) ∧
      cls.ConstructorParameters.length = studioSelections.length ∧
      cls.ConstructorParameters[1]? =
        some { Name := "studios", KotlinType := "List<Studio>", IsLast := true }) := by
  refine ⟨by decide, ?_, ?_⟩
  · refine ⟨_, rfl, ?_⟩
    have h := (constructorParameters_mirror_definitions.1 2 "AddMovieVariables" true
      titleAndStudioVariables movieSchema _ (by decide) rfl)
    rfl
  · refine ⟨_, rfl, ?_⟩
    have h := (constructorParameters_mirror_definitions.2 2 "GetStudiosData" studioSelections
      movieSchema _ rfl)
    refine ⟨h.1, ?_⟩
    obtain ⟨n, d, sub, h1, h2⟩ := h.2 1 (by decide)
    rw [h2]
    have h3 : studioSelections[1] = Selection.Field "studios"
      (plainField "studios" (.wrap "" (.leaf "Studio" true) true))
      [.Field "id" (plainField "id" (.leaf "ID" true)) []] := rfl
    rw [h3] at h1
    injection h1 with e1 e2 e3
    subst e1
    subst e2
    rfl

/-- Claim C8, examples: a marker name, an object name and a nullable list. -/
theorem kotlinTypeFromTypeNode_rendering_examples :
    kotlinTypeNameFromGraphQLTypeName ("sdk:" ++ "MutationRef.InsertData")
      = "MutationRef.InsertData" ∧
    kotlinTypeNameFromGraphQLTypeName "Movie" = "Movie" ∧
    kotlinTypeFromTypeNode (.wrap "" (.leaf "ID" true) false)
      = "List<" ++ kotlinTypeFromTypeNode (.leaf "ID" true) ++ ">" ++ "?" :=
  ⟨kotlinTypeFromTypeNode_rendering.2.1 "MutationRef.InsertData",
   kotlinTypeFromTypeNode_rendering.2.2.1 "Movie" (by decide)
     (fun h => absurd ((hasPrefixStr_iff "Movie" "sdk:").2 h) (by decide)),
   kotlinTypeFromTypeNode_rendering.2.2.2.2 "" (.leaf "ID" true) false⟩

/-- Claim C9, the code at the failing input: for `$t: Tagged` with
`input Tagged { tags: [String] }` the worklist ends, whenever it is given fuel for its two
iterations, with a nested class named `String`. -/
theorem nestedClasses_emits_class_for_scalar (fuel : Nat) :
    nestedClassesFromVariableDefinitions (fuel + 2) [taggedVariable] taggedSchema =
      .ok [.mk "Tagged" [{ Name := "tags", KotlinType := "List<String?>?", IsLast := true }] [] [],
           .mk "String" [] [] []] := by
  have hseed : seedNestedTypes taggedSchema [taggedVariable]
      { nestedTypeNames := [], nestedTypeDefinitionByName := [],
        variableDefinitionByNestedTypeName := [] } = .ok
      { nestedTypeNames := ["Tagged"]
        nestedTypeDefinitionByName := [("Tagged", taggedVariable.Definition)]
        variableDefinitionByNestedTypeName := [("Tagged", taggedVariable)] } := by decide
  have h1 : mapGet [("Tagged", taggedVariable.Definition)] "Tagged"
      = some taggedVariable.Definition := by decide
  have h2 : expandNestedFields taggedSchema (mapGet [("Tagged", taggedVariable)] "Tagged")
      taggedVariable.Definition.Fields [] [("Tagged", taggedVariable.Definition)]
      = .ok (["String"],
          [("Tagged", taggedVariable.Definition), ("String", builtInScalar "String")]) := by
    decide
  have h3 : mapGet [("Tagged", taggedVariable.Definition), ("String", builtInScalar "String")]
      "String" = some (builtInScalar "String") := by decide
  have h4 : expandNestedFields taggedSchema (mapGet [("Tagged", taggedVariable)] "String")
      (builtInScalar "String").Fields []
      [("Tagged", taggedVariable.Definition), ("String", builtInScalar "String")]
      = .ok ([], [("Tagged", taggedVariable.Definition), ("String", builtInScalar "String")]) := by
    decide
  unfold nestedClassesFromVariableDefinitions
  rw [hseed]
  simp only [nestedWorklist, h1, h2, h3, h4]
  rfl

/-- Claim C10, the code at the failing input: for `($old: Studio, $new: Studio)` the
worklist ends, whenever it is given fuel for its two iterations, with two nested classes
named `Studio`. -/
theorem nestedClasses_repeats_seed_type (fuel : Nat) :
    nestedClassesFromVariableDefinitions (fuel + 2) oldAndNewStudioVariables movieSchema =
      .ok [.mk "Studio" [{ Name := "id", KotlinType := "String", IsLast := false },
                         { Name := "name", KotlinType := "String", IsLast := true }] [] [],
           .mk "Studio" [{ Name := "id", KotlinType := "String", IsLast := false },
                         { Name := "name", KotlinType := "String", IsLast := true }] [] []] := by
  have hseed : seedNestedTypes movieSchema oldAndNewStudioVariables
      { nestedTypeNames := [], nestedTypeDefinitionByName := [],
        variableDefinitionByNestedTypeName := [] } = .ok
      { nestedTypeNames := ["Studio", "Studio"]
        nestedTypeDefinitionByName := [("Studio", studioDefinition)]
        variableDefinitionByNestedTypeName :=
          [("Studio", { Variable := "new", Type_ := .leaf "Studio" false, Directives := [],
                        Definition := studioDefinition })] } := by decide
  have h1 : mapGet [("Studio", studioDefinition)] "Studio" = some studioDefinition := by decide
  have h2 : expandNestedFields movieSchema
      (mapGet [("Studio", ({ Variable := "new", Type_ := .leaf "Studio" false, Directives := [],
                             Definition := studioDefinition } : VariableDefinition))] "Studio")
      studioDefinition.Fields ["Studio"] [("Studio", studioDefinition)]
      = .ok (["Studio"], [("Studio", studioDefinition)]) := by
    decide
  have h3 : expandNestedFields movieSchema
      (mapGet [("Studio", ({ Variable := "new", Type_ := .leaf "Studio" false, Directives := [],
                             Definition := studioDefinition } : VariableDefinition))] "Studio")
      studioDefinition.Fields [] [("Studio", studioDefinition)]
      = .ok ([], [("Studio", studioDefinition)]) := by
    decide
  unfold nestedClassesFromVariableDefinitions
  rw [hseed]
  simp only [nestedWorklist, h1, h2, h3]
  rfl

/-! ## Fuel of the nested-class worklist -/

theorem nestedWorklist_fuel_mono (schema : Schema)
    (vmap : List (String × VariableDefinition)) (k : Nat) :
    ∀ (fuel : Nat) (q : List String) (d : List (String × Definition)) (acc : List kotlinClass)
      (r : Res (List kotlinClass)),
      nestedWorklist schema vmap fuel q d acc = r → r ≠ .diverge →
      nestedWorklist schema vmap (fuel + k) q d acc = r := by
  intro fuel
  induction fuel with
  | zero =>
    intro q d acc r h hr
    cases q with
    | nil =>
      simp only [nestedWorklist] at h ⊢
      exact h
    | cons n q =>
      simp only [nestedWorklist] at h
      exact absurd h.symm hr
  | succ fuel ih =>
    intro q d acc r h hr
    cases q with
    | nil =>
      simp only [nestedWorklist] at h ⊢
      exact h
    | cons n q =>
      have e : fuel + 1 + k = (fuel + k) + 1 := by omega
      rw [e]
      simp only [nestedWorklist] at h ⊢
      cases hg : mapGet d n with
      | none => rw [hg] at h; exact h
      | some D =>
        rw [hg] at h
        simp only at h ⊢
        cases he : expandNestedFields schema (mapGet vmap n) D.Fields q d with
        | ok qd =>
          obtain ⟨q', d'⟩ := qd
          rw [he] at h
          simp only at h ⊢
          exact ih _ _ _ _ h hr
        | error m => rw [he] at h; exact h
        | panic m => rw [he] at h; exact h
        | diverge => rw [he] at h; exact h

theorem nestedClasses_fuel_mono (fuel k : Nat) (vds : List VariableDefinition) (schema : Schema)
    (r : Res (List kotlinClass))
    (h : nestedClassesFromVariableDefinitions fuel vds schema = r) (hr : r ≠ .diverge) :
    nestedClassesFromVariableDefinitions (fuel + k) vds schema = r := by
  unfold nestedClassesFromVariableDefinitions at h ⊢
  cases hs : seedNestedTypes schema vds
      { nestedTypeNames := [], nestedTypeDefinitionByName := [],
        variableDefinitionByNestedTypeName := [] } with
  | ok st =>
    rw [hs] at h
    simp only at h ⊢
    exact nestedWorklist_fuel_mono schema _ k fuel _ _ _ r h hr
  | error m => rw [hs] at h; exact h
  | panic m => rw [hs] at h; exact h
  | diverge => rw [hs] at h; exact h

theorem kotlinClassWithoutConvenience_fuel_mono (fuel k : Nat) (name : String)
    (vds : List VariableDefinition) (schema : Schema) (r : Res (Option kotlinClass))
    (h : kotlinClassForVariableDefinitions fuel name false vds schema = r) (hr : r ≠ .diverge) :
    kotlinClassForVariableDefinitions (fuel + k) name false vds schema = r := by
  unfold kotlinClassForVariableDefinitions at h ⊢
  by_cases hl : vds.length = 0
  · rw [if_pos hl] at h ⊢
    exact h
  · rw [if_neg hl] at h ⊢
    cases hn : nestedClassesFromVariableDefinitions fuel vds schema with
    | ok cs =>
      rw [nestedClasses_fuel_mono fuel k vds schema _ hn (by simp)]
      rw [hn] at h
      exact h
    | error m =>
      rw [nestedClasses_fuel_mono fuel k vds schema _ hn (by simp)]
      rw [hn] at h
      exact h
    | panic m =>
      rw [nestedClasses_fuel_mono fuel k vds schema _ hn (by simp)]
      rw [hn] at h
      exact h
    | diverge =>
      rw [hn] at h
      simp only at h
      exact absurd h.symm hr

theorem kotlinClassForSelectionSet_fuel_mono (fuel k : Nat) (name : String)
    (sels : List Selection) (schema : Schema) (r : Res (Option kotlinClass))
    (h : kotlinClassForSelectionSet fuel name sels schema = r) (hr : r ≠ .diverge) :
    kotlinClassForSelectionSet (fuel + k) name sels schema = r := by
  unfold kotlinClassForSelectionSet at h ⊢
  by_cases hl : sels.length = 0
  · rw [if_pos hl] at h ⊢
    exact h
  · rw [if_neg hl] at h ⊢
    cases hf : fieldsFromSelections sels with
    | ok fields =>
      rw [hf] at h
      simp only at h ⊢
      cases hv : variableDefinitionsOfFields schema fields with
      | ok vds =>
        rw [hv] at h
        simp only at h ⊢
        exact kotlinClassWithoutConvenience_fuel_mono fuel k name vds schema r h hr
      | error m => rw [hv] at h; exact h
      | panic m => rw [hv] at h; exact h
      | diverge => rw [hv] at h; exact h
    | error m => rw [hf] at h; exact h
    | panic m => rw [hf] at h; exact h
    | diverge => rw [hf] at h; exact h

/-- Claim C14, the code at the failing input: for the selection `{ movie { studio { name } } }`
over the movie schema the response build ends, whenever it is given fuel for its two
worklist iterations, with a nested class `Studio` that has the parameters `id` and `name`,
although the operation selects only `name` on `Studio`. -/
theorem responseClass_keeps_unselected_fields (fuel : Nat) :
    kotlinClassForSelectionSet (2 + fuel) "GetMovieData" movieStudioNameSelections movieSchema =
      .ok (some (.mk "GetMovieData"
        [{ Name := "movie", KotlinType := "Movie", IsLast := true }] []
        [.mk "Movie" [{ Name := "studio", KotlinType := "Studio?", IsLast := true }] [] [],
         .mk "Studio" [{ Name := "id", KotlinType := "String", IsLast := false },
                       { Name := "name", KotlinType := "String", IsLast := true }] [] []])) :=
  kotlinClassForSelectionSet_fuel_mono 2 fuel _ _ _ _ rfl (by simp)

/-- Claim C18, the code at the failing input: with `type Movie { studio: Studio }`,
`type Studio { owner: Person }` and no type `Person`, the build for `$m: Movie` ends,
whenever it is given fuel for its two worklist iterations, with a nil pointer dereference
and not with an error value. -/
theorem nestedClasses_panics_on_missing_type_below_seed (fuel : Nat) :
    ownerMissingSchema.lookupType "Person" = none ∧
    nestedClassesFromVariableDefinitions (2 + fuel) [ownerMissingVariable] ownerMissingSchema
      = .panic nilDeref ∧
    kotlinClassForVariableDefinitions (2 + fuel) "AddMovieVariables" true [ownerMissingVariable]
      ownerMissingSchema = .panic nilDeref := by
  have h := nestedClasses_fuel_mono 2 fuel [ownerMissingVariable] ownerMissingSchema
    (.panic nilDeref) rfl (by simp)
  refine ⟨by decide, h, ?_⟩
  unfold kotlinClassForVariableDefinitions
  rw [h]
  rfl

/-! ## Selections that are not plain fields -/

theorem fieldsFromSelections_panic : ∀ sels : List Selection,
    (∃ s ∈ sels, s.isField = false) →
    fieldsFromSelections sels = .panic "Unsupported ast.Selection type" := by
  intro sels
  induction sels with
  | nil => intro h; obtain ⟨s, hs, _⟩ := h; simp at hs
  | cons s rest ih =>
    intro h
    cases s with
    | Field n d ss =>
      have hrest : ∃ s ∈ rest, s.isField = false := by
        obtain ⟨s, hs, hf⟩ := h
        rcases List.mem_cons.1 hs with h1 | h1
        · subst h1; simp [Selection.isField] at hf
        · exact ⟨s, h1, hf⟩
      simp only [fieldsFromSelections, fieldFromSelection, ih hrest]
    | FragmentSpread n => simp only [fieldsFromSelections, fieldFromSelection]
    | InlineFragment t ss => simp only [fieldsFromSelections, fieldFromSelection]

theorem fieldsFromSelections_total : ∀ sels : List Selection,
    (∀ s ∈ sels, s.isField = true) →
    ∃ fields, fieldsFromSelections sels = .ok fields ∧
      sels = fields.map (fun f => Selection.Field f.Name f.Definition f.SelectionSet) := by
  intro sels
  induction sels with
  | nil => intro _; exact ⟨[], rfl, rfl⟩
  | cons s rest ih =>
    intro h
    obtain ⟨fields, hf, hs⟩ := ih (fun s hs => h s (List.mem_cons_of_mem _ hs))
    cases s with
    | Field n d ss =>
      refine ⟨{ Name := n, Definition := d, SelectionSet := ss } :: fields, ?_, ?_⟩
      · simp only [fieldsFromSelections, fieldFromSelection, hf]
      · simp only [List.map_cons]
        rw [← hs]
    | FragmentSpread n =>
      have := h _ (List.mem_cons_self _ _)
      simp [Selection.isField] at this
    | InlineFragment t ss =>
      have := h _ (List.mem_cons_self _ _)
      simp [Selection.isField] at this

theorem fieldsSelectedBySelectionSet_panic (fieldDefinitions : List FieldDefinition)
    (ss : List Selection) (h : ∃ s ∈ ss, s.isField = false) :
    fieldsSelectedBySelectionSet fieldDefinitions ss = .panic "Unsupported ast.Selection type" := by
  unfold fieldsSelectedBySelectionSet
  have hlen : ¬ ss.length = 0 := by
    obtain ⟨s, hs, _⟩ := h
    intro hc
    rw [List.length_eq_zero] at hc
    subst hc
    simp at hs
  rw [if_neg hlen, fieldsFromSelections_panic ss h]

theorem fieldsSelectedBySelectionSet_total (fieldDefinitions : List FieldDefinition)
    (ss : List Selection) (h : ∀ s ∈ ss, s.isField = true) :
    fieldsSelectedBySelectionSet fieldDefinitions ss =
      .ok (if ss.length = 0 then fieldDefinitions
           else fieldDefinitions.filter fun f => decide (f.Name ∈ selectedFieldNames ss)) := by
  unfold fieldsSelectedBySelectionSet
  by_cases hlen : ss.length = 0
  · rw [if_pos hlen, if_pos hlen]
  · rw [if_neg hlen, if_neg hlen]
    obtain ⟨fields, hf, hs⟩ := fieldsFromSelections_total ss h
    rw [hf]
    simp only
    have hnames : (fields.map fun field => field.Name) = selectedFieldNames ss := by
      rw [hs]
      clear hs hf h hlen
      induction fields with
      | nil => rfl
      | cons f rest ih => simp [selectedFieldNames, ih]
    rw [hnames]

theorem variableDefinitionsOfFields_panic (schema : Schema) :
    ∀ fields : List AstField,
      (∀ f ∈ fields, (schema.lookupType (leafTypeNameOf f.Definition.Type_)).isSome = true) →
      (∃ f ∈ fields, ∃ s ∈ f.SelectionSet, s.isField = false) →
      variableDefinitionsOfFields schema fields = .panic "Unsupported ast.Selection type" := by
  intro fields
  induction fields with
  | nil => intro _ h; obtain ⟨f, hf, _⟩ := h; simp at hf
  | cons f rest ih =>
    intro hlook hbad
    have hl := hlook f (List.mem_cons_self _ _)
    simp only [variableDefinitionsOfFields]
    unfold leafTypeNameOf at hl
    cases hT : schema.lookupType (namedTypeOfInnermostElemOfType f.Definition.Type_).NamedType with
    | none => rw [hT] at hl; simp at hl
    | some pd =>
      obtain ⟨p, T⟩ := pd
      simp only
      by_cases hf : ∃ s ∈ f.SelectionSet, s.isField = false
      · rw [fieldsSelectedBySelectionSet_panic _ _ hf]
      · have hall : ∀ s ∈ f.SelectionSet, s.isField = true := by
          intro s hs
          cases hsf : s.isField with
          | true => rfl
          | false => exact absurd ⟨s, hs, hsf⟩ hf
        rw [fieldsSelectedBySelectionSet_total _ _ hall]
        simp only
        have hrest : ∃ g ∈ rest, ∃ s ∈ g.SelectionSet, s.isField = false := by
          obtain ⟨g, hg, hs⟩ := hbad
          rcases List.mem_cons.1 hg with h1 | h1
          · subst h1; exact absurd hs hf
          · exact ⟨g, h1, hs⟩
        rw [ih (fun g hg => hlook g (List.mem_cons_of_mem _ hg)) hrest]

/-- Claim C19, amended. The response build panics with the message
`Unsupported ast.Selection type`, and returns no error value, for every selection set
that contains a top-level entry that is not a plain field; and also for every selection set
of plain fields whose leaf types are all found in the schema when the sub-selection of one
of them contains an entry that is not a plain field. -/
theorem responseBuild_panics_on_non_field (fuel : Nat) (name : String) (sels : List Selection)
    (schema : Schema) :
    ((∃ s ∈ sels, s.isField = false) →
      kotlinClassForSelectionSet fuel name sels schema
        = .panic "Unsupported ast.Selection type") ∧
    ((∀ s ∈ sels, s.isField = true) →
      (∀ n d ss, Selection.Field n d ss ∈ sels →
        (schema.lookupType (leafTypeNameOf d.Type_)).isSome = true) →
      (∃ n d ss, Selection.Field n d ss ∈ sels ∧ ∃ s ∈ ss, s.isField = false) →
      kotlinClassForSelectionSet fuel name sels schema
        = .panic "Unsupported ast.Selection type") := by
  constructor
  · intro h
    unfold kotlinClassForSelectionSet
    have hlen : ¬ sels.length = 0 := by
      obtain ⟨s, hs, _⟩ := h
      intro hc
      rw [List.length_eq_zero] at hc
      subst hc
      simp at hs
    rw [if_neg hlen, fieldsFromSelections_panic sels h]
  · intro hall hlook hbad
    unfold kotlinClassForSelectionSet
    have hlen : ¬ sels.length = 0 := by
      obtain ⟨n, d, ss, hs, _⟩ := hbad
      intro hc
      rw [List.length_eq_zero] at hc
      subst hc
      simp at hs
    obtain ⟨fields, hf, hs⟩ := fieldsFromSelections_total sels hall
    rw [if_neg hlen, hf]
    simp only
    have hmem : ∀ f ∈ fields, Selection.Field f.Name f.Definition f.SelectionSet ∈ sels := by
      intro f hfm
      rw [hs]
      exact List.mem_map.2 ⟨f, hfm, rfl⟩
    rw [variableDefinitionsOfFields_panic schema fields
      (fun f hfm => hlook _ _ _ (hmem f hfm)) ?_]
    obtain ⟨n, d, ss, hsel, hbad'⟩ := hbad
    rw [hs] at hsel
    obtain ⟨f, hfm, hfe⟩ := List.mem_map.1 hsel
    injection hfe with e1 e2 e3
    exact ⟨f, hfm, by rw [e3]; exact hbad'⟩

/-- Claim C19 fails as stated. For `{ movie { title } ...MovieParts }` over the movie
schema the response build panics; it returns no error value. -/
theorem responseBuild_panics_on_fragment_spread :
    kotlinClassForSelectionSet 2 "GetMovieData" fragmentSelections movieSchema
      = .panic "Unsupported ast.Selection type" := by
  rfl

/-- Claim C19, witness of the amended claim: the fragment spread of
`{ movie { title } ...MovieParts }` and the inline fragment of
`{ movie { ... on Movie { title } } }` both end the response build with the panic. -/
theorem responseBuild_panics_on_inline_fragment :
    (∃ s ∈ fragmentSelections, s.isField = false) ∧
    kotlinClassForSelectionSet 2 "GetMovieData" fragmentSelections movieSchema
      = .panic "Unsupported ast.Selection type" ∧
    kotlinClassForSelectionSet 2 "GetMovieData" inlineFragmentSelections movieSchema
      = .panic "Unsupported ast.Selection type" :=
  ⟨⟨.FragmentSpread "MovieParts", by simp [fragmentSelections], rfl⟩,
   (responseBuild_panics_on_non_field 2 "GetMovieData" fragmentSelections movieSchema).1
     ⟨.FragmentSpread "MovieParts", by simp [fragmentSelections], rfl⟩,
   (responseBuild_panics_on_non_field 2 "GetMovieData" inlineFragmentSelections movieSchema).2
     (by
       intro s hs
       simp only [inlineFragmentSelections, List.mem_singleton] at hs
       subst hs
       rfl)
     (by
       intro n d ss hs
       simp only [inlineFragmentSelections, List.mem_singleton] at hs
       injection hs with e1 e2 e3
       subst e2
       decide)
     ⟨_, _, _, List.mem_singleton.2 rfl, .InlineFragment "Movie" _, List.mem_singleton.2 rfl, rfl⟩⟩

/-! ## The shape of the classes of a successful build -/

theorem kotlinClassForVariableDefinitions_inv (fuel : Nat) (name : String) (incl : Bool)
    (vds : List VariableDefinition) (schema : Schema) (r : Option kotlinClass)
    (h : kotlinClassForVariableDefinitions fuel name incl vds schema = .ok r) :
    (vds = [] ∧ r = none) ∨
    (vds ≠ [] ∧ ∃ nested secondary,
      nestedClassesFromVariableDefinitions fuel vds schema = .ok nested ∧
      (if !incl then Res.ok []
       else secondaryConstructorsFromVariableDefinitions fuel vds schema) = .ok secondary ∧
      r = some (.mk name (variablesClassConstructorParametersFromVariableDefinitions vds)
        secondary nested)) := by
  unfold kotlinClassForVariableDefinitions at h
  by_cases hlen : vds.length = 0
  · rw [if_pos hlen] at h
    left
    injection h with h
    exact ⟨List.length_eq_zero.1 hlen, h.symm⟩
  · rw [if_neg hlen] at h
    right
    refine ⟨fun hc => hlen (by rw [hc]; rfl), ?_⟩
    cases hn : nestedClassesFromVariableDefinitions fuel vds schema with
    | ok nested =>
      rw [hn] at h
      simp only at h
      cases hs : (if !incl then Res.ok []
          else secondaryConstructorsFromVariableDefinitions fuel vds schema) with
      | ok secondary =>
        rw [hs] at h
        simp only at h
        injection h with h
        exact ⟨nested, secondary, rfl, rfl, h.symm⟩
      | error m => rw [hs] at h; simp at h
      | panic m => rw [hs] at h; simp at h
      | diverge => rw [hs] at h; simp at h
    | error m => rw [hn] at h; simp at h
    | panic m => rw [hn] at h; simp at h
    | diverge => rw [hn] at h; simp at h

theorem secondaryConstructors_inv (fuel : Nat) (vds : List VariableDefinition) (schema : Schema)
    (cs : List kotlinSecondaryConstructor)
    (h : secondaryConstructorsFromVariableDefinitions fuel vds schema = .ok cs) :
    ((∀ vd ∈ vds, isScalarType vd.Type_ = true) ∧ cs = []) ∨
    ((∃ vd ∈ vds, isScalarType vd.Type_ = false) ∧ ∃ ps as,
      convenienceFunctionParametersFromVariableDefinitions fuel vds schema = .ok ps ∧
      convenienceFunctionForwardedArgumentsFromVariableDefinitions fuel vds "" schema = .ok as ∧
      cs = [{ Parameters := ps, PrimaryConstructorArguments := as }]) := by
  unfold secondaryConstructorsFromVariableDefinitions at h
  simp only at h
  by_cases hc : (vds.filter fun vd => !isScalarType vd.Type_).length = 0
  · rw [if_pos hc] at h
    left
    injection h with h
    refine ⟨?_, h.symm⟩
    intro vd hvd
    have hnil := List.length_eq_zero.1 hc
    rw [List.filter_eq_nil_iff] at hnil
    have := hnil vd hvd
    simpa using this
  · rw [if_neg hc] at h
    right
    constructor
    · have hne : (vds.filter fun vd => !isScalarType vd.Type_) ≠ [] :=
        fun e => hc (by rw [e]; rfl)
      obtain ⟨vd, hvd⟩ := List.exists_mem_of_ne_nil _ hne
      rw [List.mem_filter] at hvd
      exact ⟨vd, hvd.1, by simpa using hvd.2⟩
    · cases hp : convenienceFunctionParametersFromVariableDefinitions fuel vds schema with
      | ok ps =>
        rw [hp] at h
        simp only at h
        cases ha : convenienceFunctionForwardedArgumentsFromVariableDefinitions fuel vds ""
            schema with
        | ok as =>
          rw [ha] at h
          simp only at h
          injection h with h
          exact ⟨ps, as, rfl, rfl, h.symm⟩
        | error m => rw [ha] at h; simp at h
        | panic m => rw [ha] at h; simp at h
        | diverge => rw [ha] at h; simp at h
      | error m => rw [hp] at h; simp at h
      | panic m => rw [hp] at h; simp at h
      | diverge => rw [hp] at h; simp at h

theorem kotlinClassForSelectionSet_inv (fuel : Nat) (name : String) (sels : List Selection)
    (schema : Schema) (r : Option kotlinClass)
    (h : kotlinClassForSelectionSet fuel name sels schema = .ok r) :
    (sels = [] ∧ r = none) ∨
    (sels ≠ [] ∧ ∃ fields vds,
      fieldsFromSelections sels = .ok fields ∧
      variableDefinitionsOfFields schema fields = .ok vds ∧
      kotlinClassForVariableDefinitions fuel name false vds schema = .ok r) := by
  unfold kotlinClassForSelectionSet at h
  by_cases hlen : sels.length = 0
  · rw [if_pos hlen] at h
    left
    injection h with h
    exact ⟨List.length_eq_zero.1 hlen, h.symm⟩
  · rw [if_neg hlen] at h
    right
    refine ⟨fun hc => hlen (by rw [hc]; rfl), ?_⟩
    cases hf : fieldsFromSelections sels with
    | ok fields =>
      rw [hf] at h
      simp only at h
      cases hv : variableDefinitionsOfFields schema fields with
      | ok vds =>
        rw [hv] at h
        simp only at h
        exact ⟨fields, vds, rfl, hv, h⟩
      | error m => rw [hv] at h; simp at h
      | panic m => rw [hv] at h; simp at h
      | diverge => rw [hv] at h; simp at h
    | error m => rw [hf] at h; simp at h
    | panic m => rw [hf] at h; simp at h
    | diverge => rw [hf] at h; simp at h

theorem fieldsFromSelections_length : ∀ (sels : List Selection) (fields : List AstField),
    fieldsFromSelections sels = .ok fields → fields.length = sels.length := by
  intro sels
  induction sels with
  | nil => intro fields h; simp only [fieldsFromSelections] at h; injection h with h; subst h; rfl
  | cons s rest ih =>
    intro fields h
    simp only [fieldsFromSelections] at h
    cases hs : fieldFromSelection s with
    | ok f =>
      rw [hs] at h
      simp only at h
      cases hr : fieldsFromSelections rest with
      | ok fs =>
        rw [hr] at h
        simp only at h
        injection h with h
        subst h
        simp [ih fs hr]
      | error m => rw [hr] at h; simp at h
      | panic m => rw [hr] at h; simp at h
      | diverge => rw [hr] at h; simp at h
    | error m => rw [hs] at h; simp at h
    | panic m => rw [hs] at h; simp at h
    | diverge => rw [hs] at h; simp at h

theorem variableDefinitionsOfFields_length (schema : Schema) :
    ∀ (fields : List AstField) (vds : List VariableDefinition),
      variableDefinitionsOfFields schema fields = .ok vds → vds.length = fields.length := by
  intro fields
  induction fields with
  | nil =>
    intro vds h
    simp only [variableDefinitionsOfFields] at h
    injection h with h
    subst h
    rfl
  | cons f rest ih =>
    intro vds h
    simp only [variableDefinitionsOfFields] at h
    cases hT : schema.lookupType (namedTypeOfInnermostElemOfType f.Definition.Type_).NamedType with
    | none => rw [hT] at h; simp at h
    | some pd =>
      obtain ⟨p, T⟩ := pd
      rw [hT] at h
      simp only at h
      cases hs : fieldsSelectedBySelectionSet T.Fields f.SelectionSet with
      | ok selected =>
        rw [hs] at h
        simp only at h
        cases hr : variableDefinitionsOfFields schema rest with
        | ok vs =>
          rw [hr] at h
          simp only at h
          injection h with h
          subst h
          simp [ih vs hr]
        | error m => rw [hr] at h; simp at h
        | panic m => rw [hr] at h; simp at h
        | diverge => rw [hr] at h; simp at h
      | error m => rw [hs] at h; simp at h
      | panic m => rw [hs] at h; simp at h
      | diverge => rw [hs] at h; simp at h

/-- The response class of a successful build: absent exactly for the empty selection set,
otherwise named as asked and without secondary constructor. -/
theorem kotlinClassForSelectionSet_shape (fuel : Nat) (name : String) (sels : List Selection)
    (schema : Schema) (r : Option kotlinClass)
    (h : kotlinClassForSelectionSet fuel name sels schema = .ok r) :
    (sels = [] ∧ r = none) ∨
    (sels ≠ [] ∧ ∃ cls, r = some cls ∧ cls.Name = name ∧ cls.SecondaryConstructors = []) := by
  rcases kotlinClassForSelectionSet_inv fuel name sels schema r h with h1 | ⟨hne, fields, vds, hf, hv, hk⟩
  · exact Or.inl h1
  · right
    refine ⟨hne, ?_⟩
    rcases kotlinClassForVariableDefinitions_inv fuel name false vds schema r hk with
      ⟨hnil, _⟩ | ⟨_, nested, secondary, _, hs, hr⟩
    · exfalso
      have h1 := fieldsFromSelections_length sels fields hf
      have h2 := variableDefinitionsOfFields_length schema fields vds hv
      rw [hnil] at h2
      have : sels.length = 0 := by rw [← h1, ← h2]; rfl
      exact hne (List.length_eq_zero.1 this)
    · simp only [Bool.not_false, if_true] at hs
      injection hs with hs
      subst hs
      exact ⟨_, hr, rfl, rfl⟩

/-- The variables class of a successful build: absent exactly for the empty variable
list, otherwise named as asked, with one secondary constructor when some variable is not
scalar-typed and none when all are. -/
theorem kotlinClassForVariableDefinitions_shape (fuel : Nat) (name : String)
    (vds : List VariableDefinition) (schema : Schema) (r : Option kotlinClass)
    (h : kotlinClassForVariableDefinitions fuel name true vds schema = .ok r) :
    (vds = [] ∧ r = none) ∨
    (vds ≠ [] ∧ ∃ cls, r = some cls ∧ cls.Name = name ∧
      ((∃ vd ∈ vds, isScalarType vd.Type_ = false) → cls.SecondaryConstructors.length = 1) ∧
      ((∀ vd ∈ vds, isScalarType vd.Type_ = true) → cls.SecondaryConstructors = [])) := by
  rcases kotlinClassForVariableDefinitions_inv fuel name true vds schema r h with
    h1 | ⟨hne, nested, secondary, _, hs, hr⟩
  · exact Or.inl h1
  · right
    refine ⟨hne, _, hr, rfl, ?_⟩
    simp only [Bool.not_true, Bool.false_eq_true, if_false] at hs
    rcases secondaryConstructors_inv fuel vds schema secondary hs with
      ⟨hall, hnil⟩ | ⟨hex, ps, as, _, _, hcs⟩
    · subst hnil
      refine ⟨?_, fun _ => rfl⟩
      rintro ⟨vd, hvd, hf⟩
      rw [hall vd hvd] at hf
      simp at hf
    · subst hcs
      refine ⟨fun _ => rfl, ?_⟩
      intro hall
      obtain ⟨vd, hvd, hf⟩ := hex
      rw [hall vd hvd] at hf
      simp at hf

theorem operationTemplateData_inv (fuel : Nat) (config : RenderOperationTemplateConfig)
    (data : operationTemplateData)
    (h : operationTemplateDataFromRenderOperationTemplateConfig fuel config = .ok data) :
    ∃ variablesClass response,
      kotlinClassForVariableDefinitions fuel (config.Operation.Name ++ "Variables") true
        config.Operation.VariableDefinitions config.Schema = .ok variablesClass ∧
      kotlinClassForSelectionSet fuel (config.Operation.Name ++ "Data")
        config.Operation.SelectionSet config.Schema = .ok response ∧
      data.Variables = variablesClass ∧ data.Response = response ∧
      data.VariablesKotlinType = (match variablesClass with
        | some cls => cls.Name
        | none => "Unit") ∧
      data.ResponseKotlinType = (match response with
        | some cls => cls.Name
        | none => "Unit") := by
  unfold operationTemplateDataFromRenderOperationTemplateConfig at h
  simp only at h
  cases hv : kotlinClassForVariableDefinitions fuel (config.Operation.Name ++ "Variables") true
      config.Operation.VariableDefinitions config.Schema with
  | ok variablesClass =>
    rw [hv] at h
    simp only at h
    cases hr : kotlinClassForSelectionSet fuel (config.Operation.Name ++ "Data")
        config.Operation.SelectionSet config.Schema with
    | ok response =>
      rw [hr] at h
      simp only at h
      refine ⟨variablesClass, response, rfl, rfl, ?_⟩
      cases variablesClass with
      | none =>
        simp only at h
        injection h with h
        subst h
        exact ⟨rfl, rfl, rfl, rfl⟩
      | some cls =>
        simp only at h
        cases hp : convenienceFunctionParametersFromVariableDefinitions fuel
            config.Operation.VariableDefinitions config.Schema with
        | ok ps =>
          rw [hp] at h
          simp only at h
          cases ha : convenienceFunctionForwardedArgumentsFromVariableDefinitions fuel
              config.Operation.VariableDefinitions
              (config.Operation.Name ++ "." ++ cls.Name ++ ".") config.Schema with
          | ok as =>
            rw [ha] at h
            simp only at h
            injection h with h
            subst h
            exact ⟨rfl, rfl, rfl, rfl⟩
          | error m => rw [ha] at h; simp at h
          | panic m => rw [ha] at h; simp at h
          | diverge => rw [ha] at h; simp at h
        | error m => rw [hp] at h; simp at h
        | panic m => rw [hp] at h; simp at h
        | diverge => rw [hp] at h; simp at h
    | error m => rw [hr] at h; simp at h
    | panic m => rw [hr] at h; simp at h
    | diverge => rw [hr] at h; simp at h
  | error m => rw [hv] at h; simp at h
  | panic m => rw [hv] at h; simp at h
  | diverge => rw [hv] at h; simp at h

/-- Claim C16. Whenever the build of the template data succeeds, the variables class has exactly
one secondary (convenience) constructor if some variable is not scalar-typed (in the sense
of `isScalarType`, the test of the builder) and none if every variable is scalar-typed, and
the response class has no secondary constructor. -/
theorem secondaryConstructors_only_on_variables_class (fuel : Nat)
    (config : RenderOperationTemplateConfig) (data : operationTemplateData)
    (h : operationTemplateDataFromRenderOperationTemplateConfig fuel config = .ok data) :
    (∀ cls, data.Variables = some cls →
      ((∃ vd ∈ config.Operation.VariableDefinitions, isScalarType vd.Type_ = false) →
        cls.SecondaryConstructors.length = 1) ∧
      ((∀ vd ∈ config.Operation.VariableDefinitions, isScalarType vd.Type_ = true) →
        cls.SecondaryConstructors = [])) ∧
    (∀ cls, data.Response = some cls → cls.SecondaryConstructors = []) := by
  obtain ⟨v, r, hv, hr, hdv, hdr, _, _⟩ := operationTemplateData_inv fuel config data h
  constructor
  · intro cls hcls
    rcases kotlinClassForVariableDefinitions_shape fuel _ _ _ v hv with
      ⟨_, hnone⟩ | ⟨_, cls', hsome, _, h1, h2⟩
    · rw [hdv, hnone] at hcls
      simp at hcls
    · rw [hdv, hsome] at hcls
      injection hcls with hcls
      subst hcls
      exact ⟨h1, h2⟩
  · intro cls hcls
    rcases kotlinClassForSelectionSet_shape fuel _ _ _ r hr with
      ⟨_, hnone⟩ | ⟨_, cls', hsome, _, h1⟩
    · rw [hdr, hnone] at hcls
      simp at hcls
    · rw [hdr, hsome] at hcls
      injection hcls with hcls
      subst hcls
      exact h1

/-- Claim C16, witness: the build for `mutation AddMovie($title: String!, $studio: Studio)
{ movie { id title } }` succeeds; its variables class has one secondary constructor and
its response class has none. -/
theorem secondaryConstructors_on_add_movie :
    operationTemplateDataFromRenderOperationTemplateConfig 3 addMovieConfig = .ok addMovieData ∧
    ((∀ cls, addMovieData.Variables = some cls →
      ((∃ vd ∈ addMovieConfig.Operation.VariableDefinitions, isScalarType vd.Type_ = false) →
        cls.SecondaryConstructors.length = 1) ∧
      ((∀ vd ∈ addMovieConfig.Operation.VariableDefinitions, isScalarType vd.Type_ = true) →
        cls.SecondaryConstructors = [])) ∧
    (∀ cls, addMovieData.Response = some cls → cls.SecondaryConstructors = [])) :=
  ⟨rfl, secondaryConstructors_only_on_variables_class 3 addMovieConfig addMovieData rfl⟩

/-- Claim C17. Whenever the build of the template data succeeds: the variables class is absent
exactly when the operation declares no variables, and the response class is absent exactly
when its selection set is empty; an absent class makes the corresponding type name
`"Unit"`; a present class is named `OperationName ++ "Variables"` (respectively
`OperationName ++ "Data"`) and that name is the type name. -/
theorem classes_absent_iff_nothing_declared (fuel : Nat)
    (config : RenderOperationTemplateConfig) (data : operationTemplateData)
    (h : operationTemplateDataFromRenderOperationTemplateConfig fuel config = .ok data) :
    (data.Variables = none ↔ config.Operation.VariableDefinitions = []) ∧
    (data.Response = none ↔ config.Operation.SelectionSet = []) ∧
    (data.Variables = none → data.VariablesKotlinType = "Unit") ∧
    (data.Response = none → data.ResponseKotlinType = "Unit") ∧
    (∀ cls, data.Variables = some cls →
      cls.Name = config.Operation.Name ++ "Variables" ∧
      data.VariablesKotlinType = config.Operation.Name ++ "Variables") ∧
    (∀ cls, data.Response = some cls →
      cls.Name = config.Operation.Name ++ "Data" ∧
      data.ResponseKotlinType = config.Operation.Name ++ "Data") := by
  obtain ⟨v, r, hv, hr, hdv, hdr, htv, htr⟩ := operationTemplateData_inv fuel config data h
  have hvs := kotlinClassForVariableDefinitions_shape fuel _ _ _ v hv
  have hrs := kotlinClassForSelectionSet_shape fuel _ _ _ r hr
  rw [hdv, hdr]
  refine ⟨?_, ?_, ?_, ?_, ?_, ?_⟩
  · rcases hvs with ⟨h1, h2⟩ | ⟨h1, cls, h2, _⟩
    · exact ⟨fun _ => h1, fun _ => h2⟩
    · rw [h2]
      exact ⟨fun hc => by simp at hc, fun hc => absurd hc h1⟩
  · rcases hrs with ⟨h1, h2⟩ | ⟨h1, cls, h2, _⟩
    · exact ⟨fun _ => h1, fun _ => h2⟩
    · rw [h2]
      exact ⟨fun hc => by simp at hc, fun hc => absurd hc h1⟩
  · intro hn
    rw [htv, hn]
  · intro hn
    rw [htr, hn]
  · intro cls hcls
    rcases hvs with ⟨_, h2⟩ | ⟨_, cls', h2, h3, _⟩
    · rw [h2] at hcls
      simp at hcls
    · rw [h2] at hcls
      injection hcls with hcls
      subst hcls
      rw [htv, h2]
      exact ⟨h3, h3⟩
  · intro cls hcls
    rcases hrs with ⟨_, h2⟩ | ⟨_, cls', h2, h3, _⟩
    · rw [h2] at hcls
      simp at hcls
    · rw [h2] at hcls
      injection hcls with hcls
      subst hcls
      rw [htr, h2]
      exact ⟨h3, h3⟩

/-- Claim C17, witness: the build for `query Ping`, without variables and without
selections, succeeds with both classes absent and both type names `"Unit"`; the build for
`mutation AddMovie` succeeds with the classes `AddMovieVariables` and `AddMovieData`. -/
theorem classes_absent_on_ping_present_on_add_movie :
    operationTemplateDataFromRenderOperationTemplateConfig 0 pingConfig = .ok pingData ∧
    operationTemplateDataFromRenderOperationTemplateConfig 3 addMovieConfig = .ok addMovieData ∧
    (pingData.Variables = none ↔ pingConfig.Operation.VariableDefinitions = []) ∧
    (pingData.Response = none ↔ pingConfig.Operation.SelectionSet = []) ∧
    (pingData.Variables = none → pingData.VariablesKotlinType = "Unit") ∧
    (pingData.Response = none → pingData.ResponseKotlinType = "Unit") ∧
    (addMovieData.Variables = none ↔ addMovieConfig.Operation.VariableDefinitions = []) ∧
    (addMovieData.Response = none ↔ addMovieConfig.Operation.SelectionSet = []) ∧
    (∀ cls, addMovieData.Variables = some cls →
      cls.Name = addMovieConfig.Operation.Name ++ "Variables" ∧
      addMovieData.VariablesKotlinType = addMovieConfig.Operation.Name ++ "Variables") ∧
    (∀ cls, addMovieData.Response = some cls →
      cls.Name = addMovieConfig.Operation.Name ++ "Data" ∧
      addMovieData.ResponseKotlinType = addMovieConfig.Operation.Name ++ "Data") :=
  ⟨rfl, rfl,
   (classes_absent_iff_nothing_declared 0 pingConfig pingData rfl).1,
   (classes_absent_iff_nothing_declared 0 pingConfig pingData rfl).2.1,
   (classes_absent_iff_nothing_declared 0 pingConfig pingData rfl).2.2.1,
   (classes_absent_iff_nothing_declared 0 pingConfig pingData rfl).2.2.2.1,
   (classes_absent_iff_nothing_declared 3 addMovieConfig addMovieData rfl).1,
   (classes_absent_iff_nothing_declared 3 addMovieConfig addMovieData rfl).2.1,
   (classes_absent_iff_nothing_declared 3 addMovieConfig addMovieData rfl).2.2.2.2.1,
   (classes_absent_iff_nothing_declared 3 addMovieConfig addMovieData rfl).2.2.2.2.2⟩

/-! ## The two convenience structures -/

theorem map_mapIdx_of_forall {α β γ : Type} (g : β → γ) (h : α → γ) :
    ∀ (l : List α) (f : Nat → α → β), (∀ i a, g (f i a) = h a) →
      (l.mapIdx f).map g = l.map h := by
  intro l
  induction l with
  | nil => intro f _; rfl
  | cons a rest ih =>
    intro f hf
    rw [List.mapIdx_cons, List.map_cons, List.map_cons, hf 0 a,
      ih (fun i => f (i + 1)) (fun i a => hf (i + 1) a)]

theorem leafNames_setIsLast (a : kotlinFunctionArgument) (b : Bool) :
    (a.setIsLast b).leafNames = a.leafNames := by
  cases a <;> simp [kotlinFunctionArgument.setIsLast, kotlinFunctionArgument.leafNames]

theorem name_setIsLast (a : kotlinFunctionArgument) (b : Bool) :
    (a.setIsLast b).Name = a.Name := by
  cases a <;> rfl

theorem leafNamesOfArguments_mapIdx :
    ∀ (as : List kotlinFunctionArgument) (f : Nat → kotlinFunctionArgument → kotlinFunctionArgument),
      (∀ i a, (f i a).leafNames = a.leafNames) →
      leafNamesOfArguments (as.mapIdx f) = leafNamesOfArguments as := by
  intro as
  induction as with
  | nil => intro f _; rfl
  | cons a rest ih =>
    intro f hf
    rw [List.mapIdx_cons]
    simp only [leafNamesOfArguments]
    rw [hf 0 a, ih (fun i => f (i + 1)) (fun i a => hf (i + 1) a)]

theorem leafNamesOfArguments_markLast (as : List kotlinFunctionArgument) :
    leafNamesOfArguments (markLastArguments as) = leafNamesOfArguments as :=
  leafNamesOfArguments_mapIdx as _ (fun _ a => leafNames_setIsLast a _)

theorem names_markLastArguments (as : List kotlinFunctionArgument) :
    (markLastArguments as).map kotlinFunctionArgument.Name = as.map kotlinFunctionArgument.Name :=
  map_mapIdx_of_forall _ _ as _ (fun _ a => name_setIsLast a _)

theorem names_markLastParameters (ps : List kotlinFunctionParameter) :
    (markLastParameters ps).map (fun p => p.Name) = ps.map fun p => p.Name :=
  map_mapIdx_of_forall _ _ ps _ (fun _ _ => rfl)

theorem leafNamesOfArguments_append (as bs : List kotlinFunctionArgument) :
    leafNamesOfArguments (as ++ bs) = leafNamesOfArguments as ++ leafNamesOfArguments bs := by
  induction as with
  | nil => rfl
  | cons a rest ih => simp [leafNamesOfArguments, ih]

/-- Closing both outcomes with the final `IsLast` pass keeps their agreement. -/
theorem roundTrips_markLast (names : List String) (ps : List kotlinFunctionParameter)
    (as : List kotlinFunctionArgument) (h : roundTrips names (.ok ps) (.ok as)) :
    roundTrips names (.ok (markLastParameters ps)) (.ok (markLastArguments as)) := by
  simp only [roundTrips] at h ⊢
  rw [names_markLastArguments, leafNamesOfArguments_markLast, names_markLastParameters]
  exact h

theorem roundTrips_loops (schema : Schema) (functionNamePrefix : String)
    (recP : List FieldDefinition → Res (List kotlinFunctionParameter))
    (recA : List FieldDefinition → Res (List kotlinFunctionArgument))
    (hrec : ∀ fs, ∃ names, roundTrips names (recP fs) (recA fs)) :
    ∀ fs : List FieldDefinition,
      roundTrips (fs.map fun f => f.Name) (convenienceParametersLoop schema recP fs)
        (forwardedArgumentsLoop schema functionNamePrefix recA fs) := by
  intro fs
  induction fs with
  | nil => simp [convenienceParametersLoop, forwardedArgumentsLoop, roundTrips, leafNamesOfArguments]
  | cons f rest ih =>
    simp only [convenienceParametersLoop, forwardedArgumentsLoop]
    by_cases hs : isScalarType f.Type_ = true
    · rw [if_pos hs, if_pos hs]
      cases hp : convenienceParametersLoop schema recP rest <;>
        cases ha : forwardedArgumentsLoop schema functionNamePrefix recA rest <;>
        rw [hp, ha] at ih <;> simp only [roundTrips] at ih ⊢
      · simp [kotlinFunctionArgument.Name, leafNamesOfArguments,
          kotlinFunctionArgument.leafNames, ih.1, ih.2]
      all_goals exact ih
    · rw [if_neg hs, if_neg hs]
      cases hT : schema.lookupType f.Type_.NamedType with
      | none => simp [roundTrips]
      | some pd =>
        obtain ⟨p, T⟩ := pd
        simp only
        obtain ⟨names, hr⟩ := hrec T.Fields
        cases hcp : recP T.Fields <;> cases hca : recA T.Fields <;>
          rw [hcp, hca] at hr <;> simp only [roundTrips] at hr ⊢
        · cases hp : convenienceParametersLoop schema recP rest <;>
            cases ha : forwardedArgumentsLoop schema functionNamePrefix recA rest <;>
            rw [hp, ha] at ih <;> simp only [roundTrips] at ih ⊢
          · simp [kotlinFunctionArgument.Name, leafNamesOfArguments,
              kotlinFunctionArgument.leafNames, ih.1, ih.2, hr.2]
          all_goals exact ih
        all_goals exact hr

theorem roundTrips_fields (schema : Schema) (functionNamePrefix : String) :
    ∀ (fuel : Nat) (fs : List FieldDefinition),
      roundTrips (fs.map fun f => f.Name)
        (convenienceFunctionParametersFromFieldDefinitions schema fuel fs)
        (convenienceFunctionForwardedArgumentsFromFieldDefinitions schema functionNamePrefix
          fuel fs) := by
  intro fuel
  induction fuel with
  | zero =>
    intro fs
    simp [convenienceFunctionParametersFromFieldDefinitions,
      convenienceFunctionForwardedArgumentsFromFieldDefinitions, roundTrips]
  | succ fuel ih =>
    intro fs
    simp only [convenienceFunctionParametersFromFieldDefinitions,
      convenienceFunctionForwardedArgumentsFromFieldDefinitions]
    have h := roundTrips_loops schema functionNamePrefix
      (convenienceFunctionParametersFromFieldDefinitions schema fuel)
      (convenienceFunctionForwardedArgumentsFromFieldDefinitions schema functionNamePrefix fuel)
      (fun fs => ⟨_, ih fs⟩) fs
    cases hp : convenienceParametersLoop schema
        (convenienceFunctionParametersFromFieldDefinitions schema fuel) fs <;>
      cases ha : forwardedArgumentsLoop schema functionNamePrefix
        (convenienceFunctionForwardedArgumentsFromFieldDefinitions schema functionNamePrefix fuel)
        fs <;>
      rw [hp, ha] at h
    · exact roundTrips_markLast _ _ _ h
    all_goals exact h

theorem roundTrips_variables (schema : Schema) (functionNamePrefix : String) (fuel : Nat) :
    ∀ vds : List VariableDefinition,
      roundTrips (vds.map fun vd => vd.Variable)
        (convenienceParametersOfVariables schema fuel vds)
        (forwardedArgumentsOfVariables schema functionNamePrefix fuel vds) := by
  intro vds
  induction vds with
  | nil =>
    simp [convenienceParametersOfVariables, forwardedArgumentsOfVariables, roundTrips,
      leafNamesOfArguments]
  | cons vd rest ih =>
    simp only [convenienceParametersOfVariables, forwardedArgumentsOfVariables]
    by_cases hs : isScalarType vd.Type_ = true
    · rw [if_pos hs, if_pos hs]
      cases hp : convenienceParametersOfVariables schema fuel rest <;>
        cases ha : forwardedArgumentsOfVariables schema functionNamePrefix fuel rest <;>
        rw [hp, ha] at ih <;> simp only [roundTrips] at ih ⊢
      · simp [kotlinFunctionArgument.Name, leafNamesOfArguments,
          kotlinFunctionArgument.leafNames, ih.1, ih.2]
      all_goals exact ih
    · rw [if_neg hs, if_neg hs]
      cases hT : schema.lookupType vd.Type_.NamedType with
      | none => simp [roundTrips]
      | some pd =>
        obtain ⟨p, T⟩ := pd
        simp only
        have hr := roundTrips_fields schema functionNamePrefix fuel
          (deleteUnpickedFields T.Fields vd)
        cases hcp : convenienceFunctionParametersFromFieldDefinitions schema fuel
            (deleteUnpickedFields T.Fields vd) <;>
          cases hca : convenienceFunctionForwardedArgumentsFromFieldDefinitions schema
            functionNamePrefix fuel (deleteUnpickedFields T.Fields vd) <;>
          rw [hcp, hca] at hr <;> simp only [roundTrips] at hr ⊢
        · cases hp : convenienceParametersOfVariables schema fuel rest <;>
            cases ha : forwardedArgumentsOfVariables schema functionNamePrefix fuel rest <;>
            rw [hp, ha] at ih <;> simp only [roundTrips] at ih ⊢
          · simp [kotlinFunctionArgument.Name, leafNamesOfArguments,
              kotlinFunctionArgument.leafNames, ih.1, ih.2, hr.2]
          all_goals exact ih
        all_goals exact hr

theorem roundTrips_variableDefinitions (fuel : Nat) (vds : List VariableDefinition)
    (functionNamePrefix : String) (schema : Schema) :
    roundTrips (vds.map fun vd => vd.Variable)
      (convenienceFunctionParametersFromVariableDefinitions fuel vds schema)
      (convenienceFunctionForwardedArgumentsFromVariableDefinitions fuel vds functionNamePrefix
        schema) := by
  unfold convenienceFunctionParametersFromVariableDefinitions
    convenienceFunctionForwardedArgumentsFromVariableDefinitions
  have h := roundTrips_variables schema functionNamePrefix fuel vds
  cases hp : convenienceParametersOfVariables schema fuel vds <;>
    cases ha : forwardedArgumentsOfVariables schema functionNamePrefix fuel vds <;>
    rw [hp, ha] at h
  · exact roundTrips_markLast _ _ _ h
  all_goals exact h

/-- Claim C15. Round trip between the two convenience structures: for every list of variable
definitions, prefix and schema (and every bound on the recursion depth), the build of the
forwarding arguments succeeds exactly when the flattening of the parameters succeeds, and
then the forwarding list has one argument per variable, in order and named after it, and
the names of the leaves of the forwarding tree, read depth first, are the names of the
flattened parameters in order. -/
theorem forwardedArguments_round_trip (fuel : Nat) (vds : List VariableDefinition)
    (functionNamePrefix : String) (schema : Schema) :
    ((∃ as, convenienceFunctionForwardedArgumentsFromVariableDefinitions fuel vds
        functionNamePrefix schema = .ok as) ↔
      ∃ ps, convenienceFunctionParametersFromVariableDefinitions fuel vds schema = .ok ps) ∧
    ∀ ps as,
      convenienceFunctionParametersFromVariableDefinitions fuel vds schema = .ok ps →
      convenienceFunctionForwardedArgumentsFromVariableDefinitions fuel vds functionNamePrefix
        schema = .ok as →
      as.length = vds.length ∧
      as.map kotlinFunctionArgument.Name = vds.map (fun vd => vd.Variable) ∧
      leafNamesOfArguments as = ps.map fun p => p.Name := by
  have h := roundTrips_variableDefinitions fuel vds functionNamePrefix schema
  constructor
  · constructor
    · rintro ⟨as, ha⟩
      rw [ha] at h
      cases hp : convenienceFunctionParametersFromVariableDefinitions fuel vds schema with
      | ok ps => exact ⟨ps, rfl⟩
      | error m => rw [hp] at h; simp [roundTrips] at h
      | panic m => rw [hp] at h; simp [roundTrips] at h
      | diverge => rw [hp] at h; simp [roundTrips] at h
    · rintro ⟨ps, hp⟩
      rw [hp] at h
      cases ha : convenienceFunctionForwardedArgumentsFromVariableDefinitions fuel vds
          functionNamePrefix schema with
      | ok as => exact ⟨as, rfl⟩
      | error m => rw [ha] at h; simp [roundTrips] at h
      | panic m => rw [ha] at h; simp [roundTrips] at h
      | diverge => rw [ha] at h; simp [roundTrips] at h
  · intro ps as hp ha
    rw [hp, ha] at h
    simp only [roundTrips] at h
    refine ⟨?_, h.1, h.2⟩
    have := congrArg List.length h.1
    simpa using this

/-- Claim C15, witness: for `($title: String!, $studio: Studio)` over the movie schema the
flattening gives `title, id, name` and the forwarding build gives `title` and
`studio = Studio(id, name)`, whose leaves are `title, id, name`. -/
theorem forwardedArguments_round_trip_on_title_and_studio :
    convenienceFunctionParametersFromVariableDefinitions 1 titleAndStudioVariables movieSchema
      = .ok [{ Name := "title", KotlinType := "String", IsLast := false },
             { Name := "id", KotlinType := "String", IsLast := false },
             { Name := "name", KotlinType := "String", IsLast := true }] ∧
    convenienceFunctionForwardedArgumentsFromVariableDefinitions 1 titleAndStudioVariables ""
        movieSchema
      = .ok [.plain "title" false,
             .call "studio" "Studio" [.plain "id" false, .plain "name" true] true] ∧
    leafNamesOfArguments
        [.plain "title" false,
         .call "studio" "Studio" [.plain "id" false, .plain "name" true] true]
      = ["title", "id", "name"] :=
  ⟨rfl, rfl,
   ((forwardedArguments_round_trip 1 titleAndStudioVariables "" movieSchema).2 _ _ rfl rfl).2.2⟩

/-! ## The field picker -/

theorem deleteUnpickedFields_eq_pickedFieldsOf (vd : VariableDefinition) (T : Definition)
    (hdef : vd.Definition.Fields = T.Fields) :
    deleteUnpickedFields T.Fields vd = pickedFieldsOf vd T := by
  unfold deleteUnpickedFields pickedFieldsForVariableDefinition pickedFieldsOf
    fieldNameSetFromFieldDefinitions
  rw [hdef]
  cases pickDirectiveForVariableDefinition vd with
  | none =>
    simp only
    rw [List.filter_eq_self]
    intro f hf
    simp only [decide_eq_true_eq]
    exact List.mem_map.2 ⟨f, hf, rfl⟩
  | some d =>
    simp only
    apply List.filter_congr
    intro f hf
    by_cases hP : f.Name ∈ pickedFieldNamesOfDirective d
    · rw [decide_eq_true hP, decide_eq_true]
      exact List.mem_map.2 ⟨f, List.mem_filter.2 ⟨hf, decide_eq_true hP⟩, rfl⟩
    · rw [decide_eq_false hP, decide_eq_false]
      intro hc
      obtain ⟨g, hg, hn⟩ := List.mem_map.1 hc
      have := (List.mem_filter.1 hg).2
      rw [decide_eq_true_eq, hn] at this
      exact hP this

theorem pickedFieldsOf_of_directive (vd : VariableDefinition) (T : Definition) (d : Directive)
    (hpick : pickDirectiveForVariableDefinition vd = some d) :
    pickedFieldsOf vd T
      = T.Fields.filter fun f => decide (f.Name ∈ pickedFieldNamesOfDirective d) := by
  unfold pickedFieldsOf
  rw [hpick]

/-! ## Flattening of the convenience parameters -/

theorem scalarLeavesLoop_of_ok (schema : Schema)
    (recP : List FieldDefinition → Res (List kotlinFunctionParameter))
    (below : List FieldDefinition → Option (List (String × String)))
    (hrec : ∀ fs B, recP fs = .ok B → below fs = some (B.map fun q => (q.Name, q.KotlinType))) :
    ∀ fs ps, convenienceParametersLoop schema recP fs = .ok ps →
      scalarLeavesLoop schema below fs = some (ps.map fun q => (q.Name, q.KotlinType)) := by
  intro fs
  induction fs with
  | nil =>
    intro ps h
    simp only [convenienceParametersLoop] at h
    injection h with h
    subst h
    rfl
  | cons f rest ih =>
    intro ps h
    simp only [convenienceParametersLoop] at h
    simp only [scalarLeavesLoop]
    by_cases hs : isScalarType f.Type_ = true
    · rw [if_pos hs] at h
      rw [if_pos hs]
      cases hr : convenienceParametersLoop schema recP rest with
      | ok ps0 =>
        rw [hr] at h
        simp only at h
        injection h with h
        subst h
        rw [ih ps0 hr]
        rfl
      | error m => rw [hr] at h; simp at h
      | panic m => rw [hr] at h; simp at h
      | diverge => rw [hr] at h; simp at h
    · rw [if_neg hs] at h
      rw [if_neg hs]
      cases hT : schema.lookupType f.Type_.NamedType with
      | none => rw [hT] at h; simp at h
      | some pd =>
        obtain ⟨p, T⟩ := pd
        rw [hT] at h
        simp only at h ⊢
        cases hc : recP T.Fields with
        | ok B =>
          rw [hc] at h
          simp only at h
          cases hr : convenienceParametersLoop schema recP rest with
          | ok ps0 =>
            rw [hr] at h
            simp only at h
            injection h with h
            subst h
            rw [ih ps0 hr, hrec T.Fields B hc]
            simp
          | error m => rw [hr] at h; simp at h
          | panic m => rw [hr] at h; simp at h
          | diverge => rw [hr] at h; simp at h
        | error m => rw [hc] at h; simp at h
        | panic m => rw [hc] at h; simp at h
        | diverge => rw [hc] at h; simp at h

theorem nameAndType_markLastParameters (ps : List kotlinFunctionParameter) :
    (markLastParameters ps).map (fun q => (q.Name, q.KotlinType))
      = ps.map fun q => (q.Name, q.KotlinType) :=
  map_mapIdx_of_forall _ _ ps _ (fun _ _ => rfl)

theorem scalarLeaves_of_ok (schema : Schema) :
    ∀ fuel fs B, convenienceFunctionParametersFromFieldDefinitions schema fuel fs = .ok B →
      scalarLeaves schema fuel fs = some (B.map fun q => (q.Name, q.KotlinType)) := by
  intro fuel
  induction fuel with
  | zero =>
    intro fs B h
    simp [convenienceFunctionParametersFromFieldDefinitions] at h
  | succ fuel ih =>
    intro fs B h
    simp only [convenienceFunctionParametersFromFieldDefinitions] at h
    simp only [scalarLeaves]
    cases hl : convenienceParametersLoop schema
        (convenienceFunctionParametersFromFieldDefinitions schema fuel) fs with
    | ok ps0 =>
      rw [hl] at h
      simp only at h
      injection h with h
      subst h
      rw [nameAndType_markLastParameters]
      exact scalarLeavesLoop_of_ok schema _ _ ih fs ps0 hl
    | error m => rw [hl] at h; simp at h
    | panic m => rw [hl] at h; simp at h
    | diverge => rw [hl] at h; simp at h

theorem convenienceParametersOfVariables_append (schema : Schema) (fuel : Nat) :
    ∀ xs ys : List VariableDefinition,
      convenienceParametersOfVariables schema fuel (xs ++ ys)
        = (convenienceParametersOfVariables schema fuel xs).bind fun A =>
            (convenienceParametersOfVariables schema fuel ys).bind fun B => .ok (A ++ B) := by
  intro xs ys
  induction xs with
  | nil =>
    simp only [List.nil_append, convenienceParametersOfVariables, Res.bind]
    cases convenienceParametersOfVariables schema fuel ys <;> rfl
  | cons x rest ih =>
    simp only [List.cons_append, convenienceParametersOfVariables, List.append_eq]
    rw [ih]
    by_cases hs : isScalarType x.Type_ = true
    · rw [if_pos hs, if_pos hs]
      cases convenienceParametersOfVariables schema fuel rest with
      | ok A =>
        simp only [Res.bind]
        cases convenienceParametersOfVariables schema fuel ys <;> rfl
      | error m => rfl
      | panic m => rfl
      | diverge => rfl
    · rw [if_neg hs, if_neg hs]
      cases schema.lookupType x.Type_.NamedType with
      | none => rfl
      | some pd =>
        obtain ⟨p, T⟩ := pd
        simp only
        cases convenienceFunctionParametersFromFieldDefinitions schema fuel
            (deleteUnpickedFields T.Fields x) with
        | ok B0 =>
          simp only
          cases convenienceParametersOfVariables schema fuel rest with
          | ok A =>
            simp only [Res.bind]
            cases convenienceParametersOfVariables schema fuel ys <;> simp
          | error m => rfl
          | panic m => rfl
          | diverge => rfl
        | error m => rfl
        | panic m => rfl
        | diverge => rfl

theorem convenienceParametersOfVariables_cons_object (schema : Schema) (fuel : Nat)
    (vd : VariableDefinition) (post : List VariableDefinition) (p : Nat) (T : Definition)
    (hns : isScalarType vd.Type_ = false)
    (hT : schema.lookupType vd.Type_.NamedType = some (p, T)) :
    convenienceParametersOfVariables schema fuel (vd :: post)
      = (convenienceFunctionParametersFromFieldDefinitions schema fuel
          (deleteUnpickedFields T.Fields vd)).bind fun B =>
            (convenienceParametersOfVariables schema fuel post).bind fun C => .ok (B ++ C) := by
  simp only [convenienceParametersOfVariables, hns, hT, Bool.false_eq_true, if_false]
  cases convenienceFunctionParametersFromFieldDefinitions schema fuel
      (deleteUnpickedFields T.Fields vd) with
  | ok B =>
    simp only [Res.bind]
    cases convenienceParametersOfVariables schema fuel post <;> rfl
  | error m => rfl
  | panic m => rfl
  | diverge => rfl

/-- Claim C12. For every object-typed variable of type `T` (its type is not scalar, the schema
maps its type name to `T`, and `T` is its definition) with a `pick` directive listing the
names `P`, in any list of variables on which the flattening succeeds: the flattened list
is the contribution of the variables before it, then the contribution of the variable,
then the contribution of the variables after it (with the final `IsLast` pass over the
whole), and the contribution of the variable is exactly the scalar leaves of the fields of
`T` named in `P`, in the declaration order of `T`. The result depends on the directive
only through the set of its names: a directive listing the same names in another order or
with repetitions gives the same list. -/
theorem convenienceParameters_of_picked_variable (fuel : Nat) (schema : Schema)
    (pre : List VariableDefinition) (vd : VariableDefinition) (post : List VariableDefinition)
    (p : Nat) (T : Definition) (directive : Directive) (ps : List kotlinFunctionParameter)
    (hns : isScalarType vd.Type_ = false)
    (hT : schema.lookupType vd.Type_.NamedType = some (p, T))
    (hdef : vd.Definition.Fields = T.Fields)
    (hpick : pickDirectiveForVariableDefinition vd = some directive)
    (hrun : convenienceFunctionParametersFromVariableDefinitions fuel (pre ++ vd :: post) schema
      = .ok ps) :
    (∃ A B C,
      convenienceParametersOfVariables schema fuel pre = .ok A ∧
      convenienceParametersOfVariables schema fuel post = .ok C ∧
      ps = markLastParameters (A ++ B ++ C) ∧
      scalarLeaves schema fuel
          (T.Fields.filter fun f => decide (f.Name ∈ pickedFieldNamesOfDirective directive))
        = some (B.map fun q => (q.Name, q.KotlinType))) ∧
    (∀ vd' directive',
      vd'.Variable = vd.Variable → vd'.Type_ = vd.Type_ → vd'.Definition = vd.Definition →
      pickDirectiveForVariableDefinition vd' = some directive' →
      (∀ n, n ∈ pickedFieldNamesOfDirective directive' ↔
        n ∈ pickedFieldNamesOfDirective directive) →
      convenienceFunctionParametersFromVariableDefinitions fuel (pre ++ vd' :: post) schema
        = .ok ps) := by
  have hpicked : deleteUnpickedFields T.Fields vd
      = T.Fields.filter fun f => decide (f.Name ∈ pickedFieldNamesOfDirective directive) := by
    rw [deleteUnpickedFields_eq_pickedFieldsOf vd T hdef, pickedFieldsOf_of_directive vd T _ hpick]
  constructor
  · unfold convenienceFunctionParametersFromVariableDefinitions at hrun
    rw [convenienceParametersOfVariables_append,
      convenienceParametersOfVariables_cons_object schema fuel vd post p T hns hT, hpicked] at hrun
    cases hA : convenienceParametersOfVariables schema fuel pre with
    | ok A =>
      rw [hA] at hrun
      cases hB : convenienceFunctionParametersFromFieldDefinitions schema fuel
          (T.Fields.filter fun f => decide (f.Name ∈ pickedFieldNamesOfDirective directive)) with
      | ok B =>
        rw [hB] at hrun
        cases hC : convenienceParametersOfVariables schema fuel post with
        | ok C =>
          rw [hC] at hrun
          simp only [Res.bind] at hrun
          injection hrun with hrun
          refine ⟨A, B, C, rfl, rfl, ?_, scalarLeaves_of_ok schema fuel _ B hB⟩
          rw [← hrun, List.append_assoc]
        | error m => rw [hC] at hrun; simp [Res.bind] at hrun
        | panic m => rw [hC] at hrun; simp [Res.bind] at hrun
        | diverge => rw [hC] at hrun; simp [Res.bind] at hrun
      | error m => rw [hB] at hrun; simp [Res.bind] at hrun
      | panic m => rw [hB] at hrun; simp [Res.bind] at hrun
      | diverge => rw [hB] at hrun; simp [Res.bind] at hrun
    | error m => rw [hA] at hrun; simp [Res.bind] at hrun
    | panic m => rw [hA] at hrun; simp [Res.bind] at hrun
    | diverge => rw [hA] at hrun; simp [Res.bind] at hrun
  · intro vd' directive' hvar htype hd hpick' hsame
    have hpicked' : deleteUnpickedFields T.Fields vd' = deleteUnpickedFields T.Fields vd := by
      rw [hpicked, deleteUnpickedFields_eq_pickedFieldsOf vd' T (by rw [hd]; exact hdef),
        pickedFieldsOf_of_directive vd' T _ hpick']
      apply List.filter_congr
      intro f _
      by_cases hP : f.Name ∈ pickedFieldNamesOfDirective directive
      · rw [decide_eq_true hP, decide_eq_true ((hsame _).2 hP)]
      · rw [decide_eq_false hP, decide_eq_false (fun hc => hP ((hsame _).1 hc))]
    rw [← hrun]
    unfold convenienceFunctionParametersFromVariableDefinitions
    rw [convenienceParametersOfVariables_append, convenienceParametersOfVariables_append,
      convenienceParametersOfVariables_cons_object schema fuel vd post p T hns hT,
      convenienceParametersOfVariables_cons_object schema fuel vd' post p T
        (by rw [htype]; exact hns) (by rw [htype]; exact hT), hpicked']

/-- Claim C12, witness: for `$m: Movie! @pick(fields: ["studio", "title", "title"])` over the
movie schema the flattened parameters are `title: String`, then the leaves `id: String`
and `name: String` of `studio`, in the field order of `Movie`; the directive
`@pick(fields: ["title", "studio"])` gives the same list. -/
theorem convenienceParameters_on_picked_movie :
    convenienceFunctionParametersFromVariableDefinitions 2
        [pickedMovieVariable ["studio", "title", "title"]] movieSchema
      = .ok [{ Name := "title", KotlinType := "String", IsLast := false },
             { Name := "id", KotlinType := "String", IsLast := false },
             { Name := "name", KotlinType := "String", IsLast := true }] ∧
    scalarLeaves movieSchema 2
        (movieDefinition.Fields.filter fun f => decide (f.Name ∈ ["studio", "title", "title"]))
      = some [("title", "String"), ("id", "String"), ("name", "String")] ∧
    convenienceFunctionParametersFromVariableDefinitions 2
        [pickedMovieVariable ["title", "studio"]] movieSchema
      = .ok [{ Name := "title", KotlinType := "String", IsLast := false },
             { Name := "id", KotlinType := "String", IsLast := false },
             { Name := "name", KotlinType := "String", IsLast := true }] :=
  ⟨by decide, by decide,
   (convenienceParameters_of_picked_variable 2 movieSchema []
      (pickedMovieVariable ["studio", "title", "title"]) [] 7 movieDefinition
      { Name := "pick", Arguments := [{ Name := "fields", Children := ["studio", "title", "title"] }] }
      _ (by decide) (by decide) rfl (by decide) (by decide)).2
      (pickedMovieVariable ["title", "studio"])
      { Name := "pick", Arguments := [{ Name := "fields", Children := ["title", "studio"] }] }
      rfl rfl rfl (by decide)
      (by
        intro n
        simp only [pickedFieldNamesOfDirective, List.filter, decide_True, List.flatMap_cons,
          List.flatMap_nil, List.append_nil, List.mem_cons, List.mem_singleton, List.not_mem_nil,
          or_false]
        tauto)⟩

/-! ## The nested-class worklist -/

theorem expandNestedFields_spec (schema : Schema) (a : Option VariableDefinition) :
    ∀ (fs : List FieldDefinition) (q : List String) (d : List (String × Definition))
      (q' : List String) (d' : List (String × Definition)),
      expandNestedFields schema a fs q d = .ok (q', d') →
      ∃ added, q' = q ++ added ∧
        (∀ n D, mapGet d n = some D → mapGet d' n = some D) ∧
        (∀ n, mapGet d n = none → n ∉ added → mapGet d' n = none) ∧
        (∀ n ∈ added, mapGet d n = none ∧
          ∃ p D, schema.lookupType n = some (p, D) ∧ mapGet d' n = some D) := by
  intro fs
  induction fs with
  | nil =>
    intro q d q' d' h
    simp only [expandNestedFields] at h
    injection h with h
    injection h with h1 h2
    subst h1 h2
    exact ⟨[], by simp, fun _ _ h => h, fun _ h _ => h, fun n hn => by simp at hn⟩
  | cons f rest ih =>
    intro q d q' d' h
    simp only [expandNestedFields] at h
    by_cases hs : isScalarType f.Type_ = true
    · rw [if_pos hs] at h
      exact ih q d q' d' h
    · rw [if_neg hs] at h
      cases hg : mapGet d (namedTypeOfInnermostElemOfType f.Type_).NamedType with
      | some D0 =>
        rw [hg] at h
        exact ih q d q' d' h
      | none =>
        rw [hg] at h
        simp only at h
        cases hl : schema.lookupType (namedTypeOfInnermostElemOfType f.Type_).NamedType with
        | none =>
          rw [hl] at h
          cases a <;> simp at h
        | some pd =>
          obtain ⟨p, F⟩ := pd
          rw [hl] at h
          simp only at h
          obtain ⟨added, hq, hkeep, hnone, hadded⟩ := ih _ _ q' d' h
          refine ⟨(namedTypeOfInnermostElemOfType f.Type_).NamedType :: added, ?_, ?_, ?_, ?_⟩
          · rw [hq, List.append_assoc]
            rfl
          · intro n D hn
            apply hkeep
            rw [mapGet_mapSet_ne]
            · exact hn
            · intro hc
              rw [hc, hg] at hn
              simp at hn
          · intro n hn hnot
            apply hnone
            · rw [mapGet_mapSet_ne]
              · exact hn
              · intro hc
                exact hnot (by rw [hc]; exact List.mem_cons_self _ _)
            · intro hc
              exact hnot (List.mem_cons_of_mem _ hc)
          · intro n hn
            rcases List.mem_cons.1 hn with h1 | h1
            · subst h1
              exact ⟨hg, p, F, hl, hkeep _ _ (mapGet_mapSet_self _ _ _)⟩
            · obtain ⟨hn1, hn2⟩ := hadded n h1
              have hne : n ≠ (namedTypeOfInnermostElemOfType f.Type_).NamedType := by
                intro hc
                rw [hc, mapGet_mapSet_self] at hn1
                simp at hn1
              rw [mapGet_mapSet_ne _ _ _ _ hne] at hn1
              exact ⟨hn1, hn2⟩

/-- What a successful run of the worklist appends to the classes built so far: one class
per name of the worklist; every appended class is named by a name of the worklist or by a
name that had no definition yet; a class named by a name with a definition mirrors the
fields of that definition and has no secondary constructor and no nested class. -/
theorem nestedWorklist_spec (schema : Schema) (vmap : List (String × VariableDefinition)) :
    ∀ (fuel : Nat) (q : List String) (d : List (String × Definition)) (acc : List kotlinClass)
      (classes : List kotlinClass),
      nestedWorklist schema vmap fuel q d acc = .ok classes →
      ∃ new, classes = acc ++ new ∧
        (∀ n ∈ q, ∃ cls ∈ new, cls.Name = n) ∧
        ∀ cls ∈ new, (cls.Name ∈ q ∨ mapGet d cls.Name = none) ∧
          ∀ D, mapGet d cls.Name = some D →
            cls = .mk cls.Name (constructorParametersFromFieldDefinitions D.Fields) [] [] := by
  intro fuel
  induction fuel with
  | zero =>
    intro q d acc classes h
    cases q with
    | nil =>
      simp only [nestedWorklist] at h
      injection h with h
      exact ⟨[], by simp [h], by simp, by simp⟩
    | cons n q0 => simp [nestedWorklist] at h
  | succ fuel ih =>
    intro q d acc classes h
    cases q with
    | nil =>
      simp only [nestedWorklist] at h
      injection h with h
      exact ⟨[], by simp [h], by simp, by simp⟩
    | cons n q0 =>
      simp only [nestedWorklist] at h
      cases hg : mapGet d n with
      | none => rw [hg] at h; simp at h
      | some D =>
        rw [hg] at h
        simp only at h
        cases he : expandNestedFields schema (mapGet vmap n) D.Fields q0 d with
        | ok qd =>
          obtain ⟨q', d'⟩ := qd
          rw [he] at h
          simp only at h
          obtain ⟨added, hq, hkeep, hnone, hadded⟩ := expandNestedFields_spec schema _ _ _ _ _ _ he
          obtain ⟨new', hcl, hall, hprop⟩ := ih _ _ _ _ h
          refine ⟨.mk n (constructorParametersFromFieldDefinitions D.Fields) [] [] :: new', ?_,
            ?_, ?_⟩
          · rw [hcl, List.append_assoc]
            rfl
          · intro m hm
            rcases List.mem_cons.1 hm with h1 | h1
            · exact ⟨_, List.mem_cons_self _ _, h1.symm⟩
            · obtain ⟨cls, hc1, hc2⟩ := hall m (by rw [hq]; exact List.mem_append_left _ h1)
              exact ⟨cls, List.mem_cons_of_mem _ hc1, hc2⟩
          · intro cls hcls
            rcases List.mem_cons.1 hcls with h1 | h1
            · subst h1
              refine ⟨Or.inl (List.mem_cons_self _ _), ?_⟩
              intro D' hD'
              simp only [kotlinClass.Name] at hD' ⊢
              rw [hg] at hD'
              injection hD' with hD'
              rw [hD']
            · obtain ⟨hname, hpar⟩ := hprop cls h1
              constructor
              · rcases hname with h2 | h2
                · rw [hq] at h2
                  rcases List.mem_append.1 h2 with h3 | h3
                  · exact Or.inl (List.mem_cons_of_mem _ h3)
                  · exact Or.inr (hadded _ h3).1
                · right
                  cases hd : mapGet d cls.Name with
                  | none => rfl
                  | some D' =>
                    rw [hkeep _ _ hd] at h2
                    simp at h2
              · intro D' hD'
                exact hpar D' (hkeep _ _ hD')
        | error m => rw [he] at h; simp at h
        | panic m => rw [he] at h; simp at h
        | diverge => rw [he] at h; simp at h

/-! ## The seeding of the worklist -/

theorem seedNestedTypes_append (schema : Schema) :
    ∀ (xs ys : List VariableDefinition) (st st' : NestedState),
      seedNestedTypes schema (xs ++ ys) st = .ok st' →
      ∃ st1, seedNestedTypes schema xs st = .ok st1 ∧ seedNestedTypes schema ys st1 = .ok st' := by
  intro xs
  induction xs with
  | nil =>
    intro ys st st' h
    exact ⟨st, rfl, h⟩
  | cons x rest ih =>
    intro ys st st' h
    simp only [List.cons_append, seedNestedTypes] at h ⊢
    by_cases hs : isScalarType x.Type_ = true
    · rw [if_pos hs] at h ⊢
      exact ih ys st st' h
    · rw [if_neg hs] at h ⊢
      cases hl : schema.lookupType (namedTypeOfInnermostElemOfType x.Type_).NamedType with
      | none => rw [hl] at h; simp at h
      | some pd =>
        obtain ⟨p, T⟩ := pd
        rw [hl] at h
        simp only at h ⊢
        by_cases hb : T.BuiltIn = true
        · rw [if_pos hb] at h ⊢
          exact ih ys st st' h
        · rw [if_neg hb] at h ⊢
          exact ih ys _ st' h

theorem seedNestedTypes_keeps (schema : Schema) :
    ∀ (vds : List VariableDefinition) (st st' : NestedState),
      seedNestedTypes schema vds st = .ok st' →
      (∀ n ∈ st.nestedTypeNames, n ∈ st'.nestedTypeNames) ∧
      ∀ n, (∀ o ∈ vds, leafTypeNameOf o.Type_ ≠ n) →
        mapGet st'.nestedTypeDefinitionByName n = mapGet st.nestedTypeDefinitionByName n := by
  intro vds
  induction vds with
  | nil =>
    intro st st' h
    simp only [seedNestedTypes] at h
    injection h with h
    subst h
    exact ⟨fun _ h => h, fun _ _ => rfl⟩
  | cons x rest ih =>
    intro st st' h
    simp only [seedNestedTypes] at h
    have hrest : ∀ n, (∀ o ∈ x :: rest, leafTypeNameOf o.Type_ ≠ n) →
        ∀ o ∈ rest, leafTypeNameOf o.Type_ ≠ n :=
      fun n hn o ho => hn o (List.mem_cons_of_mem _ ho)
    by_cases hs : isScalarType x.Type_ = true
    · rw [if_pos hs] at h
      obtain ⟨h1, h2⟩ := ih st st' h
      exact ⟨h1, fun n hn => h2 n (hrest n hn)⟩
    · rw [if_neg hs] at h
      cases hl : schema.lookupType (namedTypeOfInnermostElemOfType x.Type_).NamedType with
      | none => rw [hl] at h; simp at h
      | some pd =>
        obtain ⟨p, T⟩ := pd
        rw [hl] at h
        simp only at h
        by_cases hb : T.BuiltIn = true
        · rw [if_pos hb] at h
          obtain ⟨h1, h2⟩ := ih st st' h
          exact ⟨h1, fun n hn => h2 n (hrest n hn)⟩
        · rw [if_neg hb] at h
          obtain ⟨h1, h2⟩ := ih _ st' h
          constructor
          · intro n hn
            exact h1 n (List.mem_append_left _ hn)
          · intro n hn
            rw [h2 n (hrest n hn)]
            simp only
            apply mapGet_mapSet_ne
            intro hc
            exact hn x (List.mem_cons_self _ _) hc.symm

theorem seedNestedTypes_cons_object (schema : Schema) (vd : VariableDefinition)
    (post : List VariableDefinition) (st : NestedState) (p : Nat) (T : Definition)
    (hns : isScalarType vd.Type_ = false)
    (hT : schema.lookupType (leafTypeNameOf vd.Type_) = some (p, T))
    (hnb : T.BuiltIn = false) :
    seedNestedTypes schema (vd :: post) st
      = seedNestedTypes schema post
          { nestedTypeNames := st.nestedTypeNames ++ [leafTypeNameOf vd.Type_]
            nestedTypeDefinitionByName :=
              mapSet st.nestedTypeDefinitionByName (leafTypeNameOf vd.Type_)
                { T with Fields := deleteUnpickedFields T.Fields vd }
            variableDefinitionByNestedTypeName :=
              mapSet st.variableDefinitionByNestedTypeName (leafTypeNameOf vd.Type_) vd } := by
  unfold leafTypeNameOf at hT ⊢
  simp only [seedNestedTypes, hns, hT, hnb, Bool.false_eq_true, if_false]

theorem parametersMirroring_eq (fields : List FieldDefinition) :
    constructorParametersFromFieldDefinitions fields = parametersMirroring fields := rfl

/-- Claim C11, amended. For every variable of a list of variable definitions whose type is not
scalar, whose leaf type is a non-built-in type `T` of the schema that is also its
definition, and whose leaf type is the leaf type of no other variable of the list: when
the nested classes are built, there is a nested class named after `T`, and every such
class has as constructor parameters exactly the fields of `T` whose names are listed by
the `pick` directive of the variable, in the field order of `T`, each with its rendered
type; all fields of `T` when the variable has no `pick` directive. -/
theorem nestedClass_of_picked_variable (fuel : Nat) (schema : Schema)
    (pre : List VariableDefinition) (vd : VariableDefinition) (post : List VariableDefinition)
    (p : Nat) (T : Definition) (classes : List kotlinClass)
    (hns : isScalarType vd.Type_ = false)
    (hT : schema.lookupType (leafTypeNameOf vd.Type_) = some (p, T))
    (hnb : T.BuiltIn = false)
    (hdef : vd.Definition.Fields = T.Fields)
    (hothers : ∀ o ∈ pre ++ post, leafTypeNameOf o.Type_ ≠ leafTypeNameOf vd.Type_)
    (hrun : nestedClassesFromVariableDefinitions fuel (pre ++ vd :: post) schema = .ok classes) :
    (∃ cls ∈ classes, cls.Name = leafTypeNameOf vd.Type_) ∧
    ∀ cls ∈ classes, cls.Name = leafTypeNameOf vd.Type_ →
      cls.ConstructorParameters = parametersMirroring (pickedFieldsOf vd T) := by
  unfold nestedClassesFromVariableDefinitions at hrun
  cases hseed : seedNestedTypes schema (pre ++ vd :: post)
      { nestedTypeNames := [], nestedTypeDefinitionByName := [],
        variableDefinitionByNestedTypeName := [] } with
  | ok st =>
    rw [hseed] at hrun
    simp only at hrun
    obtain ⟨st1, hpre, hrest⟩ := seedNestedTypes_append schema pre (vd :: post) _ st hseed
    rw [seedNestedTypes_cons_object schema vd post st1 p T hns hT hnb] at hrest
    obtain ⟨hq, hd⟩ := seedNestedTypes_keeps schema post _ st hrest
    have hmem : leafTypeNameOf vd.Type_ ∈ st.nestedTypeNames :=
      hq _ (List.mem_append_right _ (List.mem_singleton.2 rfl))
    have hget : mapGet st.nestedTypeDefinitionByName (leafTypeNameOf vd.Type_)
        = some { T with Fields := deleteUnpickedFields T.Fields vd } := by
      rw [hd _ (fun o ho => hothers o (List.mem_append_right _ ho))]
      exact mapGet_mapSet_self _ _ _
    obtain ⟨new, hcl, hall, hprop⟩ := nestedWorklist_spec schema _ _ _ _ _ _ hrun
    rw [List.nil_append] at hcl
    subst hcl
    refine ⟨hall _ hmem, ?_⟩
    intro cls hcls hname
    have := (hprop cls hcls).2 _ (by rw [hname]; exact hget)
    rw [this]
    simp only [kotlinClass.ConstructorParameters]
    rw [deleteUnpickedFields_eq_pickedFieldsOf vd T hdef]
    rfl
  | error m => rw [hseed] at hrun; simp at hrun
  | panic m => rw [hseed] at hrun; simp at hrun
  | diverge => rw [hseed] at hrun; simp at hrun

/-- Claim C11 fails as stated. With `($a: Studio @pick(fields: ["id"]), $b: Studio
@pick(fields: ["name"]))` over the movie schema both nested classes generated for `Studio`
have the single parameter `name: String`; none has the field `id` that `$a` picks. -/
theorem nestedClass_shows_pick_of_last_variable :
    nestedClassesFromVariableDefinitions 2 idAndNamePickedStudioVariables movieSchema
      = .ok [.mk "Studio" [{ Name := "name", KotlinType := "String", IsLast := true }] [] [],
             .mk "Studio" [{ Name := "name", KotlinType := "String", IsLast := true }] [] []] := by
  rfl

/-- Claim C11, witness: `$m: Movie_Data @pick(fields: ["title"])` over the augmented movie schema
gives one nested class `Movie_Data` whose only parameter is `title: String`. -/
theorem nestedClass_on_picked_movie_data :
    nestedClassesFromVariableDefinitions 2 [titlePickedMovieDataVariable]
        (addSynthesizedTypesAndFields asciiLower regularPlural movieSchema).1
      = .ok [.mk "Movie_Data" [{ Name := "title", KotlinType := "String", IsLast := true }] [] []] ∧
    parametersMirroring (pickedFieldsOf titlePickedMovieDataVariable movieDataDefinition)
      = [{ Name := "title", KotlinType := "String", IsLast := true }] ∧
    ((∃ cls ∈ [kotlinClass.mk "Movie_Data"
          [{ Name := "title", KotlinType := "String", IsLast := true }] [] []],
        cls.Name = leafTypeNameOf titlePickedMovieDataVariable.Type_) ∧
      ∀ cls ∈ [kotlinClass.mk "Movie_Data"
          [{ Name := "title", KotlinType := "String", IsLast := true }] [] []],
        cls.Name = leafTypeNameOf titlePickedMovieDataVariable.Type_ →
        cls.ConstructorParameters
          = parametersMirroring (pickedFieldsOf titlePickedMovieDataVariable movieDataDefinition)) :=
  ⟨rfl, by decide,
   nestedClass_of_picked_variable 2
     (addSynthesizedTypesAndFields asciiLower regularPlural movieSchema).1 []
     titlePickedMovieDataVariable [] 14 movieDataDefinition _ (by decide) (by decide)
     (by decide) rfl (by simp) rfl⟩

/-! ## Termination of the nested-class worklist on a consistent schema -/

theorem lookupType_mem_keys (schema : Schema) (n : String) (p : Nat) (D : Definition)
    (h : schema.lookupType n = some (p, D)) :
    (n, p) ∈ schema.Types ∧ schema.heap[p]? = some D := by
  unfold Schema.lookupType at h
  cases hg : mapGet schema.Types n with
  | none => rw [hg] at h; simp at h
  | some p' =>
    rw [hg] at h
    simp only at h
    cases hh : schema.heap[p']? with
    | none => rw [hh] at h; simp at h
    | some D' =>
      rw [hh] at h
      simp only at h
      injection h with h
      injection h with h1 h2
      subst h1 h2
      exact ⟨mem_of_mapGet _ _ _ hg, hh⟩

theorem lookupType_closed (schema : Schema) (hc : schema.Closed) (n : String) (p : Nat)
    (D : Definition) (h : schema.lookupType n = some (p, D)) : fieldsResolve schema D.Fields := by
  obtain ⟨h1, h2⟩ := lookupType_mem_keys schema n p D h
  exact hc (n, p) h1 D (by simp [h2])

theorem unexpandedTypeCount_mapSet (schema : Schema) (d : List (String × Definition))
    (n : String) (F : Definition) (hn : n ∈ mapKeys schema.Types) (hd : mapGet d n = none) :
    unexpandedTypeCount schema (mapSet d n F) + 1 = unexpandedTypeCount schema d := by
  unfold unexpandedTypeCount
  have hnot : n ∉ mapKeys d := (mapGet_eq_none_iff d n).1 hd
  have hset : (mapKeys (mapSet d n F)).toFinset = insert n (mapKeys d).toFinset := by
    ext k
    simp only [List.mem_toFinset, Finset.mem_insert]
    exact mem_mapKeys_mapSet d n k F
  rw [hset, Finset.sdiff_insert]
  apply Finset.card_erase_add_one
  simp only [Finset.mem_sdiff, List.mem_toFinset]
  exact ⟨hn, hnot⟩

theorem unexpandedTypeCount_le (schema : Schema) (d : List (String × Definition)) :
    unexpandedTypeCount schema d ≤ schema.Types.length := by
  unfold unexpandedTypeCount
  calc ((mapKeys schema.Types).toFinset \ (mapKeys d).toFinset).card
      ≤ (mapKeys schema.Types).toFinset.card := Finset.card_le_card Finset.sdiff_subset
    _ ≤ (mapKeys schema.Types).length := List.toFinset_card_le _
    _ = schema.Types.length := by simp [mapKeys]

theorem expandNestedFields_total (schema : Schema) (a : Option VariableDefinition) :
    ∀ (fs : List FieldDefinition) (q : List String) (d : List (String × Definition)),
      fieldsResolve schema fs →
      ∃ q' d', expandNestedFields schema a fs q d = .ok (q', d') ∧
        q'.length + unexpandedTypeCount schema d' ≤ q.length + unexpandedTypeCount schema d := by
  intro fs
  induction fs with
  | nil =>
    intro q d _
    exact ⟨q, d, rfl, le_refl _⟩
  | cons f rest ih =>
    intro q d hres
    have hrest : fieldsResolve schema rest :=
      fun g hg hs => hres g (List.mem_cons_of_mem _ hg) hs
    simp only [expandNestedFields]
    by_cases hs : isScalarType f.Type_ = true
    · rw [if_pos hs]
      exact ih q d hrest
    · rw [if_neg hs]
      cases hg : mapGet d (namedTypeOfInnermostElemOfType f.Type_).NamedType with
      | some D0 => exact ih q d hrest
      | none =>
        simp only
        have hf := hres f (List.mem_cons_self _ _) (by simpa using hs)
        unfold leafTypeNameOf at hf
        cases hl : schema.lookupType (namedTypeOfInnermostElemOfType f.Type_).NamedType with
        | none => rw [hl] at hf; simp at hf
        | some pd =>
          obtain ⟨p, F⟩ := pd
          simp only
          obtain ⟨q', d', he, hle⟩ := ih
            (q ++ [(namedTypeOfInnermostElemOfType f.Type_).NamedType])
            (mapSet d (namedTypeOfInnermostElemOfType f.Type_).NamedType F) hrest
          refine ⟨q', d', he, ?_⟩
          have hkey : (namedTypeOfInnermostElemOfType f.Type_).NamedType ∈ mapKeys schema.Types :=
            List.mem_map.2 ⟨_, (lookupType_mem_keys schema _ p F hl).1, rfl⟩
          have hstep := unexpandedTypeCount_mapSet schema d _ F hkey hg
          rw [List.length_append, List.length_singleton] at hle
          omega

theorem nestedWorklist_total (schema : Schema) (hc : schema.Closed)
    (vmap : List (String × VariableDefinition)) :
    ∀ (fuel : Nat) (q : List String) (d : List (String × Definition)) (acc : List kotlinClass),
      (∀ n ∈ q, mapGet d n ≠ none) →
      (∀ n D, mapGet d n = some D → fieldsResolve schema D.Fields) →
      q.length + unexpandedTypeCount schema d ≤ fuel →
      ∃ classes, nestedWorklist schema vmap fuel q d acc = .ok classes := by
  intro fuel
  induction fuel with
  | zero =>
    intro q d acc _ _ hfuel
    cases q with
    | nil => exact ⟨acc, rfl⟩
    | cons n q0 => simp at hfuel
  | succ fuel ih =>
    intro q d acc hq hd hfuel
    cases q with
    | nil => exact ⟨acc, rfl⟩
    | cons n q0 =>
      simp only [nestedWorklist]
      cases hg : mapGet d n with
      | none => exact absurd hg (hq n (List.mem_cons_self _ _))
      | some D =>
        simp only
        obtain ⟨q', d', he, hle⟩ := expandNestedFields_total schema (mapGet vmap n) D.Fields q0 d
          (hd n D hg)
        rw [he]
        simp only
        obtain ⟨added, hq', hkeep, hnone, hadded⟩ :=
          expandNestedFields_spec schema _ _ _ _ _ _ he
        apply ih
        · intro m hm
          rw [hq'] at hm
          rcases List.mem_append.1 hm with h1 | h1
          · cases hm' : mapGet d m with
            | none => exact absurd hm' (hq m (List.mem_cons_of_mem _ h1))
            | some D' => rw [hkeep _ _ hm']; simp
          · obtain ⟨_, p, D', _, h2⟩ := hadded m h1
            rw [h2]
            simp
        · intro m D' hm
          cases hm' : mapGet d m with
          | some D'' =>
            rw [hkeep _ _ hm'] at hm
            injection hm with hm
            subst hm
            exact hd m _ hm'
          | none =>
            by_cases hin : m ∈ added
            · obtain ⟨_, p, D'', h1, h2⟩ := hadded m hin
              rw [h2] at hm
              injection hm with hm
              subst hm
              exact lookupType_closed schema hc m p _ h1
            · rw [hnone m hm' hin] at hm
              simp at hm
        · simp only [List.length_cons] at hfuel
          omega

/-! ## The response class of a single selected field -/

theorem filter_names_filter (fields : List FieldDefinition) (names : List String) :
    (fields.filter fun f => decide (f.Name ∈
        (fields.filter fun g => decide (g.Name ∈ names)).map fun g => g.Name))
      = fields.filter fun g => decide (g.Name ∈ names) := by
  apply List.filter_congr
  intro f hf
  by_cases hP : f.Name ∈ names
  · rw [decide_eq_true hP, decide_eq_true]
    exact List.mem_map.2 ⟨f, List.mem_filter.2 ⟨hf, decide_eq_true hP⟩, rfl⟩
  · rw [decide_eq_false hP, decide_eq_false]
    intro hc
    obtain ⟨g, hg, hn⟩ := List.mem_map.1 hc
    have := (List.mem_filter.1 hg).2
    rw [decide_eq_true_eq, hn] at this
    exact hP this

/-- The nested classes of a single seeded variable over a schema whose fields resolve:
with enough fuel the worklist returns, its first class is the class of the seeded type,
built from the picked fields, and no later class bears that name. -/
theorem nestedClasses_of_single_seed (schema : Schema) (hc : schema.Closed)
    (vd : VariableDefinition) (p : Nat) (T : Definition)
    (hns : isScalarType vd.Type_ = false)
    (hT : schema.lookupType (leafTypeNameOf vd.Type_) = some (p, T))
    (hnb : T.BuiltIn = false)
    (fuel : Nat) (hfuel : schema.Types.length + 1 ≤ fuel) :
    ∃ others,
      nestedClassesFromVariableDefinitions fuel [vd] schema
        = .ok (.mk (leafTypeNameOf vd.Type_)
            (constructorParametersFromFieldDefinitions (deleteUnpickedFields T.Fields vd)) [] []
          :: others) ∧
      ∀ cls ∈ others, cls.Name ≠ leafTypeNameOf vd.Type_ := by
  have hseed := seedNestedTypes_cons_object schema vd []
    { nestedTypeNames := [], nestedTypeDefinitionByName := [],
      variableDefinitionByNestedTypeName := [] } p T hns hT hnb
  obtain ⟨k, hk⟩ : ∃ k, fuel = k + 1 := ⟨fuel - 1, by omega⟩
  subst hk
  generalize hF : deleteUnpickedFields T.Fields vd = F at hseed ⊢
  have hFres : fieldsResolve schema F := by
    intro f hf hs
    rw [← hF] at hf
    unfold deleteUnpickedFields at hf
    exact lookupType_closed schema hc _ p T hT f (List.mem_filter.1 hf).1 hs
  generalize hD : ({ T with Fields := F } : Definition) = D at hseed
  have hDF : D.Fields = F := by rw [← hD]
  generalize hleafname : leafTypeNameOf vd.Type_ = leaf at hseed ⊢
  obtain ⟨q', d', he, hle⟩ := expandNestedFields_total schema
    (mapGet (mapSet [] leaf vd) leaf) F [] (mapSet [] leaf D) hFres
  obtain ⟨added, hq', hkeep, hnone, hadded⟩ := expandNestedFields_spec schema _ _ _ _ _ _ he
  have hleaf : mapGet d' leaf = some D := hkeep _ _ (mapGet_mapSet_self _ _ _)
  obtain ⟨classes, hrun⟩ := nestedWorklist_total schema hc (mapSet [] leaf vd) k q' d'
    [.mk leaf (constructorParametersFromFieldDefinitions F) [] []]
    (by
      intro m hm
      rw [hq', List.nil_append] at hm
      obtain ⟨_, p', D', _, h2⟩ := hadded m hm
      rw [h2]
      simp)
    (by
      intro m D' hm
      by_cases hin : m ∈ added
      · obtain ⟨_, p', D'', h1, h2⟩ := hadded m hin
        rw [h2] at hm
        injection hm with hm
        subst hm
        exact lookupType_closed schema hc m p' _ h1
      · by_cases hml : m = leaf
        · subst hml
          rw [hleaf] at hm
          injection hm with hm
          subst hm
          rw [hDF]
          exact hFres
        · rw [hnone m (by rw [mapGet_mapSet_ne _ _ _ _ hml]; rfl) hin] at hm
          simp at hm)
    (by
      have := unexpandedTypeCount_le schema (mapSet [] leaf D)
      simp only [List.length_nil] at hle
      omega)
  obtain ⟨new, hcl, _, hprop⟩ := nestedWorklist_spec schema _ _ _ _ _ _ hrun
  refine ⟨new, ?_, ?_⟩
  · unfold nestedClassesFromVariableDefinitions
    rw [hseed]
    rw [mapGet_mapSet_self] at he
    simp only [seedNestedTypes, nestedWorklist, mapGet_mapSet_self, List.nil_append, hDF, he,
      hrun, hcl]
    rfl
  · intro cls hcls hname
    rcases (hprop cls hcls).1 with h1 | h1
    · rw [hq', List.nil_append] at h1
      have := (hadded _ h1).1
      rw [hname, mapGet_mapSet_self] at this
      simp at this
    · rw [hname, hleaf] at h1
      simp at h1

/-- Claim C13, amended. Over a schema in which the fields of every type resolve, for every
operation whose response selection has a single top-level field `f` whose type is not
scalar and has as leaf type a non-built-in type `T` of the schema, with a non-empty
sub-selection `S` of plain fields: given enough fuel (one more than the number of types),
`kotlinClassForSelectionSet` returns a response class with one constructor parameter named
`f` of the rendered type of `f`, no secondary constructor, and nested classes that start
with a class named after `T` whose constructor parameters are exactly the fields of `T`
named in `S`, in the declaration order of `T`; no other nested class bears that name. -/
theorem responseClass_of_single_object_field (schema : Schema) (name fname : String)
    (fdef : FieldDefinition) (S : List Selection) (p : Nat) (T : Definition)
    (hc : schema.Closed)
    (hns : isScalarType fdef.Type_ = false)
    (hT : schema.lookupType (leafTypeNameOf fdef.Type_) = some (p, T))
    (hnb : T.BuiltIn = false)
    (hS : S ≠ [])
    (hplain : ∀ s ∈ S, s.isField = true)
    (fuel : Nat) (hfuel : schema.Types.length + 1 ≤ fuel) :
    ∃ others,
      kotlinClassForSelectionSet fuel name [.Field fname fdef S] schema
        = .ok (some (.mk name
            [{ Name := fname, KotlinType := kotlinTypeFromTypeNode fdef.Type_, IsLast := true }]
            []
            (.mk (leafTypeNameOf fdef.Type_)
                (parametersMirroring
                  (T.Fields.filter fun f => decide (f.Name ∈ selectedFieldNames S))) [] []
              :: others))) ∧
      ∀ cls ∈ others, cls.Name ≠ leafTypeNameOf fdef.Type_ := by
  have hlen : ¬ S.length = 0 := fun h => hS (List.length_eq_zero.1 h)
  have hT' := hT
  unfold leafTypeNameOf at hT'
  obtain ⟨others, hrun, hothers⟩ := nestedClasses_of_single_seed schema hc
    { Variable := fname, Type_ := fdef.Type_, Directives := [],
      Definition := { T with Fields :=
        (T.Fields.filter fun f => decide (f.Name ∈ selectedFieldNames S)) } }
    p T hns hT hnb fuel hfuel
  have hdel : deleteUnpickedFields T.Fields
      { Variable := fname, Type_ := fdef.Type_, Directives := [],
        Definition := { T with Fields :=
          (T.Fields.filter fun f => decide (f.Name ∈ selectedFieldNames S)) } }
      = T.Fields.filter fun f => decide (f.Name ∈ selectedFieldNames S) :=
    filter_names_filter T.Fields (selectedFieldNames S)
  rw [hdel] at hrun
  refine ⟨others, ?_, hothers⟩
  simp only [kotlinClassForSelectionSet, List.length_singleton, one_ne_zero, if_false,
    fieldsFromSelections, fieldFromSelection, variableDefinitionsOfFields, hT',
    fieldsSelectedBySelectionSet_total _ _ hplain, if_neg hlen,
    kotlinClassForVariableDefinitions, hrun, Bool.not_false, if_true]
  rfl

/-- Claim C13 fails as stated. With the built-in object type `__Schema` the response class for
`{ __schema { description } }` has the parameter `__schema: __Schema` and no nested class
at all; with `type Basket { item: Missing }`, `Missing` undeclared, the build for
`{ basket { item } }` returns an error and no class. -/
theorem responseClass_has_no_nested_class_for_built_in_type :
    introspectionSchema.lookupType "__Schema"
      = some (1, { Kind := .Object, Name := "__Schema", BuiltIn := true
                   Fields := [plainField "description" (.leaf "String" false)] }) ∧
    kotlinClassForSelectionSet 3 "GetSchemaData" introspectionSelections introspectionSchema
      = .ok (some (.mk "GetSchemaData"
          [{ Name := "__schema", KotlinType := "__Schema", IsLast := true }] [] [])) ∧
    kotlinClassForSelectionSet 4 "GetBasketData" basketItemSelections missingTypeSchema
      = .error "schema.Types is missing type defined by variable \"basket\": Missing" :=
  ⟨by decide, rfl, rfl⟩

/-- Claim C13, witness: selecting `movie { id title }` over the movie schema gives the parameter
`movie: Movie` and a nested class `Movie` with only `id` and `title`, although `Movie`
also has the field `studio`. -/
theorem responseClass_on_movie_id_title :
    kotlinClassForSelectionSet 10 "GetMovieData" movieIdTitleSelections movieSchema
      = .ok (some (.mk "GetMovieData" [{ Name := "movie", KotlinType := "Movie", IsLast := true }]
          []
          [.mk "Movie" [{ Name := "id", KotlinType := "String", IsLast := false },
                        { Name := "title", KotlinType := "String", IsLast := true }] [] []])) ∧
    ∃ others,
      kotlinClassForSelectionSet 10 "GetMovieData"
          [.Field "movie" (plainField "movie" (.leaf "Movie" true))
            [.Field "id" (plainField "id" (.leaf "ID" true)) [],
             .Field "title" (plainField "title" (.leaf "String" true)) []]] movieSchema
        = .ok (some (.mk "GetMovieData"
            [{ Name := "movie",
               KotlinType := kotlinTypeFromTypeNode (plainField "movie" (.leaf "Movie" true)).Type_,
               IsLast := true }]
            []
            (.mk (leafTypeNameOf (plainField "movie" (.leaf "Movie" true)).Type_)
                (parametersMirroring
                  (movieDefinition.Fields.filter fun f => decide (f.Name ∈ selectedFieldNames
                    [.Field "id" (plainField "id" (.leaf "ID" true)) [],
                     .Field "title" (plainField "title" (.leaf "String" true)) []]))) [] []
              :: others))) ∧
      ∀ cls ∈ others, cls.Name ≠ leafTypeNameOf (plainField "movie" (.leaf "Movie" true)).Type_ :=
  ⟨rfl,
   responseClass_of_single_object_field movieSchema "GetMovieData" "movie"
     (plainField "movie" (.leaf "Movie" true))
     [.Field "id" (plainField "id" (.leaf "ID" true)) [],
      .Field "title" (plainField "title" (.leaf "String" true)) []]
     7 movieDefinition (by decide) (by decide) (by decide) (by decide) (by simp)
     (by
       intro s hs
       simp only [List.mem_cons, List.mem_singleton, List.not_mem_nil, or_false] at hs
       rcases hs with h | h <;> subst h <;> rfl)
     10 (by decide)⟩

/-! ## The order of the synthesized fields -/

theorem mapGet_perm {β : Type} (m m' : List (String × β)) (hnd : (mapKeys m).Nodup)
    (hp : m'.Perm m) (k : String) : mapGet m' k = mapGet m k := by
  have hkeys : (mapKeys m').Perm (mapKeys m) := hp.map _
  cases hg : mapGet m k with
  | none =>
    rw [mapGet_eq_none_iff] at hg ⊢
    exact fun hc => hg (hkeys.mem_iff.1 hc)
  | some v =>
    exact mapGet_of_mem m' k v (hkeys.nodup_iff.2 hnd) (hp.mem_iff.2 (mem_of_mapGet m k v hg))

theorem eq_flatMap_pair {α β : Type} (f g : α → β) :
    ∀ (l : List α) (G : List β), G.length = 2 * l.length →
      (∀ i a, l[i]? = some a → G[2 * i]? = some (f a) ∧ G[2 * i + 1]? = some (g a)) →
      G = l.flatMap fun a => [f a, g a] := by
  intro l
  induction l with
  | nil =>
    intro G hlen _
    simp only [List.length_nil, Nat.mul_zero] at hlen
    rw [List.length_eq_zero.1 hlen]
    rfl
  | cons a rest ih =>
    intro G hlen hget
    match G, hlen, hget with
    | [], hlen, _ => simp at hlen
    | [_], hlen, _ => simp at hlen; omega
    | x :: y :: G', hlen, hget =>
      obtain ⟨h0, h1⟩ := hget 0 a (by simp)
      simp only [Nat.mul_zero, List.getElem?_cons_zero, Option.some.injEq] at h0
      simp only [Nat.mul_zero, Nat.zero_add, List.getElem?_cons_succ, List.getElem?_cons_zero,
        Option.some.injEq] at h1
      have hrest := ih G' (by simp only [List.length_cons] at hlen; omega) (by
        intro i b hb
        have := hget (i + 1) b (by simpa using hb)
        have e1 : 2 * (i + 1) = 2 * i + 1 + 1 := by omega
        rw [e1] at this
        simpa using this)
      rw [List.flatMap_cons, h0, h1, hrest]
      rfl

section Library

variable (ToLower Plural : String → String)

theorem relationFieldsFor_congr (s t : Schema) (names : List String) (target : Nat)
    (h : ∀ k, t.lookupType k = s.lookupType k) :
    relationFieldsFor ToLower Plural t names target
      = relationFieldsFor ToLower Plural s names target := by
  unfold relationFieldsFor
  have hf : relationFieldOf ToLower Plural t = relationFieldOf ToLower Plural s := by
    funext owner tg f
    unfold relationFieldOf
    rw [h]
  simp only [h, hf]

theorem markers_lookupType_congr (s t : Schema) (hheap : t.heap = s.heap)
    (hget : ∀ k, mapGet t.Types k = mapGet s.Types k) (k : String) :
    (addSyntheticTypesForSdkTypesToSchema t).lookupType k
      = (addSyntheticTypesForSdkTypesToSchema s).lookupType k := by
  have hm : mapGet (addSyntheticTypesForSdkTypesToSchema t).Types k
      = mapGet (addSyntheticTypesForSdkTypesToSchema s).Types k := by
    rw [markers_types, markers_types, hheap]
    by_cases h3 : k = "sdk:MutationRef.DeleteData"
    · subst h3
      rw [mapGet_mapSet_self, mapGet_mapSet_self]
    · rw [mapGet_mapSet_ne _ _ _ _ h3, mapGet_mapSet_ne _ _ _ _ h3]
      by_cases h2 : k = "sdk:MutationRef.UpdateData"
      · subst h2
        rw [mapGet_mapSet_self, mapGet_mapSet_self]
      · rw [mapGet_mapSet_ne _ _ _ _ h2, mapGet_mapSet_ne _ _ _ _ h2]
        by_cases h1 : k = "sdk:MutationRef.InsertData"
        · subst h1
          rw [mapGet_mapSet_self, mapGet_mapSet_self]
        · rw [mapGet_mapSet_ne _ _ _ _ h1, mapGet_mapSet_ne _ _ _ _ h1]
          exact hget k
  unfold Schema.lookupType
  rw [hm, markers_heap, markers_heap, hheap]

/-- The fields of the two roots after a successful augmentation, written from the names
of the original types in the order of the snapshot. -/
theorem augmentation_root_fields_in_snapshot_order (s s' : Schema) (mutation query : Nat)
    (hwf : s.WellFormed) (hm : s.Mutation = some mutation) (hq : s.Query = some query)
    (hqm : s.Query ≠ s.Mutation)
    (h : addSynthesizedTypesAndFields ToLower Plural s = (s', .ok ())) :
    (∃ M0 M', s.heap[mutation]? = some M0 ∧ s'.heap[mutation]? = some M' ∧
      M'.Fields = M0.Fields ++ relationFieldsFor ToLower Plural
          (addSyntheticTypesForSdkTypesToSchema s) (originalTypeNames s) mutation ++
        (originalTypeNames s).flatMap fun name =>
          mutationFieldsFor ToLower name (name ++ "_Data")) ∧
    (∃ Q0 Q' G, s.heap[query]? = some Q0 ∧ s'.heap[query]? = some Q' ∧
      Q'.Fields = Q0.Fields ++ relationFieldsFor ToLower Plural
          (addSyntheticTypesForSdkTypesToSchema s) (originalTypeNames s) query ++ G ∧
      G.map (fun f => f.Name) = (originalTypeNames s).flatMap fun name =>
        [ToLower name, Plural (ToLower name)]) := by
  obtain ⟨s3, s4, infos, h2, h3, h4, h5, hlen2, hlt2, hname2, hnameo⟩ :=
    augmentation_stages ToLower Plural s s' h
  generalize schemaAfterRelationPass ToLower Plural s = s2 at h2 h3 hlen2 hlt2 hname2 hnameo ⊢
  obtain ⟨r1, r2, r3, r4, r5⟩ := relationPass_spec ToLower Plural _ s2 _ h2
  rw [markers_query] at r2
  rw [markers_mutation] at r3
  obtain ⟨i1, i2, i3, i4, _, _, i7, _⟩ :=
    addSynthesizedInputTypes_inv (originalTypes s) s2 s3 infos hlt2 h3
  obtain ⟨m1, m2, m3, m4, _, m6⟩ := addMutationFields_inv ToLower infos s3 s4 h4
  obtain ⟨q1, q2, q3, q4, _, q6, q7, q8⟩ := addQueryFields_inv ToLower Plural infos s4 s' h5
  constructor
  · have hmlt : mutation < s.heap.length := hwf.2.2.2 mutation (by rw [hm]; rfl)
    have hM0 : s.heap[mutation]? = some s.heap[mutation] := List.getElem?_eq_getElem hmlt
    have hM1 : (addSyntheticTypesForSdkTypesToSchema s).heap[mutation]? = some s.heap[mutation] := by
      rw [markers_getElem?_lt s mutation hmlt, hM0]
    have hM2 := r5 mutation _ hM1
    have hM3 : s3.heap[mutation]? = s2.heap[mutation]? := i4 mutation (by omega)
    have hmut3 : s3.Mutation = some mutation := by rw [i2, r3, hm]
    have hq4 : s4.Query ≠ some mutation := by
      rw [m2, i1, r2]
      intro hc
      exact hqm (by rw [hc, hm])
    have hflat : (infos.flatMap fun info =>
        mutationFieldsFor ToLower (nameAt s3.heap info.originalType) (nameAt s3.heap info.inputType))
        = (originalTypeNames s).flatMap fun name =>
            mutationFieldsFor ToLower name (name ++ "_Data") := by
      unfold originalTypeNames
      rw [List.flatMap_map]
      refine flatMap_eq_of_forall₂ _ _ _ infos (originalTypes s) i7 ?_
      intro info p ⟨a1, _, a3⟩ hp
      have hplt : p < s2.heap.length := hlt2 p hp
      have hp3 : s3.heap[p]? = s2.heap[p]? := i4 p hplt
      have hp2 : s2.heap[p]? = some s2.heap[p] := List.getElem?_eq_getElem hplt
      have hn2 : s2.heap[p].Name = nameAt s.heap p := by
        rw [← hnameo p hp]
        simp [nameAt, hp2]
      have e1 : nameAt s3.heap info.originalType = nameAt s.heap p := by
        rw [a1]
        simp [nameAt, hp3, hp2, hn2]
      have e2 : nameAt s3.heap info.inputType = nameAt s.heap p ++ "_Data" := by
        simp [nameAt, a3, hp3, hp2, inputTypeOf, hn2]
      simp only [e1, e2, Function.comp]
    refine ⟨s.heap[mutation],
      { Kind := s.heap[mutation].Kind, Name := s.heap[mutation].Name
        Fields := (s.heap[mutation].Fields ++ relationFieldsFor ToLower Plural
          (addSyntheticTypesForSdkTypesToSchema s) (originalTypeNames s) mutation) ++
            (originalTypeNames s).flatMap fun name =>
              mutationFieldsFor ToLower name (name ++ "_Data")
        BuiltIn := s.heap[mutation].BuiltIn },
      hM0, ?_, rfl⟩
    rw [q6 mutation hq4, m6 mutation, hM3, hM2]
    simp only [Option.map_some', hmut3, if_true, hflat]
  · have hqlt : query < s.heap.length := hwf.2.2.1 query (by rw [hq]; rfl)
    have hQ0 : s.heap[query]? = some s.heap[query] := List.getElem?_eq_getElem hqlt
    have hQ1 : (addSyntheticTypesForSdkTypesToSchema s).heap[query]? = some s.heap[query] := by
      rw [markers_getElem?_lt s query hqlt, hQ0]
    have hQ2 := r5 query _ hQ1
    have hQ3 : s3.heap[query]? = s2.heap[query]? := i4 query (by omega)
    have hquery4 : s4.Query = some query := by rw [m2, i1, r2, hq]
    have hmut3 : s3.Mutation ≠ some query := by
      rw [i2, r3]
      intro hc
      exact hqm (by rw [hc, hq])
    have hQ4 : s4.heap[query]? = s2.heap[query]? := by
      rw [m6 query, hQ3]
      cases s2.heap[query]? with
      | none => rfl
      | some d => simp [hmut3]
    rw [hQ2] at hQ4
    obtain ⟨G, g1, g2, g3⟩ := q8 query _ hquery4 hQ4
    have hlen : infos.length = (originalTypes s).length := List.Forall₂.length_eq i7
    refine ⟨s.heap[query], _, G, hQ0, g1, rfl, ?_⟩
    have hG := eq_flatMap_pair (fun p => ToLower (nameAt s.heap p))
      (fun p => Plural (ToLower (nameAt s.heap p))) (originalTypes s)
      (G.map fun f => f.Name) (by rw [List.length_map, g2, hlen]) (by
        intro i p hp
        obtain ⟨info, hinfo, a1, _, _⟩ := forall₂_getElem? _ infos (originalTypes s) i7 i p hp
        obtain ⟨T4, t1, t2, t3⟩ := g3 i info hinfo
        rw [a1] at t1
        have hpmem : p ∈ originalTypes s := List.getElem?_mem hp
        have hplt : p < s2.heap.length := hlt2 p hpmem
        have hname4 : T4.Name = nameAt s.heap p := by
          have e4 : nameAt s4.heap p = T4.Name := by simp [nameAt, t1]
          have e3 : nameAt s4.heap p = nameAt s3.heap p := by
            apply nameAt_eq_of_getElem?
            rw [m6 p]
            cases s3.heap[p]? with
            | none => rfl
            | some d =>
              simp only [Option.map_some']
              split <;> rfl
          have e2 : nameAt s3.heap p = nameAt s2.heap p :=
            nameAt_eq_of_getElem? _ _ _ (by rw [i4 p hplt])
          rw [← e4, e3, e2, hnameo p hpmem]
        rw [List.getElem?_map, List.getElem?_map, t2, t3]
        simp [singularQueryFieldFor, pluralQueryFieldFor, hname4])
    rw [hG]
    unfold originalTypeNames
    rw [List.flatMap_map]

end Library

/-- Two lists that hold two entries per element of `l`, each entry computed from the
element and from the entries before it by the same functions, are equal. -/
theorem eq_of_same_pair_recurrence {α β : Type} (fa fb : α → List β → β) (l : List α)
    (G G' : List β) (hl : G.length = 2 * l.length) (hl' : G'.length = 2 * l.length)
    (hG : ∀ i a, l[i]? = some a →
      G[2 * i]? = some (fa a (G.take (2 * i))) ∧ G[2 * i + 1]? = some (fb a (G.take (2 * i))))
    (hG' : ∀ i a, l[i]? = some a →
      G'[2 * i]? = some (fa a (G'.take (2 * i))) ∧
      G'[2 * i + 1]? = some (fb a (G'.take (2 * i)))) :
    G = G' := by
  have key : ∀ k, k ≤ l.length → G.take (2 * k) = G'.take (2 * k) := by
    intro k
    induction k with
    | zero => intro _; simp
    | succ k ih =>
      intro hk
      have hklt : k < l.length := by omega
      have hlk : l[k]? = some l[k] := List.getElem?_eq_getElem hklt
      obtain ⟨a1, a2⟩ := hG k _ hlk
      obtain ⟨b1, b2⟩ := hG' k _ hlk
      have e : 2 * (k + 1) = 2 * k + 1 + 1 := by omega
      rw [e, List.take_succ, List.take_succ, List.take_succ, List.take_succ, a1, a2, b1, b2,
        ih (by omega)]
  have h1 := key l.length (le_refl _)
  rw [← hl, List.take_length] at h1
  rw [h1, hl, ← hl', List.take_length]

section Library

variable (ToLower Plural : String → String)

/-- Two enumerations of the same schema that meet the original types in the same order
give every type the same fields at the start of the query pass. -/
theorem fieldsAfterMutationPass_congr (s t : Schema) (hheap : t.heap = s.heap)
    (hm : t.Mutation = s.Mutation) (hget : ∀ k, mapGet t.Types k = mapGet s.Types k)
    (ho : originalTypes t = originalTypes s) (p : Nat) :
    fieldsAfterMutationPass ToLower Plural t p = fieldsAfterMutationPass ToLower Plural s p := by
  have hnames : originalTypeNames t = originalTypeNames s := by
    unfold originalTypeNames
    rw [ho, hheap]
  unfold fieldsAfterMutationPass
  rw [hheap, hm, hnames,
    relationFieldsFor_congr ToLower Plural _ _ _ _ (markers_lookupType_congr s t hheap hget)]

/-- The cells of the input schema after a successful augmentation, and the fields that
the query pass appends, written from the original types in the order of the snapshot. -/
theorem augmentation_cells_in_snapshot_order (s s' : Schema)
    (h : addSynthesizedTypesAndFields ToLower Plural s = (s', .ok ())) :
    ∃ G : List FieldDefinition,
      G.length = 2 * (originalTypes s).length ∧
      (∀ i p, (originalTypes s)[i]? = some p →
        G[2 * i]? = some (singularQueryFieldFor ToLower (nameAt s.heap p)
          (fieldsAfterMutationPass ToLower Plural s p ++
            if s.Query = some p then G.take (2 * i) else [])) ∧
        G[2 * i + 1]? = some (pluralQueryFieldFor ToLower Plural (nameAt s.heap p)
          (fieldsAfterMutationPass ToLower Plural s p ++
            if s.Query = some p then G.take (2 * i) else []))) ∧
      ∀ (target : Nat) (R : Definition), s.heap[target]? = some R →
        s'.heap[target]? = some { R with
          Fields := fieldsAfterMutationPass ToLower Plural s target ++
            if s.Query = some target then G else [] } := by
  obtain ⟨s3, s4, infos, h2, h3, h4, h5, hlen2, hlt2, hname2, hnameo⟩ :=
    augmentation_stages ToLower Plural s s' h
  generalize schemaAfterRelationPass ToLower Plural s = s2 at h2 h3 hlen2 hlt2 hname2 hnameo
  obtain ⟨r1, r2, r3, r4, r5⟩ := relationPass_spec ToLower Plural _ s2 _ h2
  rw [markers_query] at r2
  rw [markers_mutation] at r3
  obtain ⟨i1, i2, i3, i4, _, _, i7, _⟩ :=
    addSynthesizedInputTypes_inv (originalTypes s) s2 s3 infos hlt2 h3
  obtain ⟨m1, m2, m3, m4, _, m6⟩ := addMutationFields_inv ToLower infos s3 s4 h4
  obtain ⟨q1, q2, q3, q4, q5, q6, q7, q8⟩ := addQueryFields_inv ToLower Plural infos s4 s' h5
  have hlen : infos.length = (originalTypes s).length := List.Forall₂.length_eq i7
  have hquery4 : s4.Query = s.Query := by rw [m2, i1, r2]
  have hmut3 : s3.Mutation = s.Mutation := by rw [i2, r3]
  have hflat : (infos.flatMap fun info =>
      mutationFieldsFor ToLower (nameAt s3.heap info.originalType) (nameAt s3.heap info.inputType))
      = (originalTypeNames s).flatMap fun name =>
          mutationFieldsFor ToLower name (name ++ "_Data") := by
    unfold originalTypeNames
    rw [List.flatMap_map]
    refine flatMap_eq_of_forall₂ _ _ _ infos (originalTypes s) i7 ?_
    intro info p ⟨a1, _, a3⟩ hp
    have hplt : p < s2.heap.length := hlt2 p hp
    have hp3 : s3.heap[p]? = s2.heap[p]? := i4 p hplt
    have hp2 : s2.heap[p]? = some s2.heap[p] := List.getElem?_eq_getElem hplt
    have hn2 : s2.heap[p].Name = nameAt s.heap p := by
      rw [← hnameo p hp]
      simp [nameAt, hp2]
    have e1 : nameAt s3.heap info.originalType = nameAt s.heap p := by
      rw [a1]
      simp [nameAt, hp3, hp2, hn2]
    have e2 : nameAt s3.heap info.inputType = nameAt s.heap p ++ "_Data" := by
      simp [nameAt, a3, hp3, hp2, inputTypeOf, hn2]
    simp only [e1, e2, Function.comp]
  have hcell4 : ∀ (target : Nat) (R : Definition), s.heap[target]? = some R →
      s4.heap[target]? = some { R with Fields := fieldsAfterMutationPass ToLower Plural s target } := by
    intro target R hR
    have htlt : target < s.heap.length := (List.getElem?_eq_some.1 hR).1
    have hR1 : (addSyntheticTypesForSdkTypesToSchema s).heap[target]? = some R := by
      rw [markers_getElem?_lt s target htlt, hR]
    have hR2 := r5 target R hR1
    have hR3 : s3.heap[target]? = s2.heap[target]? := i4 target (by omega)
    rw [m6 target, hR3, hR2]
    simp only [Option.map_some', hmut3, hflat]
    unfold fieldsAfterMutationPass
    rw [hR]
    simp only
    by_cases hmt : s.Mutation = some target
    · rw [if_pos hmt, if_pos hmt]
    · rw [if_neg hmt, if_neg hmt, List.append_nil]
  by_cases hroot : ∃ query d, s4.Query = some query ∧ s4.heap[query]? = some d
  · obtain ⟨query, d, hq4, hd⟩ := hroot
    have hq : s.Query = some query := by rw [← hquery4, hq4]
    obtain ⟨G, g1, g2, g3⟩ := q8 query d hq4 hd
    refine ⟨G, by rw [g2, hlen], ?_, ?_⟩
    · intro i p hp
      obtain ⟨info, hinfo, a1, _, _⟩ := forall₂_getElem? _ infos (originalTypes s) i7 i p hp
      obtain ⟨T4, t1, t2, t3⟩ := g3 i info hinfo
      rw [a1] at t1 t2 t3
      have hpmem : p ∈ originalTypes s := List.getElem?_mem hp
      have hplt : p < s.heap.length := originalTypes_lt s p hpmem
      have hRp : s.heap[p]? = some s.heap[p] := List.getElem?_eq_getElem hplt
      have hT4 := hcell4 p _ hRp
      rw [t1] at hT4
      injection hT4 with hT4
      have hname : T4.Name = nameAt s.heap p := by
        rw [hT4]
        simp [nameAt, hRp]
      have hfields : T4.Fields = fieldsAfterMutationPass ToLower Plural s p := by rw [hT4]
      by_cases hpq : p = query
      · subst hpq
        rw [hd] at t1
        injection t1 with t1
        simp only [if_true] at t2 t3
        rw [hq, if_pos rfl, t2, t3, t1, hname, hfields]
        exact ⟨rfl, rfl⟩
      · have hne : s.Query ≠ some p := by
          rw [hq]
          intro hc
          exact hpq (Option.some.inj hc).symm
        simp only [hpq, if_false] at t2 t3
        rw [if_neg hne, List.append_nil, t2, t3, hname, hfields]
        exact ⟨rfl, rfl⟩
    · intro target R hR
      have hc4 := hcell4 target R hR
      by_cases htq : target = query
      · subst htq
        rw [hd] at hc4
        injection hc4 with hc4
        rw [g1, hq, if_pos rfl, hc4]
      · have hne4 : s4.Query ≠ some target := by
          rw [hq4]
          intro hc
          exact htq (Option.some.inj hc).symm
        have hne : s.Query ≠ some target := by rw [← hquery4]; exact hne4
        rw [q6 target hne4, hc4, if_neg hne, List.append_nil]
  · have hinfos : infos = [] := by
      by_contra hne
      obtain ⟨q, hq4, hqlt⟩ := q5 hne
      exact hroot ⟨q, _, hq4, List.getElem?_eq_getElem hqlt⟩
    have hnil : originalTypes s = [] := by
      rw [hinfos] at hlen
      exact List.length_eq_zero.1 hlen.symm
    refine ⟨[], by rw [hnil]; rfl, ?_, ?_⟩
    · intro i p hp
      rw [hnil] at hp
      simp at hp
    · intro target R hR
      have hc4 := hcell4 target R hR
      have hne4 : s4.Query ≠ some target := fun hc => hroot ⟨target, _, hc, hc4⟩
      rw [q6 target hne4, hc4]
      simp

/-- Claim C20, amended. Augmentation orders its output by the enumeration of the type
mapping. After a successful augmentation, every type of the input schema has its original
fields, followed by the relation fields collected for it owner by owner in the order in
which the run enumerates the original types (the snapshot order), followed, for the
`Mutation` root, by the three mutation fields of every original type in that order,
followed, for the `Query` root, by the two query fields of every original type in that
order, each with its full arguments. That order is the iteration order of a map, not a
declaration order. Two augmentations of the same schema (same heap, same roots, same
mapping from names to types) that enumerate the original types in the same order leave
every type of the input schema with identical field sequences. -/
theorem augmentation_order_follows_enumeration (s s' : Schema)
    (h : addSynthesizedTypesAndFields ToLower Plural s = (s', .ok ())) :
    (∃ G : List FieldDefinition,
      G.length = 2 * (originalTypes s).length ∧
      (∀ i p, (originalTypes s)[i]? = some p →
        G[2 * i]? = some (singularQueryFieldFor ToLower (nameAt s.heap p)
          (fieldsAfterMutationPass ToLower Plural s p ++
            if s.Query = some p then G.take (2 * i) else [])) ∧
        G[2 * i + 1]? = some (pluralQueryFieldFor ToLower Plural (nameAt s.heap p)
          (fieldsAfterMutationPass ToLower Plural s p ++
            if s.Query = some p then G.take (2 * i) else []))) ∧
      ∀ (target : Nat) (R : Definition), s.heap[target]? = some R →
        s'.heap[target]? = some { R with
          Fields := fieldsAfterMutationPass ToLower Plural s target ++
            if s.Query = some target then G else [] }) ∧
    (∀ t t' : Schema, t.heap = s.heap → t.Query = s.Query → t.Mutation = s.Mutation →
      (∀ k, mapGet t.Types k = mapGet s.Types k) → originalTypes t = originalTypes s →
      addSynthesizedTypesAndFields ToLower Plural t = (t', .ok ()) →
      ∀ target : Nat, target < s.heap.length → t'.heap[target]? = s'.heap[target]?) := by
  obtain ⟨G, g1, g2, g3⟩ := augmentation_cells_in_snapshot_order ToLower Plural s s' h
  refine ⟨⟨G, g1, g2, g3⟩, ?_⟩
  intro t t' hheap htq htm hget ho ht target htlt
  obtain ⟨F, f1, f2, f3⟩ := augmentation_cells_in_snapshot_order ToLower Plural t t' ht
  have hcongr := fieldsAfterMutationPass_congr ToLower Plural s t hheap htm hget ho
  have hFG : F = G := by
    refine eq_of_same_pair_recurrence
      (fun p prev => singularQueryFieldFor ToLower (nameAt s.heap p)
        (fieldsAfterMutationPass ToLower Plural s p ++ if s.Query = some p then prev else []))
      (fun p prev => pluralQueryFieldFor ToLower Plural (nameAt s.heap p)
        (fieldsAfterMutationPass ToLower Plural s p ++ if s.Query = some p then prev else []))
      (originalTypes s) F G (by rw [f1, ho]) g1 ?_ g2
    intro i p hp
    have := f2 i p (by rw [ho]; exact hp)
    rw [hheap, htq, hcongr] at this
    exact this
  have hR : s.heap[target]? = some s.heap[target] := List.getElem?_eq_getElem htlt
  rw [g3 target _ hR, f3 target _ (by rw [hheap]; exact hR), hcongr, htq, hFG]

end Library

/-- Claim C20 fails as stated. `studioFirstMovieSchema` is the schema `movieSchema` with
its type mapping enumerated in another order; both augmentations succeed, and the
synthesized fields of `Mutation` and of `Query` come in different orders: the order of the
enumeration, not a declaration order that the mapping does not record. -/
theorem augmentation_order_differs_between_enumerations :
    studioFirstMovieSchema.heap = movieSchema.heap ∧
    studioFirstMovieSchema.Query = movieSchema.Query ∧
    studioFirstMovieSchema.Mutation = movieSchema.Mutation ∧
    studioFirstMovieSchema.Types.Perm movieSchema.Types ∧
    (addSynthesizedTypesAndFields asciiLower regularPlural movieSchema).2 = .ok () ∧
    (addSynthesizedTypesAndFields asciiLower regularPlural studioFirstMovieSchema).2 = .ok () ∧
    ((addSynthesizedTypesAndFields asciiLower regularPlural movieSchema).1.heap[6]?).map
      (fun d => d.Fields.map fun f => f.Name) =
      some ["query_insert", "query_delete", "query_update",
            "mutation_insert", "mutation_delete", "mutation_update",
            "movie_insert", "movie_delete", "movie_update",
            "studio_insert", "studio_delete", "studio_update"] ∧
    ((addSynthesizedTypesAndFields asciiLower regularPlural studioFirstMovieSchema).1.heap[6]?).map
      (fun d => d.Fields.map fun f => f.Name) =
      some ["query_insert", "query_delete", "query_update",
            "mutation_insert", "mutation_delete", "mutation_update",
            "studio_insert", "studio_delete", "studio_update",
            "movie_insert", "movie_delete", "movie_update"] ∧
    ((addSynthesizedTypesAndFields asciiLower regularPlural movieSchema).1.heap[5]?).map
      (fun d => d.Fields.map fun f => f.Name) =
      some ["query", "queries", "mutation", "mutations", "movie", "movies",
            "studio", "studios"] ∧
    ((addSynthesizedTypesAndFields asciiLower regularPlural studioFirstMovieSchema).1.heap[5]?).map
      (fun d => d.Fields.map fun f => f.Name) =
      some ["query", "queries", "mutation", "mutations", "studio", "studios",
            "movie", "movies"] := by
  decide

/-- Claim C20, witness: the augmentation of the scenario schema succeeds; its original
types are enumerated in the order `Query, Mutation, Movie, Studio`, and the enumeration
`floatFirstMovieSchema` of the same schema, which meets them in the same order, leaves
`Query` (address 5), `Mutation` (address 6) and `Studio` (address 8) exactly as the first
augmentation does. -/
theorem augmentation_order_on_movies :
    (addSynthesizedTypesAndFields asciiLower regularPlural movieSchema).2 = .ok () ∧
    originalTypeNames movieSchema = ["Query", "Mutation", "Movie", "Studio"] ∧
    originalTypes floatFirstMovieSchema = originalTypes movieSchema ∧
    ((addSynthesizedTypesAndFields asciiLower regularPlural movieSchema).1.heap[5]?).map
      (fun d => d.Fields.map fun f => f.Name) =
      some ["query", "queries", "mutation", "mutations", "movie", "movies",
            "studio", "studios"] ∧
    (addSynthesizedTypesAndFields asciiLower regularPlural floatFirstMovieSchema).1.heap[5]?
      = (addSynthesizedTypesAndFields asciiLower regularPlural movieSchema).1.heap[5]? ∧
    (addSynthesizedTypesAndFields asciiLower regularPlural floatFirstMovieSchema).1.heap[6]?
      = (addSynthesizedTypesAndFields asciiLower regularPlural movieSchema).1.heap[6]? ∧
    (addSynthesizedTypesAndFields asciiLower regularPlural floatFirstMovieSchema).1.heap[8]?
      = (addSynthesizedTypesAndFields asciiLower regularPlural movieSchema).1.heap[8]? ∧
    ∃ G : List FieldDefinition,
      G.length = 2 * (originalTypes movieSchema).length ∧
      (∀ i p, (originalTypes movieSchema)[i]? = some p →
        G[2 * i]? = some (singularQueryFieldFor asciiLower (nameAt movieSchema.heap p)
          (fieldsAfterMutationPass asciiLower regularPlural movieSchema p ++
            if movieSchema.Query = some p then G.take (2 * i) else [])) ∧
        G[2 * i + 1]? = some (pluralQueryFieldFor asciiLower regularPlural
          (nameAt movieSchema.heap p)
          (fieldsAfterMutationPass asciiLower regularPlural movieSchema p ++
            if movieSchema.Query = some p then G.take (2 * i) else []))) ∧
      ∀ (target : Nat) (R : Definition), movieSchema.heap[target]? = some R →
        (addSynthesizedTypesAndFields asciiLower regularPlural movieSchema).1.heap[target]? =
          some { R with
            Fields := fieldsAfterMutationPass asciiLower regularPlural movieSchema target ++
              if movieSchema.Query = some target then G else [] } :=
  ⟨by decide, by decide, by decide, by decide,
   (augmentation_order_follows_enumeration asciiLower regularPlural movieSchema
      (addSynthesizedTypesAndFields asciiLower regularPlural movieSchema).1
      (Prod.ext rfl (by decide))).2 floatFirstMovieSchema
      (addSynthesizedTypesAndFields asciiLower regularPlural floatFirstMovieSchema).1
      rfl rfl rfl
      (mapGet_perm movieSchema.Types floatFirstMovieSchema.Types (by decide) (by decide))
      (by decide) (Prod.ext rfl (by decide)) 5 (by decide),
   (augmentation_order_follows_enumeration asciiLower regularPlural movieSchema
      (addSynthesizedTypesAndFields asciiLower regularPlural movieSchema).1
      (Prod.ext rfl (by decide))).2 floatFirstMovieSchema
      (addSynthesizedTypesAndFields asciiLower regularPlural floatFirstMovieSchema).1
      rfl rfl rfl
      (mapGet_perm movieSchema.Types floatFirstMovieSchema.Types (by decide) (by decide))
      (by decide) (Prod.ext rfl (by decide)) 6 (by decide),
   (augmentation_order_follows_enumeration asciiLower regularPlural movieSchema
      (addSynthesizedTypesAndFields asciiLower regularPlural movieSchema).1
      (Prod.ext rfl (by decide))).2 floatFirstMovieSchema
      (addSynthesizedTypesAndFields asciiLower regularPlural floatFirstMovieSchema).1
      rfl rfl rfl
      (mapGet_perm movieSchema.Types floatFirstMovieSchema.Types (by decide) (by decide))
      (by decide) (Prod.ext rfl (by decide)) 8 (by decide),
   (augmentation_order_follows_enumeration asciiLower regularPlural movieSchema
      (addSynthesizedTypesAndFields asciiLower regularPlural movieSchema).1
      (Prod.ext rfl (by decide))).1⟩

/-! ## The relation pass applied to its own output, and to reordered names -/

section Library

variable (ToLower Plural : String → String)

theorem relationFieldsOfType_listTyped (schema : Schema) (owner : Definition) :
    ∀ extra : List FieldDefinition, (∀ g ∈ extra, g.Type_.Elem ≠ none) →
      relationFieldsOfType ToLower Plural schema owner extra = .ok [] := by
  intro extra
  induction extra with
  | nil => intro _; rfl
  | cons g rest ih =>
    intro h
    simp only [relationFieldsOfType]
    cases hg : g.Type_.Elem with
    | none => exact absurd hg (h g (List.mem_cons_self _ _))
    | some e => exact ih (fun g' hg' => h g' (List.mem_cons_of_mem _ hg'))

theorem relationFieldsOfType_append_listTyped (schema : Schema) (owner : Definition)
    (extra : List FieldDefinition) (hextra : ∀ g ∈ extra, g.Type_.Elem ≠ none) :
    ∀ fs : List FieldDefinition,
      relationFieldsOfType ToLower Plural schema owner (fs ++ extra)
        = relationFieldsOfType ToLower Plural schema owner fs := by
  intro fs
  induction fs with
  | nil =>
    rw [List.nil_append, relationFieldsOfType_listTyped ToLower Plural schema owner extra hextra]
    rfl
  | cons f rest ih =>
    simp only [List.cons_append, relationFieldsOfType, List.append_eq]
    rw [ih]

theorem relationFieldsOfType_congr (schema schema' : Schema) (ext : Nat → List FieldDefinition)
    (hlook : ∀ k, schema'.lookupType k = (schema.lookupType k).map fun pd =>
      (pd.1, { pd.2 with Fields := pd.2.Fields ++ ext pd.1 }))
    (owner owner' : Definition) (hname : owner'.Name = owner.Name) :
    ∀ fs : List FieldDefinition,
      relationFieldsOfType ToLower Plural schema' owner' fs
        = relationFieldsOfType ToLower Plural schema owner fs := by
  intro fs
  induction fs with
  | nil => rfl
  | cons f rest ih =>
    simp only [relationFieldsOfType]
    rw [ih, hlook, hname]
    cases f.Type_.Elem with
    | some e => rfl
    | none =>
      cases schema.lookupType f.Type_.NamedType with
      | none => rfl
      | some pd => rfl

theorem collectQueryRelationFields_congr (schema schema' : Schema)
    (ext : Nat → List FieldDefinition)
    (hlook : ∀ k, schema'.lookupType k = (schema.lookupType k).map fun pd =>
      (pd.1, { pd.2 with Fields := pd.2.Fields ++ ext pd.1 }))
    (hext : ∀ p, ∀ g ∈ ext p, g.Type_.Elem ≠ none) :
    ∀ names : List String,
      collectQueryRelationFields ToLower Plural schema' names
        = collectQueryRelationFields ToLower Plural schema names := by
  intro names
  induction names with
  | nil => rfl
  | cons n rest ih =>
    simp only [collectQueryRelationFields]
    rw [ih, hlook]
    cases schema.lookupType n with
    | none => rfl
    | some pd =>
      obtain ⟨p, D⟩ := pd
      simp only [Option.map_some']
      rw [relationFieldsOfType_append_listTyped ToLower Plural schema' _ (ext p) (hext p),
        relationFieldsOfType_congr ToLower Plural schema schema' ext hlook D
          { D with Fields := D.Fields ++ ext p } rfl]

theorem relationFieldsOfType_fields_listTyped (schema : Schema) (owner : Definition) :
    ∀ (fs : List FieldDefinition) (pairs : List DefinitionFieldDefinitionPair),
      relationFieldsOfType ToLower Plural schema owner fs = .ok pairs →
      ∀ pr ∈ pairs, pr.fieldDefinition.Type_.Elem ≠ none := by
  intro fs
  induction fs with
  | nil =>
    intro pairs h
    simp only [relationFieldsOfType] at h
    injection h with h
    subst h
    simp
  | cons f rest ih =>
    intro pairs h
    simp only [relationFieldsOfType] at h
    cases he : f.Type_.Elem with
    | some e =>
      rw [he] at h
      exact ih pairs h
    | none =>
      rw [he] at h
      simp only at h
      cases hl : schema.lookupType f.Type_.NamedType with
      | none => rw [hl] at h; simp at h
      | some pd =>
        obtain ⟨p, R⟩ := pd
        rw [hl] at h
        simp only at h
        by_cases hb : R.BuiltIn = true
        · rw [if_pos hb] at h
          exact ih pairs h
        · rw [if_neg hb] at h
          cases hr : relationFieldsOfType ToLower Plural schema owner rest with
          | ok more =>
            rw [hr] at h
            simp only at h
            injection h with h
            subst h
            intro pr hpr
            rcases List.mem_cons.1 hpr with h1 | h1
            · subst h1
              simp [AstType.Elem]
            · exact ih more hr pr h1
          | error m => rw [hr] at h; simp at h
          | panic m => rw [hr] at h; simp at h
          | diverge => rw [hr] at h; simp at h

theorem collectQueryRelationFields_fields_listTyped (schema : Schema) :
    ∀ (names : List String) (pairs : List DefinitionFieldDefinitionPair),
      collectQueryRelationFields ToLower Plural schema names = .ok pairs →
      ∀ pr ∈ pairs, pr.fieldDefinition.Type_.Elem ≠ none := by
  intro names
  induction names with
  | nil =>
    intro pairs h
    simp only [collectQueryRelationFields] at h
    injection h with h
    subst h
    simp
  | cons n rest ih =>
    intro pairs h
    simp only [collectQueryRelationFields] at h
    cases hl : schema.lookupType n with
    | none => rw [hl] at h; simp at h
    | some pd =>
      obtain ⟨p, D⟩ := pd
      rw [hl] at h
      simp only at h
      cases hr : relationFieldsOfType ToLower Plural schema D D.Fields with
      | ok first =>
        rw [hr] at h
        simp only at h
        cases hc : collectQueryRelationFields ToLower Plural schema rest with
        | ok more =>
          rw [hc] at h
          simp only at h
          injection h with h
          subst h
          intro pr hpr
          rcases List.mem_append.1 hpr with h1 | h1
          · exact relationFieldsOfType_fields_listTyped ToLower Plural schema D _ _ hr pr h1
          · exact ih more hc pr h1
        | error m => rw [hc] at h; simp at h
        | panic m => rw [hc] at h; simp at h
        | diverge => rw [hc] at h; simp at h
      | error m => rw [hr] at h; simp at h
      | panic m => rw [hr] at h; simp at h
      | diverge => rw [hr] at h; simp at h

theorem lookupType_applyQueryRelationFields (schema : Schema)
    (pairs : List DefinitionFieldDefinitionPair) (k : String) :
    ({ schema with heap := applyQueryRelationFields schema.heap pairs } : Schema).lookupType k
      = (schema.lookupType k).map fun pd =>
          (pd.1, { pd.2 with
                   Fields := pd.2.Fields ++
                     (pairs.filter fun pr => decide (pr.definition = pd.1)).map
                       (fun pr => pr.fieldDefinition) }) := by
  unfold Schema.lookupType
  simp only
  cases mapGet schema.Types k with
  | none => rfl
  | some p =>
    simp only
    rw [getElem?_applyQueryRelationFields]
    cases schema.heap[p]? with
    | none => rfl
    | some d => rfl

/-- Claim C21. The relation pass never generates relation fields from relation fields:
when `addQueryRelationFieldsToSchemaForTypes` has succeeded, its scan of the resulting
schema with the same type names succeeds and collects exactly the pairs (target type and
field, with its name and type) that the first scan collected; so a second application
succeeds, and the relation fields due to every type are the same in both schemas. -/
theorem relationPass_collects_same_fields_again (schema schema' : Schema) (names : List String)
    (h : addQueryRelationFieldsToSchemaForTypes ToLower Plural schema names = (schema', .ok ())) :
    (∃ pairs, collectQueryRelationFields ToLower Plural schema names = .ok pairs ∧
      collectQueryRelationFields ToLower Plural schema' names = .ok pairs) ∧
    (∃ schema'', addQueryRelationFieldsToSchemaForTypes ToLower Plural schema' names
      = (schema'', .ok ())) ∧
    ∀ target, relationFieldsFor ToLower Plural schema' names target
      = relationFieldsFor ToLower Plural schema names target := by
  obtain ⟨pairs, hc, hs⟩ := addQueryRelationFields_ok ToLower Plural schema schema' names h
  have hsame : collectQueryRelationFields ToLower Plural schema' names = .ok pairs := by
    rw [← hc, hs]
    exact collectQueryRelationFields_congr ToLower Plural schema _
      (fun p => (pairs.filter fun pr => decide (pr.definition = p)).map fun pr => pr.fieldDefinition)
      (lookupType_applyQueryRelationFields schema pairs)
      (by
        intro p g hg
        obtain ⟨pr, hpr, hge⟩ := List.mem_map.1 hg
        rw [← hge]
        exact collectQueryRelationFields_fields_listTyped ToLower Plural schema names pairs hc pr
          (List.mem_filter.1 hpr).1)
      names
  refine ⟨⟨pairs, hc, hsame⟩, ?_, ?_⟩
  · unfold addQueryRelationFieldsToSchemaForTypes
    rw [hsame]
    exact ⟨_, rfl⟩
  · intro target
    rw [← collectQueryRelationFields_filter ToLower Plural schema' target names pairs hsame,
      ← collectQueryRelationFields_filter ToLower Plural schema target names pairs hc]

theorem collectQueryRelationFields_ok_iff (schema : Schema) :
    ∀ names : List String,
      (∃ pairs, collectQueryRelationFields ToLower Plural schema names = .ok pairs) ↔
      ∀ n ∈ names, ∃ p D pairs, schema.lookupType n = some (p, D) ∧
        relationFieldsOfType ToLower Plural schema D D.Fields = .ok pairs := by
  intro names
  induction names with
  | nil => simp [collectQueryRelationFields]
  | cons n rest ih =>
    simp only [collectQueryRelationFields, List.mem_cons, forall_eq_or_imp]
    rw [← ih]
    cases hl : schema.lookupType n with
    | none => simp
    | some pd =>
      obtain ⟨p, D⟩ := pd
      simp only
      cases hr : relationFieldsOfType ToLower Plural schema D D.Fields with
      | ok first =>
        cases hc : collectQueryRelationFields ToLower Plural schema rest with
        | ok more =>
          exact ⟨fun _ => ⟨⟨p, D, first, rfl, hr⟩, ⟨more, rfl⟩⟩, fun _ => ⟨first ++ more, rfl⟩⟩
        | error m => simp
        | panic m => simp
        | diverge => simp
      | error m => simp [hr]
      | panic m => simp [hr]
      | diverge => simp [hr]

theorem addQueryRelationFields_ok_iff (schema : Schema) (names : List String) :
    (∃ schema', addQueryRelationFieldsToSchemaForTypes ToLower Plural schema names
      = (schema', .ok ())) ↔
    ∃ pairs, collectQueryRelationFields ToLower Plural schema names = .ok pairs := by
  constructor
  · rintro ⟨schema', h⟩
    obtain ⟨pairs, hc, _⟩ := addQueryRelationFields_ok ToLower Plural schema schema' names h
    exact ⟨pairs, hc⟩
  · rintro ⟨pairs, hc⟩
    unfold addQueryRelationFieldsToSchemaForTypes
    rw [hc]
    exact ⟨_, rfl⟩

/-- Claim C22. The relation pass is order-independent across owner types: for every
schema and every two orderings of the same list of owner type names,
`addQueryRelationFieldsToSchemaForTypes` succeeds on one exactly when it succeeds on the
other, and on success every type ends, in both results, with its original fields in place
followed by appended relation fields that are the same up to their order. -/
theorem relationPass_order_independent (schema : Schema) (names₁ names₂ : List String)
    (hperm : names₁.Perm names₂) :
    ((∃ s₁, addQueryRelationFieldsToSchemaForTypes ToLower Plural schema names₁ = (s₁, .ok ())) ↔
      ∃ s₂, addQueryRelationFieldsToSchemaForTypes ToLower Plural schema names₂ = (s₂, .ok ())) ∧
    ∀ s₁ s₂,
      addQueryRelationFieldsToSchemaForTypes ToLower Plural schema names₁ = (s₁, .ok ()) →
      addQueryRelationFieldsToSchemaForTypes ToLower Plural schema names₂ = (s₂, .ok ()) →
      ∀ (target : Nat) (R : Definition), schema.heap[target]? = some R →
        ∃ A₁ A₂, s₁.heap[target]? = some { R with Fields := R.Fields ++ A₁ } ∧
          s₂.heap[target]? = some { R with Fields := R.Fields ++ A₂ } ∧ A₁.Perm A₂ := by
  constructor
  · rw [addQueryRelationFields_ok_iff, addQueryRelationFields_ok_iff,
      collectQueryRelationFields_ok_iff, collectQueryRelationFields_ok_iff]
    constructor
    · intro h n hn
      exact h n (hperm.mem_iff.2 hn)
    · intro h n hn
      exact h n (hperm.mem_iff.1 hn)
  · intro s₁ s₂ h₁ h₂ target R hR
    obtain ⟨_, _, _, _, r₁⟩ := relationPass_spec ToLower Plural schema s₁ names₁ h₁
    obtain ⟨_, _, _, _, r₂⟩ := relationPass_spec ToLower Plural schema s₂ names₂ h₂
    refine ⟨_, _, r₁ target R hR, r₂ target R hR, ?_⟩
    unfold relationFieldsFor
    exact List.Perm.flatMap_right _ hperm

end Library

/-- Claim C21, witness: on the scenario schema with the names `Movie` and `Studio` the
first application appends `movies_as_studio` to `Studio`; the scan of the result collects
that one pair again and nothing for the appended field. -/
theorem relationPass_collects_same_fields_again_on_movies :
    collectQueryRelationFields asciiLower regularPlural movieSchema ["Movie", "Studio"]
      = .ok [{ definition := 8
               fieldDefinition :=
                 { Description := "", Name := "movies_as_studio", Arguments := []
                   Type_ := .wrap "" (.leaf "Movie" true) true } }] ∧
    (∃ pairs, collectQueryRelationFields asciiLower regularPlural movieSchema ["Movie", "Studio"]
        = .ok pairs ∧
      collectQueryRelationFields asciiLower regularPlural
        (addQueryRelationFieldsToSchemaForTypes asciiLower regularPlural movieSchema
          ["Movie", "Studio"]).1 ["Movie", "Studio"] = .ok pairs) :=
  ⟨by decide,
   (relationPass_collects_same_fields_again asciiLower regularPlural movieSchema
      (addQueryRelationFieldsToSchemaForTypes asciiLower regularPlural movieSchema
        ["Movie", "Studio"]).1 ["Movie", "Studio"] (Prod.ext rfl (by decide))).1⟩

/-- Claim C22, witness: with `Movie` and `Show` both referring to `Studio`, the names in
the order `Movie, Show` append `movies_as_studio, shows_as_studio` to `Studio`, the order
`Show, Movie` appends `shows_as_studio, movies_as_studio`: the same fields in another
order. -/
theorem relationPass_order_independent_on_movies_and_shows :
    ((addQueryRelationFieldsToSchemaForTypes asciiLower regularPlural movieShowSchema
        ["Movie", "Show"]).1.heap[3]?).map (fun d => d.Fields.map fun f => f.Name)
      = some ["name", "movies_as_studio", "shows_as_studio"] ∧
    ((addQueryRelationFieldsToSchemaForTypes asciiLower regularPlural movieShowSchema
        ["Show", "Movie"]).1.heap[3]?).map (fun d => d.Fields.map fun f => f.Name)
      = some ["name", "shows_as_studio", "movies_as_studio"] ∧
    ∃ A₁ A₂,
      (addQueryRelationFieldsToSchemaForTypes asciiLower regularPlural movieShowSchema
          ["Movie", "Show"]).1.heap[3]?
        = some { Kind := .Object, Name := "Studio", BuiltIn := false
                 Fields := [plainField "name" (.leaf "String" false)] ++ A₁ } ∧
      (addQueryRelationFieldsToSchemaForTypes asciiLower regularPlural movieShowSchema
          ["Show", "Movie"]).1.heap[3]?
        = some { Kind := .Object, Name := "Studio", BuiltIn := false
                 Fields := [plainField "name" (.leaf "String" false)] ++ A₂ } ∧
      A₁.Perm A₂ :=
  ⟨by decide, by decide,
   (relationPass_order_independent asciiLower regularPlural movieShowSchema
      ["Movie", "Show"] ["Show", "Movie"] (List.Perm.swap _ _ _)).2 _ _
      (Prod.ext rfl (by decide)) (Prod.ext rfl (by decide)) 3
      { Kind := .Object, Name := "Studio", BuiltIn := false
        Fields := [plainField "name" (.leaf "String" false)] } (by decide)⟩

/-! ## The scenario schema after augmentation -/

/-- Claim C23 fails as stated. In the scenario schema, after augmentation, the single
argument `data` of the field `movie_insert` of `Mutation` has the type `Movie_Data` with
`NonNull` false: it is nullable, not `Movie_Data!`. -/
theorem movie_insert_data_is_nullable :
    (addSynthesizedTypesAndFields asciiLower regularPlural movieSchema).2 = .ok () ∧
    (addSynthesizedTypesAndFields asciiLower regularPlural movieSchema).1.Mutation = some 6 ∧
    ((addSynthesizedTypesAndFields asciiLower regularPlural movieSchema).1.heap[6]?).map
      (fun d => (d.Fields.filter fun f => decide (f.Name = "movie_insert")).map
        fun f => f.Arguments.map fun a => (a.Name, a.Type_.NamedType, a.Type_.NonNull)) =
      some [[("data", "Movie_Data", false)]] := by
  decide

/-- Claim C23, amended. In the scenario schema, after augmentation, `Mutation` has exactly
one field named `movie_insert`; its single argument `data` has the nullable type
`Movie_Data` and it returns the non-null insert marker. This holds for the mapping
enumerated with `Movie` before `Studio` and with `Studio` before `Movie`. -/
theorem movie_insert_after_augmentation :
    (addSynthesizedTypesAndFields asciiLower regularPlural movieSchema).2 = .ok () ∧
    (addSynthesizedTypesAndFields asciiLower regularPlural movieSchema).1.Mutation = some 6 ∧
    ((addSynthesizedTypesAndFields asciiLower regularPlural movieSchema).1.heap[6]?).map
      (fun d => d.Fields.filter fun f => decide (f.Name = "movie_insert")) =
      some [{ Description := "", Name := "movie_insert"
              Arguments := [{ Description := "", Name := "data", Type_ := .leaf "Movie_Data" false }]
              Type_ := .leaf "sdk:MutationRef.InsertData" true }] ∧
    (addSynthesizedTypesAndFields asciiLower regularPlural studioFirstMovieSchema).2 = .ok () ∧
    (addSynthesizedTypesAndFields asciiLower regularPlural studioFirstMovieSchema).1.Mutation
      = some 6 ∧
    ((addSynthesizedTypesAndFields asciiLower regularPlural studioFirstMovieSchema).1.heap[6]?).map
      (fun d => d.Fields.filter fun f => decide (f.Name = "movie_insert")) =
      some [{ Description := "", Name := "movie_insert"
              Arguments := [{ Description := "", Name := "data", Type_ := .leaf "Movie_Data" false }]
              Type_ := .leaf "sdk:MutationRef.InsertData" true }] := by
  decide

/-- Claim C24 fails as stated. In the scenario schema, after augmentation, the arguments
of the field `movie` of `Query` are `id: ID`, `title: String`, `studio: Studio`: each keeps
the named type of the field of `Movie` it mirrors, so `id` and `studio` are not of type
`String`. -/
theorem movie_query_arguments_keep_field_types :
    (addSynthesizedTypesAndFields asciiLower regularPlural movieSchema).2 = .ok () ∧
    (addSynthesizedTypesAndFields asciiLower regularPlural movieSchema).1.Query = some 5 ∧
    ((addSynthesizedTypesAndFields asciiLower regularPlural movieSchema).1.heap[5]?).map
      (fun d => (d.Fields.filter fun f => decide (f.Name = "movie")).map
        fun f => f.Arguments.map fun a => (a.Name, a.Type_)) =
      some [[("id", .leaf "ID" false), ("title", .leaf "String" false),
             ("studio", .leaf "Studio" false)]] := by
  decide

/-- Claim C24, amended. In the scenario schema, after augmentation, `Query` has exactly
one field named `movie`, returning `Movie!`, whose arguments are exactly `id: ID`,
`title: String`, `studio: Studio`, in that order and all nullable, and exactly one field
named `movies`, returning `[Movie!]!`, with the same arguments. This holds for the mapping
enumerated with `Movie` before `Studio` and with `Studio` before `Movie`. -/
theorem movie_queries_after_augmentation :
    (addSynthesizedTypesAndFields asciiLower regularPlural movieSchema).2 = .ok () ∧
    (addSynthesizedTypesAndFields asciiLower regularPlural movieSchema).1.Query = some 5 ∧
    ((addSynthesizedTypesAndFields asciiLower regularPlural movieSchema).1.heap[5]?).map
      (fun d => d.Fields.filter fun f => decide (f.Name = "movie" ∨ f.Name = "movies")) =
      some [{ Description := "", Name := "movie"
              Arguments := [{ Description := "", Name := "id", Type_ := .leaf "ID" false },
                            { Description := "", Name := "title", Type_ := .leaf "String" false },
                            { Description := "", Name := "studio", Type_ := .leaf "Studio" false }]
              Type_ := .leaf "Movie" true },
            { Description := "", Name := "movies"
              Arguments := [{ Description := "", Name := "id", Type_ := .leaf "ID" false },
                            { Description := "", Name := "title", Type_ := .leaf "String" false },
                            { Description := "", Name := "studio", Type_ := .leaf "Studio" false }]
              Type_ := .wrap "" (.leaf "Movie" true) true }] ∧
    (addSynthesizedTypesAndFields asciiLower regularPlural studioFirstMovieSchema).2 = .ok () ∧
    (addSynthesizedTypesAndFields asciiLower regularPlural studioFirstMovieSchema).1.Query
      = some 5 ∧
    ((addSynthesizedTypesAndFields asciiLower regularPlural studioFirstMovieSchema).1.heap[5]?).map
      (fun d => d.Fields.filter fun f => decide (f.Name = "movie" ∨ f.Name = "movies")) =
      some [{ Description := "", Name := "movie"
              Arguments := [{ Description := "", Name := "id", Type_ := .leaf "ID" false },
                            { Description := "", Name := "title", Type_ := .leaf "String" false },
                            { Description := "", Name := "studio", Type_ := .leaf "Studio" false }]
              Type_ := .leaf "Movie" true },
            { Description := "", Name := "movies"
              Arguments := [{ Description := "", Name := "id", Type_ := .leaf "ID" false },
                            { Description := "", Name := "title", Type_ := .leaf "String" false },
                            { Description := "", Name := "studio", Type_ := .leaf "Studio" false }]
              Type_ := .wrap "" (.leaf "Movie" true) true }] := by
  decide

/-! ## Outcomes of the convenience flattening -/

theorem missingType_starts (kind a b : String) :
    hasPrefixStr ("schema.Types is missing type" ++ kind ++ a ++ "\": " ++ b)
      "schema.Types is missing type" = true := by
  refine (hasPrefixStr_iff _ _).2 ⟨kind ++ a ++ "\": " ++ b, ?_⟩
  simp only [String.append_assoc]

theorem missingType_field_starts (a b : String) :
    hasPrefixStr ("schema.Types is missing type defined by field \"" ++ a ++ "\": " ++ b)
      "schema.Types is missing type" = true :=
  missingType_starts " defined by field \"" a b

theorem convenienceParametersLoop_outcome (schema : Schema)
    (recP : List FieldDefinition → Res (List kotlinFunctionParameter))
    (hrec : ∀ fs, flattenOutcome (recP fs) = true) :
    ∀ fs, flattenOutcome (convenienceParametersLoop schema recP fs) = true := by
  intro fs
  induction fs with
  | nil => rfl
  | cons f rest ih =>
    simp only [convenienceParametersLoop]
    by_cases hs : isScalarType f.Type_ = true
    · rw [if_pos hs]
      cases h : convenienceParametersLoop schema recP rest with
      | ok ps => rfl
      | error m => rw [h] at ih; exact ih
      | panic m => rw [h] at ih; exact ih
      | diverge => rfl
    · rw [if_neg hs]
      cases hl : schema.lookupType f.Type_.NamedType with
      | none => exact missingType_field_starts _ _
      | some pd =>
        obtain ⟨p, T⟩ := pd
        simp only
        have hc := hrec T.Fields
        cases hcr : recP T.Fields with
        | ok cs =>
          simp only
          cases h : convenienceParametersLoop schema recP rest with
          | ok ps => rfl
          | error m => rw [h] at ih; exact ih
          | panic m => rw [h] at ih; exact ih
          | diverge => rfl
        | error m => rw [hcr] at hc; exact hc
        | panic m => rw [hcr] at hc; exact hc
        | diverge => rfl

theorem convenienceParametersFromFieldDefinitions_outcome (schema : Schema) :
    ∀ fuel fs,
      flattenOutcome (convenienceFunctionParametersFromFieldDefinitions schema fuel fs) = true := by
  intro fuel
  induction fuel with
  | zero => intro fs; rfl
  | succ fuel ih =>
    intro fs
    simp only [convenienceFunctionParametersFromFieldDefinitions]
    have hl := convenienceParametersLoop_outcome schema _ ih fs
    cases h : convenienceParametersLoop schema
        (convenienceFunctionParametersFromFieldDefinitions schema fuel) fs with
    | ok ps => rfl
    | error m => rw [h] at hl; exact hl
    | panic m => rw [h] at hl; exact hl
    | diverge => rfl

/-- What a successful pass over a field list needs of each of its non-scalar fields: its
named type is found and the fields of that type flatten. -/
theorem convenienceParametersLoop_ok_needs (schema : Schema)
    (recP : List FieldDefinition → Res (List kotlinFunctionParameter)) :
    ∀ fs ps, convenienceParametersLoop schema recP fs = .ok ps →
      ∀ f ∈ fs, isScalarType f.Type_ = false →
        ∃ p T cs, schema.lookupType f.Type_.NamedType = some (p, T) ∧ recP T.Fields = .ok cs := by
  intro fs
  induction fs with
  | nil => intro ps _ f hf; simp at hf
  | cons g rest ih =>
    intro ps h f hf hns
    simp only [convenienceParametersLoop] at h
    by_cases hs : isScalarType g.Type_ = true
    · rw [if_pos hs] at h
      cases hr : convenienceParametersLoop schema recP rest with
      | ok ps0 =>
        rcases List.mem_cons.1 hf with h1 | h1
        · subst h1
          rw [hs] at hns
          simp at hns
        · exact ih ps0 hr f h1 hns
      | error m => rw [hr] at h; simp at h
      | panic m => rw [hr] at h; simp at h
      | diverge => rw [hr] at h; simp at h
    · rw [if_neg hs] at h
      cases hl : schema.lookupType g.Type_.NamedType with
      | none => rw [hl] at h; simp at h
      | some pd =>
        obtain ⟨p, T⟩ := pd
        rw [hl] at h
        simp only at h
        cases hc : recP T.Fields with
        | ok cs =>
          rw [hc] at h
          simp only at h
          cases hr : convenienceParametersLoop schema recP rest with
          | ok ps0 =>
            rcases List.mem_cons.1 hf with h1 | h1
            · subst h1
              exact ⟨p, T, cs, hl, hc⟩
            · exact ih ps0 hr f h1 hns
          | error m => rw [hr] at h; simp at h
          | panic m => rw [hr] at h; simp at h
          | diverge => rw [hr] at h; simp at h
        | error m => rw [hc] at h; simp at h
        | panic m => rw [hc] at h; simp at h
        | diverge => rw [hc] at h; simp at h

theorem convenienceParametersFromFieldDefinitions_ok_needs (schema : Schema) (fuel : Nat)
    (fs : List FieldDefinition) (ps : List kotlinFunctionParameter)
    (h : convenienceFunctionParametersFromFieldDefinitions schema fuel fs = .ok ps) :
    ∃ k, fuel = k + 1 ∧ ∀ f ∈ fs, isScalarType f.Type_ = false →
      ∃ p T cs, schema.lookupType f.Type_.NamedType = some (p, T) ∧
        convenienceFunctionParametersFromFieldDefinitions schema k T.Fields = .ok cs := by
  cases fuel with
  | zero => simp [convenienceFunctionParametersFromFieldDefinitions] at h
  | succ k =>
    refine ⟨k, rfl, ?_⟩
    simp only [convenienceFunctionParametersFromFieldDefinitions] at h
    cases hl : convenienceParametersLoop schema
        (convenienceFunctionParametersFromFieldDefinitions schema k) fs with
    | ok ps0 => exact convenienceParametersLoop_ok_needs schema _ fs ps0 hl
    | error m => rw [hl] at h; simp at h
    | panic m => rw [hl] at h; simp at h
    | diverge => rw [hl] at h; simp at h

theorem convenienceParametersLoop_mono (schema : Schema)
    (recP recP' : List FieldDefinition → Res (List kotlinFunctionParameter))
    (hrec : ∀ fs r, recP fs = r → r ≠ .diverge → recP' fs = r) :
    ∀ fs r, convenienceParametersLoop schema recP fs = r → r ≠ .diverge →
      convenienceParametersLoop schema recP' fs = r := by
  intro fs
  induction fs with
  | nil => intro r h _; exact h
  | cons f rest ih =>
    intro r h hne
    simp only [convenienceParametersLoop] at h ⊢
    by_cases hs : isScalarType f.Type_ = true
    · rw [if_pos hs] at h ⊢
      cases hr : convenienceParametersLoop schema recP rest with
      | ok ps0 => rw [ih _ hr (by simp)]; rw [hr] at h; exact h
      | error m => rw [ih _ hr (by simp)]; rw [hr] at h; exact h
      | panic m => rw [ih _ hr (by simp)]; rw [hr] at h; exact h
      | diverge => rw [hr] at h; exact absurd h.symm hne
    · rw [if_neg hs] at h ⊢
      cases hl : schema.lookupType f.Type_.NamedType with
      | none => rw [hl] at h; exact h
      | some pd =>
        obtain ⟨p, T⟩ := pd
        rw [hl] at h
        simp only at h ⊢
        cases hc : recP T.Fields with
        | ok cs =>
          rw [hrec _ _ hc (by simp)]
          rw [hc] at h
          simp only at h ⊢
          cases hr : convenienceParametersLoop schema recP rest with
          | ok ps0 => rw [ih _ hr (by simp)]; rw [hr] at h; exact h
          | error m => rw [ih _ hr (by simp)]; rw [hr] at h; exact h
          | panic m => rw [ih _ hr (by simp)]; rw [hr] at h; exact h
          | diverge => rw [hr] at h; exact absurd h.symm hne
        | error m => rw [hrec _ _ hc (by simp)]; rw [hc] at h; exact h
        | panic m => rw [hrec _ _ hc (by simp)]; rw [hc] at h; exact h
        | diverge => rw [hc] at h; exact absurd h.symm hne

theorem convenienceParametersFromFieldDefinitions_succ_mono (schema : Schema) :
    ∀ fuel fs r, convenienceFunctionParametersFromFieldDefinitions schema fuel fs = r →
      r ≠ .diverge → convenienceFunctionParametersFromFieldDefinitions schema (fuel + 1) fs = r := by
  intro fuel
  induction fuel with
  | zero =>
    intro fs r h hne
    simp only [convenienceFunctionParametersFromFieldDefinitions] at h
    exact absurd h.symm hne
  | succ fuel ih =>
    intro fs r h hne
    rw [convenienceFunctionParametersFromFieldDefinitions] at h ⊢
    cases hl : convenienceParametersLoop schema
        (convenienceFunctionParametersFromFieldDefinitions schema fuel) fs with
    | ok ps0 =>
      rw [convenienceParametersLoop_mono schema _ _ ih fs _ hl (by simp)]
      rw [hl] at h
      exact h
    | error m =>
      rw [convenienceParametersLoop_mono schema _ _ ih fs _ hl (by simp)]
      rw [hl] at h
      exact h
    | panic m =>
      rw [convenienceParametersLoop_mono schema _ _ ih fs _ hl (by simp)]
      rw [hl] at h
      exact h
    | diverge => rw [hl] at h; exact absurd h.symm hne

theorem convenienceParametersFromFieldDefinitions_mono (schema : Schema)
    (fs : List FieldDefinition) (r : Res (List kotlinFunctionParameter)) (fuel : Nat)
    (h : convenienceFunctionParametersFromFieldDefinitions schema fuel fs = r)
    (hne : r ≠ .diverge) :
    ∀ fuel', fuel ≤ fuel' →
      convenienceFunctionParametersFromFieldDefinitions schema fuel' fs = r := by
  intro fuel' hle
  induction fuel' with
  | zero =>
    have : fuel = 0 := by omega
    rw [← this]
    exact h
  | succ n ih =>
    by_cases he : fuel = n + 1
    · rw [← he]
      exact h
    · exact convenienceParametersFromFieldDefinitions_succ_mono schema n fs r (ih (by omega)) hne

/-- A field list does not flatten when one of its non-scalar fields has a type with a
non-scalar field whose named type is absent from the schema. -/
theorem convenienceParameters_not_ok_of_missing_below (schema : Schema)
    (f g : FieldDefinition) (p : Nat) (T : Definition)
    (hf : isScalarType f.Type_ = false)
    (hT : schema.lookupType f.Type_.NamedType = some (p, T))
    (hg : g ∈ T.Fields) (hgs : isScalarType g.Type_ = false)
    (hgn : schema.lookupType g.Type_.NamedType = none)
    (fs : List FieldDefinition) (hmem : f ∈ fs) :
    (∀ fuel ps, convenienceFunctionParametersFromFieldDefinitions schema fuel fs ≠ .ok ps) ∧
    ((∃ m fuel₀, hasPrefixStr m "schema.Types is missing type" = true ∧
        ∀ fuel, fuel₀ ≤ fuel →
          convenienceFunctionParametersFromFieldDefinitions schema fuel fs = .error m) ∨
      ∀ fuel, convenienceFunctionParametersFromFieldDefinitions schema fuel fs = .diverge) := by
  have hnot : ∀ fuel ps,
      convenienceFunctionParametersFromFieldDefinitions schema fuel fs ≠ .ok ps := by
    intro fuel ps h
    obtain ⟨k, _, hk⟩ := convenienceParametersFromFieldDefinitions_ok_needs schema fuel fs ps h
    obtain ⟨p', T', cs, hl, hc⟩ := hk f hmem hf
    rw [hT] at hl
    injection hl with hl
    injection hl with _ hl
    subst hl
    obtain ⟨j, _, hj⟩ := convenienceParametersFromFieldDefinitions_ok_needs schema k _ cs hc
    obtain ⟨_, _, _, hl', _⟩ := hj g hg hgs
    rw [hgn] at hl'
    simp at hl'
  refine ⟨hnot, ?_⟩
  by_cases hd : ∀ fuel, convenienceFunctionParametersFromFieldDefinitions schema fuel fs = .diverge
  · exact Or.inr hd
  · left
    push_neg at hd
    obtain ⟨fuel₀, hne⟩ := hd
    have hout := convenienceParametersFromFieldDefinitions_outcome schema fuel₀ fs
    cases hr : convenienceFunctionParametersFromFieldDefinitions schema fuel₀ fs with
    | ok ps => exact absurd hr (hnot _ _)
    | error m =>
      rw [hr] at hout
      exact ⟨m, fuel₀, hout,
        convenienceParametersFromFieldDefinitions_mono schema fs _ fuel₀ hr (by simp)⟩
    | panic m => rw [hr] at hout; simp [flattenOutcome] at hout
    | diverge => exact absurd hr hne

/-! ## Relation fields met by the convenience flattening -/

section Library

variable (ToLower Plural : String → String)

/-- After a successful augmentation, the type named by a non-list field `f` of an original
type `O` is still found under its name and carries the list-typed relation field that the
pair of `O` and `f` gave it, provided the names involved are not taken over by a marker
scalar or by a synthesized input type. -/
theorem augmentation_keeps_relation_field (s s' : Schema) (hwf : s.WellFormed)
    (h : addSynthesizedTypesAndFields ToLower Plural s = (s', .ok ()))
    (p : Nat) (O : Definition) (f : FieldDefinition) (r : Nat) (R : Definition)
    (hp : p ∈ originalTypes s) (hO : s.heap[p]? = some O) (hf : f ∈ O.Fields)
    (hnl : f.Type_.Elem = none)
    (hR : s.lookupType f.Type_.NamedType = some (r, R)) (hnb : R.BuiltIn = false)
    (hOm : O.Name ∉ markerNames) (hRm : f.Type_.NamedType ∉ markerNames)
    (hRd : ∀ q ∈ originalTypes s, f.Type_.NamedType ≠ nameAt s.heap q ++ "_Data") :
    ∃ R', s'.lookupType f.Type_.NamedType = some (r, R') ∧
      ∃ g ∈ R'.Fields, g.Type_ = .wrap "" (.leaf O.Name true) true := by
  obtain ⟨s3, s4, infos, h2, h3, h4, h5, hlen2, hlt2, hname2, hnameo⟩ :=
    augmentation_stages ToLower Plural s s' h
  generalize schemaAfterRelationPass ToLower Plural s = s2 at h2 h3 hlen2 hlt2 hname2 hnameo
  obtain ⟨r1, r2, r3, r4, r5⟩ := relationPass_spec ToLower Plural _ s2 _ h2
  obtain ⟨i1, i2, i3, i4, _, i6, _, _⟩ :=
    addSynthesizedInputTypes_inv (originalTypes s) s2 s3 infos hlt2 h3
  obtain ⟨m1, m2, m3, m4, _, m6⟩ := addMutationFields_inv ToLower infos s3 s4 h4
  obtain ⟨q1, q2, q3, q4, _, q6, q7, q8⟩ := addQueryFields_inv ToLower Plural infos s4 s' h5
  have hval := wellFormed_valid s hwf
  obtain ⟨hRget, hRheap⟩ := lookupType_some s _ r R hR
  have hrlt : r < s.heap.length := hval _ (mem_of_mapGet _ _ _ hRget)
  -- the owner is found under its name in the schema with the markers
  obtain ⟨k, T, hk, hT, _⟩ := (mem_originalTypes_iff s p).1 hp
  have hkname : k = O.Name := by
    have := nameAt_of_wellFormed s hwf (k, p) hk
    simp only [nameAt, hO] at this
    exact this.symm
  have hOlook : s.lookupType O.Name = some (p, O) := by
    unfold Schema.lookupType
    rw [← hkname, mapGet_of_mem s.Types k p hwf.1 hk]
    simp only [hO]
  have hOlook1 : (addSyntheticTypesForSdkTypesToSchema s).lookupType O.Name = some (p, O) := by
    rw [markers_lookupType_other s _ hOm hval, hOlook]
  have hRlook1 : (addSyntheticTypesForSdkTypesToSchema s).lookupType f.Type_.NamedType
      = some (r, R) := by
    rw [markers_lookupType_other s _ hRm hval, hR]
  -- the relation field is among the fields collected for `r`
  have hg : ({ Description := ""
               Name := Plural (ToLower O.Name) ++ "_as_" ++ ToLower R.Name
               Arguments := []
               Type_ := .wrap "" (.leaf O.Name true) true } : FieldDefinition)
      ∈ relationFieldsFor ToLower Plural (addSyntheticTypesForSdkTypesToSchema s)
          (originalTypeNames s) r := by
    unfold relationFieldsFor
    rw [List.mem_flatMap]
    refine ⟨O.Name, ?_, ?_⟩
    · unfold originalTypeNames
      exact List.mem_map.2 ⟨p, hp, by simp [nameAt, hO]⟩
    · rw [hOlook1]
      simp only
      rw [List.mem_filterMap]
      refine ⟨f, hf, ?_⟩
      unfold relationFieldOf
      rw [hnl, hRlook1]
      simp [hnb]
  -- the heap cell of `r` through the passes
  have hR1 : (addSyntheticTypesForSdkTypesToSchema s).heap[r]? = some R := by
    rw [markers_getElem?_lt s r hrlt, hRheap]
  have hR2 := r5 r R hR1
  have hR3 : s3.heap[r]? = s2.heap[r]? := i4 r (by omega)
  have hR4 : ∃ R4, s4.heap[r]? = some R4 ∧
      ∃ g ∈ R4.Fields, g.Type_ = .wrap "" (.leaf O.Name true) true := by
    rw [m6 r, hR3, hR2]
    simp only [Option.map_some']
    by_cases hmr : s3.Mutation = some r
    · rw [if_pos hmr]
      exact ⟨_, rfl, _, List.mem_append_left _ (List.mem_append_right _ hg), rfl⟩
    · rw [if_neg hmr]
      exact ⟨_, rfl, _, List.mem_append_right _ hg, rfl⟩
  obtain ⟨R4, hR4, g, hgm, hgt⟩ := hR4
  have hR5 : ∃ R5, s'.heap[r]? = some R5 ∧
      ∃ g ∈ R5.Fields, g.Type_ = .wrap "" (.leaf O.Name true) true := by
    by_cases hqr : s4.Query = some r
    · obtain ⟨G, g1, _, _⟩ := q8 r R4 hqr hR4
      exact ⟨_, g1, g, List.mem_append_left _ hgm, hgt⟩
    · rw [q6 r hqr]
      exact ⟨R4, hR4, g, hgm, hgt⟩
  obtain ⟨R5, hR5, hgR5⟩ := hR5
  -- the entry of the name through the passes
  have hget : mapGet s'.Types f.Type_.NamedType = some r := by
    rw [q1, m1, i6 _ (by
      intro q hq
      have hqn : nameAt s2.heap q = nameAt s.heap q := hnameo q hq
      rw [hqn]
      exact hRd q hq), r1, markers_mapGet_other s _ hRm, hRget]
  refine ⟨R5, ?_, hgR5⟩
  unfold Schema.lookupType
  rw [hget]
  simp only [hR5]

/-- Claim C25, amended. Let `s'` be the result of a successful augmentation of a
well-formed schema `s`, without a type named `""`. For every original non-built-in type `O`
with a non-list field `f` whose named type `R` is not built in and is none of `Int`,
`Float`, `String`, `Boolean`, `ID`, provided the names of `O` and of `R` are not names of
marker scalars and the name of `R` is not `T_Data` for an original type `T`: the
convenience flattening over `s'` of any field list that contains `f` never returns a
parameter list; either it returns, from some recursion depth on, one and the same
`schema.Types is missing type` error, or it has no outcome at any depth. -/
theorem flattening_fails_on_relation_field (s s' : Schema) (hwf : s.WellFormed)
    (h : addSynthesizedTypesAndFields ToLower Plural s = (s', .ok ()))
    (hempty : s'.lookupType "" = none)
    (p : Nat) (O : Definition) (f : FieldDefinition) (r : Nat) (R : Definition)
    (hp : p ∈ originalTypes s) (hO : s.heap[p]? = some O) (hf : f ∈ O.Fields)
    (hnl : f.Type_.Elem = none)
    (hR : s.lookupType f.Type_.NamedType = some (r, R)) (hnb : R.BuiltIn = false)
    (hns : isScalarTypeName f.Type_.NamedType = false)
    (hOm : O.Name ∉ markerNames) (hRm : f.Type_.NamedType ∉ markerNames)
    (hRd : ∀ q ∈ originalTypes s, f.Type_.NamedType ≠ nameAt s.heap q ++ "_Data")
    (fs : List FieldDefinition) (hmem : f ∈ fs) :
    (∀ fuel ps, convenienceFunctionParametersFromFieldDefinitions s' fuel fs ≠ .ok ps) ∧
    ((∃ m fuel₀, hasPrefixStr m "schema.Types is missing type" = true ∧
        ∀ fuel, fuel₀ ≤ fuel →
          convenienceFunctionParametersFromFieldDefinitions s' fuel fs = .error m) ∨
      ∀ fuel, convenienceFunctionParametersFromFieldDefinitions s' fuel fs = .diverge) := by
  obtain ⟨R', hR', g, hg, hgt⟩ := augmentation_keeps_relation_field ToLower Plural s s' hwf h
    p O f r R hp hO hf hnl hR hnb hOm hRm hRd
  exact convenienceParameters_not_ok_of_missing_below s' f g r R' hns hR' hg
    (by rw [hgt]; rfl) (by rw [hgt]; exact hempty) fs hmem

end Library

/-- Claim C25 fails as stated. With `type Movie { title: String }`,
`type Movie_Data { name: String }` and `type Ticket { data: Movie_Data }` the augmentation
succeeds and leaves no type named `""`; `Ticket` is an original type whose non-list field
`data` has the non-built-in type `Movie_Data`, which gains the relation field
`tickets_as_movie_data`. But the name `Movie_Data` now maps to the input type synthesized
for `Movie`, so the flattening of the field list `[data]` returns the parameter list
`title: String?`. -/
theorem flattening_succeeds_on_replaced_type :
    (addSynthesizedTypesAndFields asciiLower regularPlural ticketSchema).2 = .ok () ∧
    (addSynthesizedTypesAndFields asciiLower regularPlural ticketSchema).1.lookupType "" = none ∧
    originalTypeNames ticketSchema = ["Query", "Mutation", "Movie", "Movie_Data", "Ticket"] ∧
    (ticketSchema.lookupType "Ticket").map (fun pd => pd.2.Fields)
      = some [plainField "data" (.leaf "Movie_Data" false)] ∧
    (ticketSchema.lookupType "Movie_Data").map (fun pd => (pd.1, pd.2.BuiltIn))
      = some (4, false) ∧
    ((addSynthesizedTypesAndFields asciiLower regularPlural ticketSchema).1.heap[4]?).map
      (fun d => d.Fields.map fun f => f.Name) = some ["name", "tickets_as_movie_data"] ∧
    convenienceFunctionParametersFromFieldDefinitions
        (addSynthesizedTypesAndFields asciiLower regularPlural ticketSchema).1 2
        [plainField "data" (.leaf "Movie_Data" false)]
      = .ok [{ Name := "title", KotlinType := "String?", IsLast := true }] := by
  decide

/-- Claim C25, witness: in the augmented scenario schema the flattening of the fields of
`Movie`, which contain `studio: Studio`, returns the error for the relation field
`movies_as_studio` of `Studio` from depth 2 on, and never a parameter list. -/
theorem flattening_fails_on_movie_fields :
    movieSchema.WellFormed ∧
    (addSynthesizedTypesAndFields asciiLower regularPlural movieSchema).2 = .ok () ∧
    convenienceFunctionParametersFromFieldDefinitions
        (addSynthesizedTypesAndFields asciiLower regularPlural movieSchema).1 2
        movieDefinition.Fields
      = .error "schema.Types is missing type defined by field \"movies_as_studio\": " ∧
    ∀ fuel ps, convenienceFunctionParametersFromFieldDefinitions
        (addSynthesizedTypesAndFields asciiLower regularPlural movieSchema).1 fuel
        movieDefinition.Fields ≠ .ok ps :=
  ⟨by decide, by decide, by decide,
   (flattening_fails_on_relation_field asciiLower regularPlural movieSchema
      (addSynthesizedTypesAndFields asciiLower regularPlural movieSchema).1 (by decide)
      (Prod.ext rfl (by decide)) (by decide) 7 movieDefinition
      (plainField "studio" (.leaf "Studio" false)) 8 studioDefinition
      (by decide) (by decide) (by decide) (by decide) (by decide) (by decide) (by decide)
      (by decide) (by decide) (by decide) movieDefinition.Fields (by decide)).1⟩

/-! ## List-typed variables -/

theorem convenienceParametersOfVariables_cons_list (schema : Schema) (fuel : Nat)
    (vd : VariableDefinition) (post : List VariableDefinition) (elem : AstType) (nonNull : Bool)
    (hempty : schema.lookupType "" = none) (hlist : vd.Type_ = .wrap "" elem nonNull) :
    convenienceParametersOfVariables schema fuel (vd :: post)
      = .error ("schema.Types is missing type defined by variable \"" ++ vd.Variable
          ++ "\": " ++ "") := by
  have hs : isScalarType vd.Type_ = false := by
    rw [hlist]
    rfl
  have hn : vd.Type_.NamedType = "" := by rw [hlist]; rfl
  simp only [convenienceParametersOfVariables, hs, hn, hempty, Bool.false_eq_true, if_false]

/-- Claim C26. For every schema without a type named `""` and every list of variable
definitions that contains a variable whose declared type is a list at its outermost level
(`Elem` set, `NamedType` empty), `convenienceFunctionParametersFromVariableDefinitions`
returns the error `schema.Types is missing type defined by variable` for that variable
when the variables before it flatten, and the failure or divergence of the variables
before it otherwise; and `kotlinClassForVariableDefinitions` with convenience functions
enabled returns no result at all, so no variables class. -/
theorem listVariable_fails_flattening (fuel : Nat) (schema : Schema)
    (pre : List VariableDefinition) (vd : VariableDefinition) (post : List VariableDefinition)
    (elem : AstType) (nonNull : Bool)
    (hempty : schema.lookupType "" = none) (hlist : vd.Type_ = .wrap "" elem nonNull) :
    (∀ A, convenienceFunctionParametersFromVariableDefinitions fuel pre schema = .ok A →
      convenienceFunctionParametersFromVariableDefinitions fuel (pre ++ vd :: post) schema
        = .error ("schema.Types is missing type defined by variable \"" ++ vd.Variable
            ++ "\": " ++ "")) ∧
    ((∀ A, convenienceFunctionParametersFromVariableDefinitions fuel pre schema ≠ .ok A) →
      convenienceFunctionParametersFromVariableDefinitions fuel (pre ++ vd :: post) schema
        = convenienceFunctionParametersFromVariableDefinitions fuel pre schema) ∧
    (∀ A, convenienceFunctionParametersFromVariableDefinitions fuel (pre ++ vd :: post) schema
      ≠ .ok A) ∧
    (∀ name r,
      kotlinClassForVariableDefinitions fuel name true (pre ++ vd :: post) schema ≠ .ok r) := by
  have hcons := convenienceParametersOfVariables_cons_list schema fuel vd post elem nonNull
    hempty hlist
  have hrun : convenienceFunctionParametersFromVariableDefinitions fuel (pre ++ vd :: post) schema
      = match convenienceParametersOfVariables schema fuel pre with
        | .ok _ => .error ("schema.Types is missing type defined by variable \"" ++ vd.Variable
            ++ "\": " ++ "")
        | .error m => .error m
        | .panic m => .panic m
        | .diverge => .diverge := by
    unfold convenienceFunctionParametersFromVariableDefinitions
    rw [convenienceParametersOfVariables_append, hcons]
    cases convenienceParametersOfVariables schema fuel pre <;> rfl
  have hpre : convenienceFunctionParametersFromVariableDefinitions fuel pre schema
      = match convenienceParametersOfVariables schema fuel pre with
        | .ok ps => .ok (markLastParameters ps)
        | .error m => .error m
        | .panic m => .panic m
        | .diverge => .diverge := by
    unfold convenienceFunctionParametersFromVariableDefinitions
    cases convenienceParametersOfVariables schema fuel pre <;> rfl
  have hnot : ∀ A,
      convenienceFunctionParametersFromVariableDefinitions fuel (pre ++ vd :: post) schema
        ≠ .ok A := by
    intro A
    rw [hrun]
    cases convenienceParametersOfVariables schema fuel pre <;> simp
  refine ⟨?_, ?_, hnot, ?_⟩
  · intro A hA
    rw [hrun]
    rw [hpre] at hA
    cases hp : convenienceParametersOfVariables schema fuel pre with
    | ok ps => rfl
    | error m => rw [hp] at hA; simp at hA
    | panic m => rw [hp] at hA; simp at hA
    | diverge => rw [hp] at hA; simp at hA
  · intro hfail
    rw [hrun, hpre]
    rw [hpre] at hfail
    cases hp : convenienceParametersOfVariables schema fuel pre with
    | ok ps =>
      rw [hp] at hfail
      exact absurd rfl (hfail _)
    | error m => rfl
    | panic m => rfl
    | diverge => rfl
  · intro name r hr
    rcases kotlinClassForVariableDefinitions_inv fuel name true _ schema r hr with
      ⟨hnil, _⟩ | ⟨_, nested, secondary, _, hs, _⟩
    · simp at hnil
    · simp only [Bool.not_true, Bool.false_eq_true, if_false] at hs
      rcases secondaryConstructors_inv fuel _ schema secondary hs with
        ⟨hall, _⟩ | ⟨_, ps, as, hps, _, _⟩
      · have := hall vd (by simp)
        rw [hlist] at this
        exact absurd this (by simp [isScalarType, AstType.NamedType, isScalarTypeName])
      · exact hnot ps hps

/-- Claim C26, witness: for `($title: String!, $tags: [String!])` over the movie schema,
which has no type named `""`, the flattening returns the error for `tags` and the build of
the variables class with convenience functions returns that error and no class. -/
theorem listVariable_fails_on_title_and_tags :
    movieSchema.lookupType "" = none ∧
    convenienceFunctionParametersFromVariableDefinitions 1 titleAndTagsVariables movieSchema
      = .error "schema.Types is missing type defined by variable \"tags\": " ∧
    kotlinClassForVariableDefinitions 1 "AddMovieVariables" true titleAndTagsVariables movieSchema
      = .error "schema.Types is missing type defined by variable \"tags\": " ∧
    ∀ name r,
      kotlinClassForVariableDefinitions 1 name true titleAndTagsVariables movieSchema ≠ .ok r :=
  ⟨by decide, by decide, rfl,
   (listVariable_fails_flattening 1 movieSchema
      [{ Variable := "title", Type_ := .leaf "String" true, Directives := [],
         Definition := builtInScalar "String" }]
      { Variable := "tags", Type_ := .wrap "" (.leaf "String" true) false, Directives := [],
        Definition := builtInScalar "String" }
      [] (.leaf "String" true) false (by decide) rfl).2.2.2⟩

/-! ## Termination of the nested-class worklist on every schema -/

theorem expandNestedFields_measure (schema : Schema) (a : Option VariableDefinition) :
    ∀ (fs : List FieldDefinition) (q : List String) (d : List (String × Definition))
      (q' : List String) (d' : List (String × Definition)),
      expandNestedFields schema a fs q d = .ok (q', d') →
      q'.length + unexpandedTypeCount schema d' ≤ q.length + unexpandedTypeCount schema d := by
  intro fs
  induction fs with
  | nil =>
    intro q d q' d' h
    simp only [expandNestedFields] at h
    injection h with h
    injection h with h1 h2
    subst h1 h2
    exact le_refl _
  | cons f rest ih =>
    intro q d q' d' h
    simp only [expandNestedFields] at h
    by_cases hs : isScalarType f.Type_ = true
    · rw [if_pos hs] at h
      exact ih q d q' d' h
    · rw [if_neg hs] at h
      cases hg : mapGet d (namedTypeOfInnermostElemOfType f.Type_).NamedType with
      | some D0 =>
        rw [hg] at h
        exact ih q d q' d' h
      | none =>
        rw [hg] at h
        simp only at h
        cases hl : schema.lookupType (namedTypeOfInnermostElemOfType f.Type_).NamedType with
        | none =>
          rw [hl] at h
          cases a <;> simp at h
        | some pd =>
          obtain ⟨p, F⟩ := pd
          rw [hl] at h
          simp only at h
          have hle := ih _ _ q' d' h
          have hkey : (namedTypeOfInnermostElemOfType f.Type_).NamedType ∈ mapKeys schema.Types :=
            List.mem_map.2 ⟨_, (lookupType_mem_keys schema _ p F hl).1, rfl⟩
          have hstep := unexpandedTypeCount_mapSet schema d _ F hkey hg
          rw [List.length_append, List.length_singleton] at hle
          omega

/-- The worklist ends within `fuel` iterations when `fuel` is at least the length of the
worklist plus the number of type names of the schema without a definition in the map. -/
theorem nestedWorklist_ends (schema : Schema) (vmap : List (String × VariableDefinition)) :
    ∀ (fuel : Nat) (q : List String) (d : List (String × Definition)) (acc : List kotlinClass),
      q.length + unexpandedTypeCount schema d ≤ fuel →
      nestedWorklist schema vmap fuel q d acc ≠ .diverge := by
  intro fuel
  induction fuel with
  | zero =>
    intro q d acc hfuel
    cases q with
    | nil => simp [nestedWorklist]
    | cons n q0 => simp at hfuel
  | succ fuel ih =>
    intro q d acc hfuel
    cases q with
    | nil => simp [nestedWorklist]
    | cons n q0 =>
      simp only [nestedWorklist]
      cases hg : mapGet d n with
      | none => simp
      | some D =>
        simp only
        cases he : expandNestedFields schema (mapGet vmap n) D.Fields q0 d with
        | ok qd =>
          obtain ⟨q', d'⟩ := qd
          simp only
          apply ih
          have := expandNestedFields_measure schema _ _ _ _ _ _ he
          simp only [List.length_cons] at hfuel
          omega
        | error m => simp
        | panic m => simp
        | diverge =>
          exfalso
          clear hfuel ih hg
          generalize D.Fields = fs at he
          induction fs generalizing q0 d with
          | nil => simp [expandNestedFields] at he
          | cons f rest ihf =>
            simp only [expandNestedFields] at he
            by_cases hs : isScalarType f.Type_ = true
            · rw [if_pos hs] at he
              exact ihf _ _ he
            · rw [if_neg hs] at he
              cases hg' : mapGet d (namedTypeOfInnermostElemOfType f.Type_).NamedType with
              | some D0 =>
                rw [hg'] at he
                exact ihf _ _ he
              | none =>
                rw [hg'] at he
                simp only at he
                cases hl : schema.lookupType (namedTypeOfInnermostElemOfType f.Type_).NamedType with
                | none =>
                  rw [hl] at he
                  cases hv : mapGet vmap n <;> rw [hv] at he <;> simp at he
                | some pd =>
                  obtain ⟨p, F⟩ := pd
                  rw [hl] at he
                  exact ihf _ _ he

theorem seedNestedTypes_length (schema : Schema) :
    ∀ (vds : List VariableDefinition) (st st' : NestedState),
      seedNestedTypes schema vds st = .ok st' →
      st'.nestedTypeNames.length ≤ st.nestedTypeNames.length + vds.length := by
  intro vds
  induction vds with
  | nil =>
    intro st st' h
    simp only [seedNestedTypes] at h
    injection h with h
    subst h
    simp
  | cons x rest ih =>
    intro st st' h
    simp only [seedNestedTypes] at h
    by_cases hs : isScalarType x.Type_ = true
    · rw [if_pos hs] at h
      have := ih st st' h
      simp only [List.length_cons]
      omega
    · rw [if_neg hs] at h
      cases hl : schema.lookupType (namedTypeOfInnermostElemOfType x.Type_).NamedType with
      | none => rw [hl] at h; simp at h
      | some pd =>
        obtain ⟨p, T⟩ := pd
        rw [hl] at h
        simp only at h
        by_cases hb : T.BuiltIn = true
        · rw [if_pos hb] at h
          have := ih st st' h
          simp only [List.length_cons]
          omega
        · rw [if_neg hb] at h
          have := ih _ st' h
          simp only [List.length_append, List.length_singleton, List.length_cons,
            List.length_nil] at this ⊢
          omega

theorem seedNestedTypes_ne_diverge (schema : Schema) :
    ∀ (vds : List VariableDefinition) (st : NestedState),
      seedNestedTypes schema vds st ≠ .diverge := by
  intro vds
  induction vds with
  | nil => intro st; simp [seedNestedTypes]
  | cons x rest ih =>
    intro st
    simp only [seedNestedTypes]
    by_cases hs : isScalarType x.Type_ = true
    · rw [if_pos hs]
      exact ih st
    · rw [if_neg hs]
      cases hl : schema.lookupType (namedTypeOfInnermostElemOfType x.Type_).NamedType with
      | none => simp
      | some pd =>
        obtain ⟨p, T⟩ := pd
        simp only
        by_cases hb : T.BuiltIn = true
        · rw [if_pos hb]
          exact ih st
        · rw [if_neg hb]
          exact ih _

/-- Claim C27. The nested-class worklist of `nestedClassesFromVariableDefinitions` ends
for every schema and every list of variable definitions, reference cycles among non-scalar
fields included: there is an outcome other than running on (classes, an error or a panic)
that the function reaches within every bound on the worklist iterations that is at least
the number of variable definitions plus the number of entries of the type mapping. -/
theorem nestedClasses_worklist_terminates (schema : Schema) (vds : List VariableDefinition) :
    ∃ r, r ≠ .diverge ∧
      ∀ fuel, vds.length + schema.Types.length ≤ fuel →
        nestedClassesFromVariableDefinitions fuel vds schema = r := by
  have hbound : nestedClassesFromVariableDefinitions (vds.length + schema.Types.length) vds schema
      ≠ .diverge := by
    unfold nestedClassesFromVariableDefinitions
    cases hseed : seedNestedTypes schema vds
        { nestedTypeNames := [], nestedTypeDefinitionByName := [],
          variableDefinitionByNestedTypeName := [] } with
    | ok st =>
      simp only
      apply nestedWorklist_ends
      have h1 := seedNestedTypes_length schema vds _ st hseed
      have h2 := unexpandedTypeCount_le schema st.nestedTypeDefinitionByName
      simp only [List.length_nil, Nat.zero_add] at h1
      omega
    | error m => simp
    | panic m => simp
    | diverge => exact absurd hseed (seedNestedTypes_ne_diverge schema vds _)
  refine ⟨_, hbound, ?_⟩
  intro fuel hfuel
  obtain ⟨k, hk⟩ : ∃ k, fuel = vds.length + schema.Types.length + k := ⟨fuel - (vds.length + schema.Types.length), by omega⟩
  rw [hk]
  exact nestedClasses_fuel_mono _ k vds schema _ rfl hbound

/-- Claim C27, witness: with `type Author { book: Book }` and `type Book { author: Author }`,
whose fields form a cycle, the worklist for `$a: Author` ends after two iterations with
one class per type, within the bound of one variable plus two types. -/
theorem nestedClasses_terminates_on_cycle :
    nestedClassesFromVariableDefinitions
        ([authorVariable].length + authorBookSchema.Types.length) [authorVariable] authorBookSchema
      = .ok [.mk "Author" [{ Name := "book", KotlinType := "Book?", IsLast := true }] [] [],
             .mk "Book" [{ Name := "author", KotlinType := "Author?", IsLast := true }] [] []] ∧
    ∃ r, r ≠ .diverge ∧
      ∀ fuel, [authorVariable].length + authorBookSchema.Types.length ≤ fuel →
        nestedClassesFromVariableDefinitions fuel [authorVariable] authorBookSchema = r :=
  ⟨rfl, nestedClasses_worklist_terminates authorBookSchema [authorVariable]⟩

end DataConnect
